import Mathlib

/-!
# Mapper: the district aggregator `computePC4Stats` and the page logic around it

A shallow embedding of `computePC4Stats` (src/static/app.js and src/deploy/app.js, the
two copies have the same body) together with the pieces of the JavaScript runtime it
relies on: the regular expression `/\b(\d{4})\s*[A-Z]{2}\b/`, plain objects used as
maps (own properties in insertion order, inherited `Object.prototype` members, the
enumeration order of `Object.entries`), the stable `Array.prototype.sort` and
`Number.prototype.toFixed(2)`. Around it: the call as a state transformer over the
module-level variables, the colour scales `getColor` and `getFarmsColor`, the table
`pc4ToNeighborhood` with `getNeighborhoodName`, the deployed `applyFilters` and the
enrichment of GeoJSON features in `loadMapData`.

Conventions of the embedding.
* Text is `String`; a regular expression without the `u` flag works on UTF-16 code
  units, and every code unit of a character outside the Basic Multilingual Plane is
  neither a digit, a letter `A-Z`, a word character nor white space, so matching on
  characters gives the same answer.
* Ratings and counts given to the colour scales are exact rationals (`ℚ`); a missing
  field (`undefined`, `null`) is `none`.
* A JavaScript `TypeError` is an explicit `Except` result.
* Built-in functions whose results depend on Unicode tables, the locale or number parsing
  (`toLowerCase`, `localeCompare`, `parseFloat`) are parameters, collected in `Runtime`.
-/

namespace Mapper

/-! ## Data model -/

/-- A restaurant record of `restaurants_data.json`; every field may be missing. -/
structure Restaurant where
  name : Option String := none
  rating : Option ℚ := none
  reviews : Option ℕ := none
  address : Option String := none
  phone : Option String := none
  cuisine : Option String := none
  price_level : Option String := none
  website : Option String := none
  latitude : Option ℚ := none
  longitude : Option ℚ := none
  deriving DecidableEq

/-- The error the aggregator can raise, a `TypeError`: reading a property of `undefined`,
or calling a method that the value does not have. -/
inductive JsError where
  | typeError
  deriving DecidableEq, Repr

/-! ## The regular expression `/\b(\d{4})\s*[A-Z]{2}\b/` -/

/-- The class `\w` of a regular expression without flags: `[A-Za-z0-9_]`. -/
def isWordChar (c : Char) : Bool :=
  c.isAlphanum || c == '_'

/-- The class `\s`: the ECMAScript white space and line terminator code points. -/
def isSpaceChar (c : Char) : Bool :=
  let n := c.toNat
  n == 0x09 || n == 0x0A || n == 0x0B || n == 0x0C || n == 0x0D || n == 0x20 ||
  n == 0xA0 || n == 0x1680 || (0x2000 ≤ n && n ≤ 0x200A) || n == 0x2028 ||
  n == 0x2029 || n == 0x202F || n == 0x205F || n == 0x3000 || n == 0xFEFF

/-- Whether the character at one side of a position is a word character; the two ends
of the text count as non-word. -/
def isWordSide : Option Char → Bool
  | none => false
  | some c => isWordChar c

/-- The assertion `\b` at the position between `prev` and `next`. -/
def wordBoundary (prev next : Option Char) : Bool :=
  isWordSide prev != isWordSide next

/-- The part `[A-Z]{2}\b` of the pattern, tried at the head of `rest`. -/
def matchLetters : List Char → Bool
  | u1 :: u2 :: tl => u1.isUpper && u2.isUpper && wordBoundary (some u2) tl.head?
  | _ => false

/-- The part `\s*[A-Z]{2}\b`: the greedy star takes a white space character first and
falls back to matching the letters at the current position. -/
def matchTail : List Char → Bool
  | [] => matchLetters []
  | c :: cs => (isSpaceChar c && matchTail cs) || matchLetters (c :: cs)

/-- The whole pattern tried at one position (`prev` is the character before it);
the result is capture group 1, the four digits. -/
def matchAt (prev : Option Char) (rest : List Char) : Option (List Char) :=
  if wordBoundary prev rest.head? then
    match rest with
    | d1 :: d2 :: d3 :: d4 :: tl =>
      if d1.isDigit && d2.isDigit && d3.isDigit && d4.isDigit && matchTail tl then
        some [d1, d2, d3, d4]
      else none
    | _ => none
  else none

/-- The search of `String.prototype.match` with a non-global pattern: start positions
are tried from left to right and the first success wins. -/
def regexSearch (prev : Option Char) : List Char → Option (List Char)
  | [] => matchAt prev []
  | c :: cs =>
    match matchAt prev (c :: cs) with
    | some digits => some digits
    | none => regexSearch (some c) cs

/-- The value of `match[1]` for `address.match(/\b(\d{4})\s*[A-Z]{2}\b/)`, or `none` when
`match` is `null`. -/
def extractPC4 (address : String) : Option String :=
  (regexSearch none address.toList).map String.mk

/-! ## Plain objects used as maps -/

/-- The value stored under a key of the `cuisines` object: a number, or the text that
results from `+ 1` applied to an inherited `Object.prototype` member (its source text
followed by `1`), which `b[1] - a[1]` turns into `NaN`. -/
inductive TallyVal where
  | count (n : ℕ)
  | garbled
  deriving DecidableEq, Repr

/-- The own properties of a `cuisines` object, in insertion order. -/
abbrev Tally := List (String × TallyVal)

/-- The function-valued members every plain object inherits from `Object.prototype`. -/
def objectPrototypeMethods : List String :=
  ["constructor", "hasOwnProperty", "isPrototypeOf", "propertyIsEnumerable",
   "toLocaleString", "toString", "valueOf", "__defineGetter__", "__defineSetter__",
   "__lookupGetter__", "__lookupSetter__"]

/-- Every property name a fresh `{}` answers to with a truthy value. -/
def objectPrototypeNames : List String :=
  "__proto__" :: objectPrototypeMethods

/-- The own property `k` of an object, `none` when there is none. -/
def getOwn {β : Type} (k : String) : List (String × β) → Option β
  | [] => none
  | (k', v) :: rest => if k' = k then some v else getOwn k rest

/-- Replace the value of the first entry with key `k`; the position is kept. -/
def setOwn {β : Type} (k : String) (v : β) : List (String × β) → List (String × β)
  | [] => []
  | (k', w) :: rest => if k' = k then (k', v) :: rest else (k', w) :: setOwn k v rest

/-- The statement `cuisines[c] = (cuisines[c] || 0) + 1`.
An own numeric value is incremented. An own text value gets another `1` appended.
Without an own property the read reaches `Object.prototype`: for `__proto__` it returns
the prototype object and the assignment of the resulting text is ignored by the
`__proto__` setter; for an inherited method the method's text followed by `1` becomes
an own property; any other key starts at `0 + 1`. -/
def bump (t : Tally) (c : String) : Tally :=
  match getOwn c t with
  | some (.count n) => setOwn c (.count (n + 1)) t
  | some .garbled => setOwn c .garbled t
  | none =>
    if c = "__proto__" then t
    else if c ∈ objectPrototypeMethods then t ++ [(c, .garbled)]
    else t ++ [(c, .count 1)]

/-- The numeric value of a decimal digit string. -/
def digitsValue (cs : List Char) : ℕ :=
  cs.foldl (fun n c => 10 * n + (c.toNat - '0'.toNat)) 0

/-- An array index in the sense of ECMAScript: the canonical decimal text of an integer
between `0` and `2^32 - 2`. Such keys are enumerated before all other keys. -/
def arrayIndex? (k : String) : Option ℕ :=
  let cs := k.toList
  if cs ≠ [] ∧ cs.all Char.isDigit ∧ (cs.head? ≠ some '0' ∨ cs.length = 1) ∧
      digitsValue cs ≤ 4294967294 then
    some (digitsValue cs)
  else none

/-- The key order of `Object.entries` (OrdinaryOwnPropertyKeys): array-index keys in
ascending numeric order, then the remaining keys in insertion order. -/
def objectEntries {β : Type} (o : List (String × β)) : List (String × β) :=
  (o.filter fun e => (arrayIndex? e.1).isSome).insertionSort
      (fun a b => (arrayIndex? a.1).getD 0 ≤ (arrayIndex? b.1).getD 0) ++
    o.filter fun e => !(arrayIndex? e.1).isSome

/-- The number `b[1] - a[1]` as far as `sort` looks at it: whether it is `≤ 0`, that is
whether `a` may stay before `b`. With a text operand the difference is `NaN`, which
`sort` reads as `0`. -/
def compareCuisines (a b : String × TallyVal) : Bool :=
  match a.2, b.2 with
  | .count m, .count n => decide (n ≤ m)
  | _, _ => true

/-- The call `.sort((a, b) => b[1] - a[1])`: a stable sort. Every stable sort returns this
list when the comparator is consistent, which it is as long as all values are numbers. -/
def sortCuisines (es : List (String × TallyVal)) : List (String × TallyVal) :=
  es.insertionSort fun a b => compareCuisines a b = true

/-! ## `Number.prototype.toFixed(2)` -/

/-- The value of `avg_rating`. -/
inductive AvgRating where
  /-- A JavaScript number. -/
  | number (q : ℚ)
  /-- The text returned by `toFixed(2)` in fixed notation. -/
  | text (s : String)
  /-- The text returned by `toFixed(2)` for a magnitude of at least `10^21`, where it falls
  back to `ToString` and its exponent notation; the digits are not modelled. -/
  | exponentText (q : ℚ)
  deriving DecidableEq

/-- The decimal digit character of `d < 10`. -/
def digitChar (d : ℕ) : Char :=
  Char.ofNat ('0'.toNat + d % 10)

/-- The call `x.toFixed(2)`: the sign is split off, `n` is the integer nearest to
`100 * |x|` (the larger one on a tie) and the text is `n` with a point before its last
two digits. -/
def toFixed2 (x : ℚ) : AvgRating :=
  if (10 : ℚ) ^ 21 ≤ |x| then .exponentText x
  else
    let n := ⌊|x| * 100 + 1 / 2⌋.toNat
    .text ((if x < 0 then "-" else "") ++ toString (n / 100) ++ "." ++
      String.mk [digitChar (n / 10), digitChar n])

/-! ## `computePC4Stats` -/

/-- The object `{ count, total_rating, cuisines }` kept per district while scanning. -/
structure DistrictAcc where
  count : ℕ
  total_rating : ℚ
  cuisines : Tally
  deriving DecidableEq

/-- The object `{ count, avg_rating, top_cuisines }` left per district at the end. -/
structure DistrictStats where
  count : ℕ
  avg_rating : AvgRating
  top_cuisines : List String
  deriving DecidableEq

/-- The read `stats[pc4]` followed by an update of the object found; reading a property
of `undefined` is a `TypeError`. -/
def updateDistrict (pc4 : String) (f : DistrictAcc → DistrictAcc) :
    List (String × DistrictAcc) → Except JsError (List (String × DistrictAcc))
  | [] => .error .typeError
  | (k, a) :: rest =>
    if k = pc4 then .ok ((k, f a) :: rest)
    else (updateDistrict pc4 f rest).map ((k, a) :: ·)

/-- The truthiness test `if (r.rating)`: present and not zero. -/
def truthyRating (r : Restaurant) : Option ℚ :=
  r.rating.filter fun q => q ≠ 0

/-- The truthiness test `if (r.cuisine)`: present and not the empty text. -/
def truthyCuisine (r : Restaurant) : Option String :=
  r.cuisine.filter fun c => c ≠ ""

/-- The body of `restaurants.forEach(r => ...)`. The key `pc4` consists of four digits,
so the read `stats[pc4]` never reaches a member of `Object.prototype`. -/
def visit (stats : List (String × DistrictAcc)) (r : Restaurant) :
    Except JsError (List (String × DistrictAcc)) :=
  let address := r.address.getD ""
  match extractPC4 address with
  | none => .ok stats
  | some pc4 => do
    let stats1 :=
      if (getOwn pc4 stats).isNone then
        stats ++ [(pc4, { count := 0, total_rating := 0, cuisines := [] })]
      else stats
    let stats2 ← updateDistrict pc4 (fun s => { s with count := s.count + 1 }) stats1
    let stats3 ←
      match truthyRating r with
      | some q => updateDistrict pc4 (fun s => { s with total_rating := s.total_rating + q }) stats2
      | none => .ok stats2
    match truthyCuisine r with
    | some c => updateDistrict pc4 (fun s => { s with cuisines := bump s.cuisines c }) stats3
    | none => .ok stats3

/-- The body of `Object.keys(stats).forEach(pc4 => ...)` for one district. -/
def finish (s : DistrictAcc) : DistrictStats :=
  { count := s.count
    avg_rating := if s.count > 0 then toFixed2 (s.total_rating / s.count) else .number 0
    top_cuisines := ((sortCuisines (objectEntries s.cuisines)).take 3).map fun c => c.1 }

/-- The function `computePC4Stats(restaurants)`. The result lists the districts in the
order in which their keys were added to `stats`; the second loop rewrites every
district on its own, so the order in which it runs does not matter. -/
def computePC4Stats (restaurants : List Restaurant) :
    Except JsError (List (String × DistrictStats)) :=
  (restaurants.foldlM visit []).map fun stats => stats.map fun e => (e.1, finish e.2)

/-! ## A per-district view of the scan

The scan touches one district per listing, so what it leaves under a key depends only
on the listings of that district, in their input order. The definitions below describe
that view; the lemmas further down show that `computePC4Stats` agrees with it. -/

deriving instance DecidableEq for Except

/-- The accumulator a district starts with. -/
def emptyDistrict : DistrictAcc :=
  { count := 0, total_rating := 0, cuisines := [] }

/-- Apply `f` to the value of the first entry with key `k`. -/
def modifyOwn {β : Type} (k : String) (f : β → β) : List (String × β) → List (String × β)
  | [] => []
  | (k', v) :: rest => if k' = k then (k', f v) :: rest else (k', v) :: modifyOwn k f rest

/-- The three updates one listing makes to the accumulator of its district. -/
def addListing (s : DistrictAcc) (r : Restaurant) : DistrictAcc :=
  { count := s.count + 1
    total_rating := s.total_rating + (truthyRating r).getD 0
    cuisines := match truthyCuisine r with
      | some c => bump s.cuisines c
      | none => s.cuisines }

/-- The district a listing falls in: the postal digits found in its address. -/
def districtOf (r : Restaurant) : Option String :=
  extractPC4 (r.address.getD "")

/-- The listings of district `p`, in input order. -/
def group (p : String) (rs : List Restaurant) : List Restaurant :=
  rs.filter fun r => districtOf r = some p

/-- The effect of `visit` when no error is raised. -/
def visitPure (stats : List (String × DistrictAcc)) (r : Restaurant) :
    List (String × DistrictAcc) :=
  match districtOf r with
  | none => stats
  | some pc4 =>
    modifyOwn pc4 (fun s => addListing s r)
      (if (getOwn pc4 stats).isNone then stats ++ [(pc4, emptyDistrict)] else stats)

/-- An occurrence of a postal code in the text `a`, right after the part `pre`: four
decimal digits, any number of white space characters and two upper-case letters, with
no word character (letter, digit or underscore) directly before the digits or directly
after the letters. -/
def PostalMatch (a pre digits : List Char) : Prop :=
  ∃ ws letters post, a = pre ++ digits ++ ws ++ letters ++ post ∧
    digits.length = 4 ∧ (∀ c ∈ digits, c.isDigit = true) ∧
    (∀ c ∈ ws, isSpaceChar c = true) ∧
    letters.length = 2 ∧ (∀ c ∈ letters, c.isUpper = true) ∧
    isWordSide pre.getLast? = false ∧ isWordSide post.head? = false

/-- The character before the position reached after reading `pre`, where `prev` is the
character before `pre`. -/
def sideBefore (prev : Option Char) (pre : List Char) : Option Char :=
  match pre.getLast? with
  | some c => some c
  | none => prev

/-- The categories tallied for a list of listings, in input order. -/
def categories (rs : List Restaurant) : List String :=
  rs.filterMap truthyCuisine

/-- The form of a postal code as the specification words it, without any condition on
the neighbouring characters: four decimal digits, any number of white space characters
and two upper-case letters, found in `a` right after the part `pre`. -/
def PostalSubstring (a pre digits : List Char) : Prop :=
  ∃ ws letters post, a = pre ++ digits ++ ws ++ letters ++ post ∧
    digits.length = 4 ∧ (∀ c ∈ digits, c.isDigit = true) ∧
    (∀ c ∈ ws, isSpaceChar c = true) ∧
    letters.length = 2 ∧ (∀ c ∈ letters, c.isUpper = true)

/-! ## The ranking of categories as the specification words it -/

/-- The distinct members of `cats` in the order in which they are first encountered. -/
def firstSeen (cats : List String) : List String :=
  cats.foldl (fun seen c => if c ∈ seen then seen else seen ++ [c]) []

/-- The top categories in the words of the specification: the distinct categories
sorted by descending frequency, ties broken by first-encountered order, truncated
to 3. -/
def topCategoriesSpec (cats : List String) : List String :=
  ((firstSeen cats).insertionSort fun a b => cats.count b ≤ cats.count a).take 3

/-! ## Sample inputs -/

/-- Three listings of district 1012: rated 4.0, rated 5.0 and unrated. -/
def ratedListings : List Restaurant :=
  [{ name := some "De Roode Leeuw", address := some "Damrak 93, 1012 LP Amsterdam",
     rating := some 4 },
   { name := some "Kapitein Zeppos", address := some "Gebed Zonder End 5, 1012 HS Amsterdam",
     rating := some 5 },
   { name := some "Cafe Hoppe", address := some "Spui 18, 1012 XA Amsterdam" }]

/-- One unrated listing of district 1012. -/
def unratedListings : List Restaurant :=
  [{ name := some "Cafe Hoppe", address := some "Spui 18, 1012 XA Amsterdam" }]

/-- Two listings of district 1012 whose categories read like integers, `10` first. -/
def numberedListings : List Restaurant :=
  [{ address := some "Damrak 93, 1012 LP Amsterdam", cuisine := some "10" },
   { address := some "Spui 18, 1012 XA Amsterdam", cuisine := some "2" }]

/-- Four listings of district 1012 with the categories A, B, A, B in that order. -/
def tiedListings : List Restaurant :=
  [{ address := some "Damrak 93, 1012 LP Amsterdam", cuisine := some "A" },
   { address := some "Spui 18, 1012 XA Amsterdam", cuisine := some "B" },
   { address := some "Nes 20, 1012 KE Amsterdam", cuisine := some "A" },
   { address := some "Rokin 75, 1012 KL Amsterdam", cuisine := some "B" }]

/-- A listing whose address holds no postal code. -/
def strayListing : Restaurant :=
  { name := some "Pop-up", address := some "Amsterdam Centraal", rating := some 3,
    cuisine := some "Dutch" }

/-- A listing of district 1012 without a category. -/
def plainListing : Restaurant :=
  { name := some "Cafe Hoppe", address := some "Spui 18, 1012 XA Amsterdam", rating := some 4 }

/-- Listings of the districts 1012 and 1017 with categories. -/
def mixedListings : List Restaurant :=
  [{ address := some "Damrak 93, 1012 LP Amsterdam", rating := some 4, cuisine := some "Dutch" },
   { address := some "Utrechtsestraat 6, 1017VN Amsterdam", cuisine := some "Thai" },
   { address := some "Nes 20, 1012 KE Amsterdam", rating := some 5, cuisine := some "Dutch" }]

/-- Five listings of district 1017 with five different categories. -/
def variedListings : List Restaurant :=
  [{ address := some "Utrechtsestraat 6, 1017 VN Amsterdam", cuisine := some "Thai" },
   { address := some "Utrechtsestraat 8, 1017 VN Amsterdam", cuisine := some "Dutch" },
   { address := some "Utrechtsestraat 9, 1017 VN Amsterdam", cuisine := some "Italian" },
   { address := some "Utrechtsestraat 12, 1017 VN Amsterdam", cuisine := some "French" },
   { address := some "Utrechtsestraat 30, 1017 VN Amsterdam", cuisine := some "Greek" }]

/-! ## The call as a state transformer

The module keeps its data in module-level variables; `computePC4Stats` receives an array
owned by its caller and works on the object bound to its local constant `stats`, which
shadows the module-level variable of the same name. -/

/-- The module-level object `stats` that `loadStats` fills for the page header. -/
structure SiteStats where
  total_restaurants : ℕ := 0
  average_rating : AvgRating := .number 0
  total_reviews : ℕ := 0
  deriving DecidableEq

/-- The module-level variables `allRestaurants`, `filteredRestaurants` and `stats`. -/
structure Globals where
  allRestaurants : List Restaurant := []
  filteredRestaurants : List Restaurant := []
  stats : SiteStats := {}
  deriving DecidableEq

/-- The store a call of `computePC4Stats` works in: the module-level variables, the array
bound to the parameter `restaurants` with the listing objects it holds, and the object
bound to the local constant `stats`. -/
structure Store where
  globals : Globals
  restaurants : List Restaurant
  stats : List (String × DistrictAcc)
  deriving DecidableEq

/-- One invocation of the callback of `restaurants.forEach` for index `k`: the element is
read from the array and the statements of the callback assign to members of the local
`stats` only. An index without element is skipped. -/
def visitAt (st : Store) (k : ℕ) : Except JsError Store :=
  match st.restaurants[k]? with
  | none => .ok st
  | some r => (visit st.stats r).map fun stats => { st with stats := stats }

/-- The loop of `Array.prototype.forEach` from index `k` on, for the `n` indices left below
the length that was read when the loop started. -/
def forEachFrom (st : Store) (k : ℕ) : ℕ → Except JsError Store
  | 0 => .ok st
  | n + 1 =>
    match visitAt st k with
    | .error e => .error e
    | .ok st' => forEachFrom st' (k + 1) n

/-- A call `computePC4Stats(restaurants)` made while the module-level variables hold `g`:
the local `stats` starts as the empty object, the array is scanned and every district is
finished. The result holds the module-level variables and the array as they are after
the call, and the returned mapping. -/
def callComputePC4Stats (g : Globals) (restaurants : List Restaurant) :
    Except JsError (Globals × List Restaurant × List (String × DistrictStats)) :=
  match forEachFrom { globals := g, restaurants := restaurants, stats := [] } 0
      restaurants.length with
  | .error e => .error e
  | .ok st => .ok (st.globals, st.restaurants, st.stats.map fun e => (e.1, finish e.2))

/-- A sequence of calls of `computePC4Stats`, one per argument in `calls`, each made in
the state the previous call left; the mappings are collected in call order. -/
def callSequence (g : Globals) :
    List (List Restaurant) → Except JsError (Globals × List (List (String × DistrictStats)))
  | [] => .ok (g, [])
  | rs :: calls =>
    match callComputePC4Stats g rs with
    | .error e => .error e
    | .ok (g1, _, m) =>
      match callSequence g1 calls with
      | .error e => .error e
      | .ok (g2, ms) => .ok (g2, m :: ms)

/-! ## Map colours -/

/-- The function `getColor(d)` of the restaurant map, on a rational count. -/
def getColor (d : ℚ) : String :=
  if d > 50 then "#800026"
  else if d > 20 then "#BD0026"
  else if d > 10 then "#E31A1C"
  else if d > 5 then "#FC4E2A"
  else if d > 2 then "#FD8D3C"
  else if d > 0 then "#FEB24C"
  else "#FFEDA0"

/-- The function `getFarmsColor(d)` of the farms map, on a rational count. -/
def getFarmsColor (d : ℚ) : String :=
  if d > 200 then "#00441b"
  else if d > 100 then "#006d2c"
  else if d > 50 then "#238b45"
  else if d > 20 then "#41ab5d"
  else if d > 10 then "#74c476"
  else if d > 5 then "#a1d99b"
  else if d > 0 then "#c7e9c0"
  else "#f7fcf5"

/-- The greens of the farms map from lightest to darkest. -/
def farmsGreens : List String :=
  ["#f7fcf5", "#c7e9c0", "#a1d99b", "#74c476", "#41ab5d", "#238b45", "#006d2c", "#00441b"]

/-- The rank of a colour in `farmsGreens`: 0 for the lightest green, 7 for the darkest. -/
def greenRank (colour : String) : ℕ :=
  farmsGreens.indexOf colour

/-! ## The neighbourhood table -/

/-- The value of a property read: a text, or a member inherited from `Object.prototype`
(a function, or the prototype object itself for `__proto__`). -/
inductive Member where
  | text (s : String)
  | inherited (name : String)
  deriving DecidableEq, Repr

/-- An object literal with text values: the properties are defined one after the other, and
a key that is written again receives the later value and keeps its place. -/
def objectLiteral (written : List (String × String)) : List (String × String) :=
  written.foldl
    (fun o e => if (getOwn e.1 o).isSome then setOwn e.1 e.2 o else o ++ [e]) []

/-- The entries of `pc4ToNeighborhood` as written in src/static/app.js, in source order. -/
def pc4ToNeighborhoodWritten : List (String × String) :=
  [("1011", "Burgwallen-Oude Zijde"), ("1012", "Burgwallen-Oude Zijde"),
    ("1013", "Grachtengordel-West"), ("1014", "Haarlemmerbuurt"),
    ("1015", "Grachtengordel-West"), ("1016", "Grachtengordel-Zuid"),
    ("1017", "Grachtengordel-Zuid"), ("1018", "Weesperbuurt/Plantage"),
    ("1019", "Oostelijke Eilanden"), ("1021", "Indische Buurt"), ("1022", "Indische Buurt"),
    ("1091", "Weesperbuurt/Plantage"), ("1092", "Oosterparkbuurt"), ("1093", "Dapperbuurt"),
    ("1094", "Oosterparkbuurt"), ("1095", "Indische Buurt"), ("1096", "Indische Buurt"),
    ("1097", "Indische Buurt"), ("1098", "IJburg"), ("1099", "IJburg"),
    ("1013", "Grachtengordel-West"), ("1014", "Haarlemmerbuurt"),
    ("1015", "Grachtengordel-West"), ("1016", "Grachtengordel-Zuid"), ("1051", "Oud-West"),
    ("1052", "Westerpark"), ("1053", "De Baarsjes"), ("1054", "Oud-West"),
    ("1055", "Bos en Lommer"), ("1056", "De Baarsjes"), ("1057", "Bos en Lommer"),
    ("1058", "Overtoomse Veld"), ("1059", "Slotervaart"), ("1060", "Slotermeer"),
    ("1061", "Overtoomse Veld"), ("1062", "Zuidas"), ("1063", "Buitenveldert"),
    ("1064", "Slotervaart"), ("1065", "Osdorp"), ("1066", "De Aker"), ("1067", "Osdorp"),
    ("1068", "Buitenveldert"), ("1069", "Slotervaart"), ("1070", "Zuid"),
    ("1071", "Museumkwartier"), ("1072", "Willemspark"), ("1073", "Apollobuurt"),
    ("1074", "Stadionbuurt"), ("1075", "Scheldebuurt"), ("1076", "Stadionbuurt"),
    ("1077", "Prinses Irenebuurt"), ("1078", "Rivierenbuurt"), ("1079", "Buitenveldert"),
    ("1081", "Buitenveldert"), ("1082", "Buitenveldert"), ("1083", "Buitenveldert"),
    ("1084", "Buitenveldert"), ("1085", "Buitenveldert"), ("1086", "Buitenveldert"),
    ("1087", "Buitenveldert"), ("1101", "Zuidoost - Bijlmer"),
    ("1102", "Zuidoost - Gaasperdam"), ("1103", "Zuidoost - Venserpolder"),
    ("1104", "Zuidoost - Gaasperdam"), ("1105", "Zuidoost - Nellestein"),
    ("1106", "Zuidoost - Holendrecht"), ("1107", "Zuidoost - Reigersbos"),
    ("1108", "Zuidoost - Gein"), ("1109", "Zuidoost - Driemond"),
    ("1031", "Noord - Buiksloterham"), ("1032", "Noord - Tuindorp Oostzaan"),
    ("1033", "Noord - Buiksloot"), ("1034", "Noord - Buiksloot"), ("1035", "Noord - Kadoelen"),
    ("1036", "Noord - Nieuwendam"), ("1021", "Noord - Overhoeks"),
    ("1043", "Nieuw-West - Geuzenveld"), ("1044", "Nieuw-West - Slotermeer"),
    ("1045", "Nieuw-West - Slotervaart"), ("1046", "Nieuw-West - Slotermeer"),
    ("1047", "Nieuw-West - Osdorp"), ("1061", "Nieuw-West - Overtoomse Veld"),
    ("1062", "Nieuw-West - Zuidas"), ("1064", "Nieuw-West - Slotervaart"),
    ("1065", "Nieuw-West - Osdorp"), ("1066", "Nieuw-West - De Aker"),
    ("1067", "Nieuw-West - Osdorp"), ("1068", "Nieuw-West - Buitenveldert"),
    ("1069", "Nieuw-West - Slotervaart")]

/-- The object `pc4ToNeighborhood` of src/static/app.js. -/
def pc4ToNeighborhood : List (String × String) :=
  objectLiteral pc4ToNeighborhoodWritten

/-- The entries of `pc4ToNeighborhood` as written in src/deploy/app.js, in source order. -/
def deployPc4ToNeighborhoodWritten : List (String × String) :=
  [("1011", "Burgwallen-Oude Zijde"), ("1012", "Burgwallen-Oude Zijde"),
    ("1013", "Grachtengordel-West"), ("1014", "Haarlemmerbuurt"),
    ("1015", "Grachtengordel-West"), ("1016", "Grachtengordel-Zuid"),
    ("1017", "Grachtengordel-Zuid"), ("1018", "Weesperbuurt/Plantage"),
    ("1019", "Oostelijke Eilanden"), ("1021", "Indische Buurt"), ("1022", "Indische Buurt"),
    ("1091", "Weesperbuurt/Plantage"), ("1092", "Oosterparkbuurt"), ("1093", "Dapperbuurt"),
    ("1094", "Oosterparkbuurt"), ("1095", "Indische Buurt"), ("1096", "Indische Buurt"),
    ("1097", "Indische Buurt"), ("1098", "IJburg"), ("1099", "IJburg"), ("1051", "Oud-West"),
    ("1052", "Westerpark"), ("1053", "De Baarsjes"), ("1054", "Oud-West"),
    ("1055", "Bos en Lommer"), ("1056", "De Baarsjes"), ("1057", "Bos en Lommer"),
    ("1058", "Overtoomse Veld"), ("1059", "Slotervaart"), ("1060", "Slotermeer"),
    ("1061", "Overtoomse Veld"), ("1062", "Zuidas"), ("1063", "Buitenveldert"),
    ("1064", "Slotervaart"), ("1065", "Osdorp"), ("1066", "De Aker"), ("1067", "Osdorp"),
    ("1068", "Buitenveldert"), ("1069", "Slotervaart"), ("1070", "Zuid"),
    ("1071", "Museumkwartier"), ("1072", "Willemspark"), ("1073", "Apollobuurt"),
    ("1074", "Stadionbuurt"), ("1075", "Scheldebuurt"), ("1076", "Stadionbuurt"),
    ("1077", "Prinses Irenebuurt"), ("1078", "Rivierenbuurt"), ("1079", "Buitenveldert"),
    ("1081", "Buitenveldert"), ("1082", "Buitenveldert"), ("1083", "Buitenveldert"),
    ("1084", "Buitenveldert"), ("1085", "Buitenveldert"), ("1086", "Buitenveldert"),
    ("1087", "Buitenveldert"), ("1101", "Zuidoost - Bijlmer"),
    ("1102", "Zuidoost - Gaasperdam"), ("1103", "Zuidoost - Venserpolder"),
    ("1104", "Zuidoost - Gaasperdam"), ("1105", "Zuidoost - Nellestein"),
    ("1106", "Zuidoost - Holendrecht"), ("1107", "Zuidoost - Reigersbos"),
    ("1108", "Zuidoost - Gein"), ("1109", "Zuidoost - Driemond"),
    ("1031", "Noord - Buiksloterham"), ("1032", "Noord - Tuindorp Oostzaan"),
    ("1033", "Noord - Buiksloot"), ("1034", "Noord - Buiksloot"), ("1035", "Noord - Kadoelen"),
    ("1036", "Noord - Nieuwendam"), ("1021", "Noord - Overhoeks"),
    ("1043", "Nieuw-West - Geuzenveld"), ("1044", "Nieuw-West - Slotermeer"),
    ("1045", "Nieuw-West - Slotervaart"), ("1046", "Nieuw-West - Slotermeer"),
    ("1047", "Nieuw-West - Osdorp"), ("1061", "Nieuw-West - Overtoomse Veld"),
    ("1062", "Nieuw-West - Zuidas"), ("1064", "Nieuw-West - Slotervaart"),
    ("1065", "Nieuw-West - Osdorp"), ("1066", "Nieuw-West - De Aker"),
    ("1067", "Nieuw-West - Osdorp"), ("1068", "Nieuw-West - Buitenveldert"),
    ("1069", "Nieuw-West - Slotervaart")]

/-- The object `pc4ToNeighborhood` of src/deploy/app.js. -/
def deployPc4ToNeighborhood : List (String × String) :=
  objectLiteral deployPc4ToNeighborhoodWritten

/-- The expression `table[pc4] || "Amsterdam " + pc4`: an own non-empty text is returned, an
inherited member of `Object.prototype` is truthy and returned as it is, and otherwise the
default text is built. -/
def neighborhoodNameIn (table : List (String × String)) (pc4 : String) : Member :=
  match getOwn pc4 table with
  | some v => if v ≠ "" then .text v else .text ("Amsterdam " ++ pc4)
  | none =>
    if pc4 ∈ objectPrototypeNames then .inherited pc4 else .text ("Amsterdam " ++ pc4)

/-- The function `getNeighborhoodName(pc4)` of src/static/app.js. -/
def getNeighborhoodName (pc4 : String) : Member :=
  neighborhoodNameIn pc4ToNeighborhood pc4

/-- The function `getNeighborhoodName(pc4)` of src/deploy/app.js. -/
def deployGetNeighborhoodName (pc4 : String) : Member :=
  neighborhoodNameIn deployPc4ToNeighborhood pc4

/-- The value of the last entry written for `k`, if any. -/
def lastWritten (written : List (String × String)) (k : String) : Option String :=
  getOwn k written.reverse

/-! ## Reading a decimal text back -/

/-- The number denoted by digits, an optional point and further digits. -/
def unsignedValue (body : List Char) : ℚ :=
  let whole := body.takeWhile fun c => c != '.'
  let frac := (body.dropWhile fun c => c != '.').drop 1
  (digitsValue whole : ℚ) + (digitsValue frac : ℚ) / 10 ^ frac.length

/-- The number denoted by a decimal text with an optional leading minus sign. -/
def decimalValue : List Char → ℚ
  | '-' :: body => -unsignedValue body
  | body => unsignedValue body

/-! ## Filtering and sorting in the deployed page -/

/-- The built-in functions of the JavaScript runtime that `applyFilters` calls and whose
results depend on Unicode tables, the locale or number parsing. They are parameters of
the model; `parseFloat` answers `none` for `NaN`. -/
structure Runtime where
  toLowerCase : String → String
  localeCompare : String → String → ℤ
  parseFloat : String → Option ℚ

/-- The values of the form controls read by `applyFilters`. -/
structure Controls where
  searchInput : String := ""
  cuisineFilter : String := ""
  minRating : String := ""
  sortBy : String := "rating"
  deriving DecidableEq

/-- The method `String.prototype.trim`: white space is removed at both ends. -/
def trim (s : String) : String :=
  String.mk ((s.toList.dropWhile isSpaceChar).reverse.dropWhile isSpaceChar).reverse

/-- Whether `part` occurs in `text` from some position on. -/
def includesChars (part : List Char) : List Char → Bool
  | [] => part.isPrefixOf []
  | c :: cs => part.isPrefixOf (c :: cs) || includesChars part cs

/-- The method `text.includes(part)`. -/
def includes (text part : String) : Bool :=
  includesChars part.toList text.toList

/-- The callback of the search filter. -/
def matchesSearch (rt : Runtime) (search : String) (r : Restaurant) : Bool :=
  includes (rt.toLowerCase (r.name.getD "")) search ||
  includes (rt.toLowerCase (r.address.getD "")) search ||
  includes (rt.toLowerCase (r.cuisine.getD "")) search

/-- The callback `r => r.rating && r.rating >= rating` of the rating filter. -/
def meetsRating (rating : ℚ) (r : Restaurant) : Bool :=
  match r.rating with
  | some q => q ≠ 0 && rating ≤ q
  | none => false

/-- The callback `r => r.cuisine && r.cuisine.toLowerCase().includes(cuisine)`. -/
def matchesCuisine (rt : Runtime) (cuisine : String) (r : Restaurant) : Bool :=
  match r.cuisine with
  | some c => c ≠ "" && includes (rt.toLowerCase c) cuisine
  | none => false

/-- The call `filtered.sort(compare)` for a comparator given by the test `compare(a, b) ≤ 0`:
a stable sort. Every stable sort returns this list when the comparator is consistent. -/
def sortWith (keepsOrder : Restaurant → Restaurant → Bool) (l : List Restaurant) :
    List Restaurant :=
  l.insertionSort fun a b => keepsOrder a b = true

/-- The three sort branches of `applyFilters`; any other value of `sort` leaves the list
as it is. -/
def sortFiltered (rt : Runtime) (sort : String) (filtered : List Restaurant) :
    List Restaurant :=
  if sort = "rating" then
    sortWith (fun a b => decide (b.rating.getD 0 - a.rating.getD 0 ≤ 0)) filtered
  else if sort = "reviews" then
    sortWith (fun a b => decide ((b.reviews.getD 0 : ℤ) - (a.reviews.getD 0 : ℤ) ≤ 0)) filtered
  else if sort = "name" then
    sortWith (fun a b => decide (rt.localeCompare (a.name.getD "") (b.name.getD "") ≤ 0))
      filtered
  else filtered

/-- The function `applyFilters()` of src/deploy/app.js: the controls are read, a copy of
`allRestaurants` is filtered and sorted, and the result is assigned to
`filteredRestaurants`. -/
def applyFilters (rt : Runtime) (c : Controls) (g : Globals) : Globals :=
  let search := rt.toLowerCase (trim c.searchInput)
  let cuisine := rt.toLowerCase c.cuisineFilter
  let rating := rt.parseFloat c.minRating
  let sort := c.sortBy
  let filtered := g.allRestaurants
  let filtered := if search ≠ "" then filtered.filter (matchesSearch rt search) else filtered
  let filtered :=
    match rating with
    | some m => if m ≠ 0 then filtered.filter (meetsRating m) else filtered
    | none => filtered
  let filtered := if cuisine ≠ "" then filtered.filter (matchesCuisine rt cuisine) else filtered
  { g with filteredRestaurants := sortFiltered rt sort filtered }

/-- The three filter steps of `applyFilters` as one test: a step that is not active lets
every restaurant through. -/
def keeps (rt : Runtime) (c : Controls) (r : Restaurant) : Bool :=
  (decide (rt.toLowerCase (trim c.searchInput) = "") ||
    matchesSearch rt (rt.toLowerCase (trim c.searchInput)) r) &&
  (match rt.parseFloat c.minRating with
    | some m => decide (m = 0) || meetsRating m r
    | none => true) &&
  (decide (rt.toLowerCase c.cuisineFilter = "") ||
    matchesCuisine rt (rt.toLowerCase c.cuisineFilter) r)

/-- Whether a restaurant passes every active filter, in the words of the specification:
a set search text occurs in the lower-cased name, address or cuisine; with a minimum
rating above 0 the restaurant has a rating of at least that minimum; with a selected
cuisine the restaurant has a cuisine whose lower-cased form contains the selection. -/
def passesActiveFilters (rt : Runtime) (c : Controls) (r : Restaurant) : Bool :=
  let search := rt.toLowerCase (trim c.searchInput)
  let cuisine := rt.toLowerCase c.cuisineFilter
  (search = "" ||
    includes (rt.toLowerCase (r.name.getD "")) search ||
    includes (rt.toLowerCase (r.address.getD "")) search ||
    includes (rt.toLowerCase (r.cuisine.getD "")) search) &&
  (match rt.parseFloat c.minRating with
    | some m => !decide (0 < m) ||
      (match r.rating with
        | some q => decide (m ≤ q)
        | none => false)
    | none => true) &&
  (cuisine = "" ||
    (match truthyCuisine r with
      | some cu => includes (rt.toLowerCase cu) cuisine
      | none => false))

/-- A runtime for sample evaluations: ASCII lower-casing, code point order and a parser
that knows the numerals of the rating menu. -/
def sampleRuntime : Runtime :=
  { toLowerCase := String.toLower
    localeCompare := fun a b => if a < b then -1 else if a = b then 0 else 1
    parseFloat := fun s =>
      if s = "3" then some 3 else if s = "4" then some 4 else if s = "4.5" then some (9 / 2)
      else none }

/-- Module-level variables holding four restaurants. -/
def sampleGlobals : Globals :=
  { allRestaurants :=
      [{ name := some "Cafe Hoppe", address := some "Spui 18, 1012 XA Amsterdam",
         rating := some 4, reviews := some 120, cuisine := some "Dutch" },
       { name := some "Bird", address := some "Zeedijk 72, 1012 BA Amsterdam",
         rating := some (9 / 2), reviews := some 800, cuisine := some "Thai" },
       { name := some "Pop-up", address := some "Amsterdam Centraal" },
       { name := some "Moeders", address := some "Rozengracht 251, 1016 SX Amsterdam",
         rating := some 4, reviews := some 300, cuisine := some "Dutch" }] }

/-! ## Map enrichment in `loadMapData` -/

/-- A value in the `properties` of an enriched feature: a value taken over from the
GeoJSON file (kept as text), a count, an average rating or a list of category names. -/
inductive PropValue where
  | original (s : String)
  | count (n : ℕ)
  | rating (a : AvgRating)
  | names (l : List String)
  deriving DecidableEq

/-- A GeoJSON feature: its `properties` object and its other members (`type`, `geometry`
and so on), both as own properties in insertion order. -/
structure Feature where
  members : List (String × String) := []
  properties : List (String × String) := []
  deriving DecidableEq

/-- A feature after enrichment. -/
structure EnrichedFeature where
  members : List (String × String)
  properties : List (String × PropValue)
  deriving DecidableEq

/-- Define the properties of `source` on `target` one after the other: an existing key
gets the new value and keeps its place, a new key is added at the end. -/
def assignAll {β : Type} (target source : List (String × β)) : List (String × β) :=
  source.foldl (fun o e => if (getOwn e.1 o).isSome then setOwn e.1 e.2 o else o ++ [e]) target

/-- The own properties of a finished district object, in the order in which
`computePC4Stats` leaves them. -/
def statsEntries (d : DistrictStats) : List (String × PropValue) :=
  [("count", .count d.count), ("avg_rating", .rating d.avg_rating),
   ("top_cuisines", .names d.top_cuisines)]

/-- The text used as property key for `feature.properties.pc4`; a missing value reads
`undefined`. -/
def pc4Key (f : Feature) : String :=
  (getOwn "pc4" f.properties).getD "undefined"

/-- The callback of `geojson.features.map`. The read `statsByPC4[pc4]` yields the district
object, or an inherited member of `Object.prototype` (truthy, without own enumerable
properties, so the spread adds nothing), or `undefined`, in which case the default
object is used. The spreads copy own properties in the order of `Object.entries`. -/
def enrichFeature (statsByPC4 : List (String × DistrictStats)) (f : Feature) :
    EnrichedFeature :=
  let pc4 := pc4Key f
  let stats : List (String × PropValue) :=
    match getOwn pc4 statsByPC4 with
    | some d => statsEntries d
    | none =>
      if pc4 ∈ objectPrototypeNames then []
      else statsEntries { count := 0, avg_rating := .number 0, top_cuisines := [] }
  { members := f.members
    properties :=
      assignAll
        (assignAll [] ((objectEntries f.properties).map fun e => (e.1, PropValue.original e.2)))
        stats }

/-- The value of `enrichedFeatures` in `loadMapData`, for the features of the fetched
GeoJSON file and the current `allRestaurants`. -/
def enrichedFeatures (features : List Feature) (allRestaurants : List Restaurant) :
    Except JsError (List EnrichedFeature) :=
  (computePC4Stats allRestaurants).map fun statsByPC4 =>
    features.map (enrichFeature statsByPC4)

/-- Two features of a sample GeoJSON file: district 1012 and district 1099. -/
def sampleFeatures : List Feature :=
  [{ members := [("type", "Feature")],
     properties := [("pc4", "1012"), ("name", "Centrum"), ("count", "n/a")] },
   { members := [("type", "Feature")],
     properties := [("pc4", "1099"), ("name", "IJburg")] }]

/-! ## The legend of the farms map -/

/-- One line of the farms legend: the colour of its swatch, the bounds `from` and `to` of
its range (`upper` is `none` where `to` is `undefined`) and the markup pushed to `labels`. -/
structure LegendEntry where
  swatch : String
  lower : ℕ
  upper : Option ℕ
  html : String
  deriving DecidableEq

/-- The array `grades` of `legend.onAdd`. -/
def farmsGrades : List ℕ :=
  [0, 5, 10, 20, 50, 100, 200]

/-- The loop of `legend.onAdd` over `grades`: `from` is the current grade, `to` the next
one, the swatch is `getFarmsColor(from + 1)` and the label ends in `+` when `to` is
falsy. -/
def legendEntries : List ℕ → List LegendEntry
  | [] => []
  | lower :: rest =>
    { swatch := getFarmsColor ((lower : ℚ) + 1)
      lower := lower
      upper := rest.head?
      html := "<i style=\"background:" ++ getFarmsColor ((lower : ℚ) + 1) ++ "\"></i> " ++
        toString lower ++
        (match rest.head? with
          | some upper => if upper ≠ 0 then "&ndash;" ++ toString upper else "+"
          | none => "+") } :: legendEntries rest

/-- The legend entries of the farms map. -/
def farmsLegend : List LegendEntry :=
  legendEntries farmsGrades

/-! ## The copy of the aggregator in src/deploy/app.js, statement by statement

The deployed copy is embedded a second time at a finer grain: a district is a JavaScript
object whose members can be missing, the second loop runs over `Object.keys(stats)` in
the key order of the language and rewrites one object per step, and every read of a
member of `undefined` is a `TypeError`. -/

/-- A district object of the deployed copy. While the listings are scanned it has the
members `count`, `total_rating` and `cuisines`; the second loop adds `avg_rating` and
`top_cuisines` and deletes `cuisines` and `total_rating`. A missing member is `none`. -/
structure DistrictObject where
  count : ℕ
  total_rating : Option ℚ := none
  cuisines : Option Tally := none
  avg_rating : Option AvgRating := none
  top_cuisines : Option (List String) := none
  deriving DecidableEq

/-- The read `stats[pc4]` followed by statements on the object found, which may fail
themselves. -/
def updateObject (pc4 : String) (f : DistrictObject → Except JsError DistrictObject) :
    List (String × DistrictObject) → Except JsError (List (String × DistrictObject))
  | [] => .error .typeError
  | (k, o) :: rest =>
    if k = pc4 then (f o).map fun o' => (k, o') :: rest
    else (updateObject pc4 f rest).map ((k, o) :: ·)

/-- The callback of `restaurants.forEach` in src/deploy/app.js. Adding to a missing
`total_rating` gives `NaN`, kept as a missing member; indexing a missing `cuisines` is a
`TypeError`. -/
def deployVisit (stats : List (String × DistrictObject)) (r : Restaurant) :
    Except JsError (List (String × DistrictObject)) :=
  let address := r.address.getD ""
  match extractPC4 address with
  | none => .ok stats
  | some pc4 => do
    let stats1 :=
      if (getOwn pc4 stats).isNone then
        stats ++ [(pc4, { count := 0, total_rating := some 0, cuisines := some [] })]
      else stats
    let stats2 ← updateObject pc4 (fun s => .ok { s with count := s.count + 1 }) stats1
    let stats3 ←
      match truthyRating r with
      | some q =>
        updateObject pc4
          (fun s => .ok { s with total_rating := s.total_rating.map fun t => t + q }) stats2
      | none => .ok stats2
    match truthyCuisine r with
    | some c =>
      updateObject pc4
        (fun s =>
          match s.cuisines with
          | some t => .ok { s with cuisines := some (bump t c) }
          | none => .error .typeError) stats3
    | none => .ok stats3

/-- The callback of `Object.keys(stats).forEach` in src/deploy/app.js, on the object `s`.
`Object.entries` of a missing `cuisines` is a `TypeError`; a missing `total_rating` makes
the quotient `NaN`, which `toFixed(2)` prints as `NaN`. -/
def deployFinish (s : DistrictObject) : Except JsError DistrictObject :=
  let avg_rating :=
    if s.count > 0 then
      match s.total_rating with
      | some t => toFixed2 (t / s.count)
      | none => .text "NaN"
    else .number 0
  match s.cuisines with
  | none => .error .typeError
  | some t =>
    .ok { count := s.count
          total_rating := none
          cuisines := none
          avg_rating := some avg_rating
          top_cuisines := some (((sortCuisines (objectEntries t)).take 3).map fun c => c.1) }

/-- The function `computePC4Stats(restaurants)` of src/deploy/app.js. -/
def deployComputePC4Stats (restaurants : List Restaurant) :
    Except JsError (List (String × DistrictObject)) := do
  let stats ← restaurants.foldlM deployVisit []
  ((objectEntries stats).map fun e => e.1).foldlM
    (fun stats pc4 => updateObject pc4 deployFinish stats) stats

/-- A finished district as an object: `count`, `avg_rating` and `top_cuisines` are
present, `total_rating` and `cuisines` are not. -/
def DistrictStats.toObject (d : DistrictStats) : DistrictObject :=
  { count := d.count, avg_rating := some d.avg_rating, top_cuisines := some d.top_cuisines }

/-- An accumulator of the scan as an object. -/
def DistrictAcc.toObject (a : DistrictAcc) : DistrictObject :=
  { count := a.count, total_rating := some a.total_rating, cuisines := some a.cuisines }

/-! ## Listings that differ only in a zero rating -/

/-- Two listings that are the same, or differ only in that one has the rating 0 where the
other has no rating. -/
def SameUpToZeroRating (r r' : Restaurant) : Prop :=
  r' = r ∨ (r.rating = some 0 ∧ r' = { r with rating := none }) ∨
    (r.rating = none ∧ r' = { r with rating := some 0 })

/-- Listings of the districts 1012 and 1017, one of them with the rating 0. -/
def zeroRatedListings : List Restaurant :=
  [{ address := some "Damrak 93, 1012 LP Amsterdam", rating := some 4, cuisine := some "Dutch" },
   { address := some "Spui 18, 1012 XA Amsterdam", rating := some 0, cuisine := some "Dutch" },
   { address := some "Utrechtsestraat 6, 1017VN Amsterdam", cuisine := some "Thai" }]

/-- The listings of `zeroRatedListings` with the rating 0 removed and a rating 0 added. -/
def zeroSwappedListings : List Restaurant :=
  [{ address := some "Damrak 93, 1012 LP Amsterdam", rating := some 4, cuisine := some "Dutch" },
   { address := some "Spui 18, 1012 XA Amsterdam", cuisine := some "Dutch" },
   { address := some "Utrechtsestraat 6, 1017VN Amsterdam", rating := some 0,
     cuisine := some "Thai" }]

/-- Four listings of district 1012 with four categories, once each. -/
def fourCategories : List Restaurant :=
  [{ address := some "Damrak 93, 1012 LP Amsterdam", rating := some 4, cuisine := some "A" },
   { address := some "Spui 18, 1012 XA Amsterdam", rating := some 5, cuisine := some "B" },
   { address := some "Nes 20, 1012 KE Amsterdam", cuisine := some "C" },
   { address := some "Rokin 75, 1012 KL Amsterdam", rating := some 3, cuisine := some "D" }]

/-- The listings of `fourCategories` with the last one moved to the front. -/
def fourCategoriesRotated : List Restaurant :=
  [{ address := some "Rokin 75, 1012 KL Amsterdam", rating := some 3, cuisine := some "D" },
   { address := some "Damrak 93, 1012 LP Amsterdam", rating := some 4, cuisine := some "A" },
   { address := some "Spui 18, 1012 XA Amsterdam", rating := some 5, cuisine := some "B" },
   { address := some "Nes 20, 1012 KE Amsterdam", cuisine := some "C" }]

/-! ## Arrays as shared objects: `applyFilters` and `resetFilters` of src/deploy/app.js

`filtered.sort(...)` sorts an array in place, and `filteredRestaurants = allRestaurants`
makes two variables name one array. To see what a sort can reach, arrays live in a heap
and the variables hold references into it. -/

/-- The arrays that exist on a page, by reference number. -/
abbrev Heap := List (List Restaurant)

/-- The elements of the array behind reference `a`. -/
def readArray (h : Heap) (a : ℕ) : List Restaurant :=
  h.getD a []

/-- A new array with the elements `xs`: the heap that holds it and its reference. -/
def newArray (h : Heap) (xs : List Restaurant) : Heap × ℕ :=
  (h ++ [xs], h.length)

/-- The array behind reference `a` gets the elements `xs`; every other array is kept. -/
def writeArray (h : Heap) (a : ℕ) (xs : List Restaurant) : Heap :=
  h.set a xs

/-- The deployed page as `applyFilters` and `resetFilters` see it: the heap, the
references held by the module-level variables `allRestaurants` and
`filteredRestaurants`, and the values of the four form controls. -/
structure Page where
  heap : Heap
  allRestaurants : ℕ
  filteredRestaurants : ℕ
  controls : Controls
  deriving DecidableEq

/-- The function `applyFilters()` of src/deploy/app.js on the heap. The spread
`[...allRestaurants]` and every `filter` make a new array, `sort` rewrites the array
that `filtered` names at that point, and the last assignment stores a reference. -/
def Page.applyFilters (rt : Runtime) (p : Page) : Page :=
  let search := rt.toLowerCase (trim p.controls.searchInput)
  let cuisine := rt.toLowerCase p.controls.cuisineFilter
  let rating := rt.parseFloat p.controls.minRating
  let sort := p.controls.sortBy
  let filtered := newArray p.heap (readArray p.heap p.allRestaurants)
  let filtered :=
    if search ≠ "" then
      newArray filtered.1 ((readArray filtered.1 filtered.2).filter (matchesSearch rt search))
    else filtered
  let filtered :=
    match rating with
    | some m =>
      if m ≠ 0 then
        newArray filtered.1 ((readArray filtered.1 filtered.2).filter (meetsRating m))
      else filtered
    | none => filtered
  let filtered :=
    if cuisine ≠ "" then
      newArray filtered.1 ((readArray filtered.1 filtered.2).filter (matchesCuisine rt cuisine))
    else filtered
  { p with
    heap := writeArray filtered.1 filtered.2 (sortFiltered rt sort (readArray filtered.1 filtered.2))
    filteredRestaurants := filtered.2 }

/-- The function `resetFilters()` of src/deploy/app.js: the four controls get their
initial values and `filteredRestaurants` names the array of `allRestaurants`. -/
def Page.resetFilters (p : Page) : Page :=
  { p with
    controls := { searchInput := "", cuisineFilter := "", minRating := "", sortBy := "rating" }
    filteredRestaurants := p.allRestaurants }

/-- A page right after `loadRestaurants`: one array, named by both variables, and a
search for "1012" with sorting by name chosen in the controls. -/
def samplePage : Page :=
  { heap := [sampleGlobals.allRestaurants]
    allRestaurants := 0
    filteredRestaurants := 0
    controls := { searchInput := "1012", sortBy := "name" } }

/-- That `(h', a)` is a heap reached from `h` by making and rewriting new arrays only,
with `a` one of the new arrays, holding `xs`. -/
def ExtendsHeap (h : Heap) (s : Heap × ℕ) (xs : List Restaurant) : Prop :=
  h.length ≤ s.2 ∧ s.2 < s.1.length ∧ (∀ a, a < h.length → readArray s.1 a = readArray h a) ∧
    readArray s.1 s.2 = xs

/-! ## CSV export: `exportToCSV`

The two copies of `exportToCSV` build the same text: a header line and one line per
restaurant of `filteredRestaurants`, the lines joined with a line feed and the ten
fields of a line joined with commas. The download of the text is not modelled. -/

/-- The call `.replace(/"/g, '""')`: every double quote is written twice. -/
def escapeQuotes : List Char → List Char
  | [] => []
  | c :: cs => if c = '"' then '"' :: '"' :: escapeQuotes cs else c :: escapeQuotes cs

/-- A text field of a line: the template literal that puts `(value || '')`, with its
double quotes doubled, between two double quotes. -/
def quotedField (value : Option String) : String :=
  "\"" ++ String.mk (escapeQuotes (value.getD "").toList) ++ "\""

/-- A numeric field of a line, `value || ''`: a missing value and `0` give the empty
text, any other number the text `join` makes of it, which is `numberToString`. -/
def numberField (numberToString : ℚ → String) (value : Option ℚ) : String :=
  match value with
  | some q => if q ≠ 0 then numberToString q else ""
  | none => ""

/-- The method `Array.prototype.join` on an array of texts. -/
def joinWith (sep : String) : List String → String
  | [] => ""
  | [s] => s
  | s :: t :: rest => s ++ sep ++ joinWith sep (t :: rest)

/-- The array `headers` of `exportToCSV`. -/
def csvHeaders : List String :=
  ["Name", "Rating", "Reviews", "Address", "Phone", "Cuisine", "Price Level", "Website",
    "Latitude", "Longitude"]

/-- The ten fields `exportToCSV` writes for the restaurant `r`, before they are joined. -/
def csvFields (numberToString : ℚ → String) (r : Restaurant) : List String :=
  [quotedField r.name,
   numberField numberToString r.rating,
   numberField numberToString (r.reviews.map fun n => (n : ℚ)),
   quotedField r.address,
   quotedField r.phone,
   quotedField r.cuisine,
   quotedField r.price_level,
   quotedField r.website,
   numberField numberToString r.latitude,
   numberField numberToString r.longitude]

/-- The text `csvContent` built by `exportToCSV()`, in src/static/app.js and in
src/deploy/app.js, from the array `filteredRestaurants`; `none` when the array is empty
and the function returns after the alert without building a text. -/
def exportToCSV (numberToString : ℚ → String) (filteredRestaurants : List Restaurant) :
    Option String :=
  if filteredRestaurants.length = 0 then none
  else
    some (joinWith "\n"
      (joinWith "," csvHeaders ::
        filteredRestaurants.map fun r => joinWith "," (csvFields numberToString r)))

/-- Where a CSV reader is within a field: in a field without quotes (or at its start),
inside double quotes, or right after a double quote met inside double quotes. -/
inductive CsvMode where
  | plain
  | quoted
  | afterQuote
  deriving DecidableEq

/-- Reading by the usual CSV rules, in the words of the specification: a comma ends a
field and a line feed ends a record, except inside double quotes; a field that starts
with a double quote runs to the closing double quote, and a double quote written twice
inside it stands for one double quote. `field` and `record` hold what has been read of
the current field and record, `records` the finished records. -/
def readCsvFrom : CsvMode → List Char → List String → List (List String) → List Char →
    List (List String)
  | .plain, field, record, records, [] =>
    if field = [] ∧ record = [] then records else records ++ [record ++ [String.mk field]]
  | .plain, field, record, records, c :: cs =>
    if c = ',' then readCsvFrom .plain [] (record ++ [String.mk field]) records cs
    else if c = '\n' then
      readCsvFrom .plain [] [] (records ++ [record ++ [String.mk field]]) cs
    else if c = '"' ∧ field = [] then readCsvFrom .quoted [] record records cs
    else readCsvFrom .plain (field ++ [c]) record records cs
  | .quoted, field, record, records, [] => records ++ [record ++ [String.mk field]]
  | .quoted, field, record, records, c :: cs =>
    if c = '"' then readCsvFrom .afterQuote field record records cs
    else readCsvFrom .quoted (field ++ [c]) record records cs
  | .afterQuote, field, record, records, [] => records ++ [record ++ [String.mk field]]
  | .afterQuote, field, record, records, c :: cs =>
    if c = '"' then readCsvFrom .quoted (field ++ ['"']) record records cs
    else if c = ',' then readCsvFrom .plain [] (record ++ [String.mk field]) records cs
    else if c = '\n' then
      readCsvFrom .plain [] [] (records ++ [record ++ [String.mk field]]) cs
    else readCsvFrom .afterQuote (field ++ [c]) record records cs

/-- The records of a CSV text. -/
def readCsv (text : String) : List (List String) :=
  readCsvFrom .plain [] [] [] text.toList

/-- That `text` is a way to write the field `value`: between double quotes with its
double quotes doubled, or as it is when it has no comma, double quote or line feed. -/
def WritesField (text value : String) : Prop :=
  text = "\"" ++ String.mk (escapeQuotes value.toList) ++ "\"" ∨
    (text = value ∧ ∀ c ∈ value.toList, c ≠ ',' ∧ c ≠ '"' ∧ c ≠ '\n')

/-- The ten values a reader should find in the line of the restaurant `r`. -/
def csvValues (numberToString : ℚ → String) (r : Restaurant) : List String :=
  [r.name.getD "",
   numberField numberToString r.rating,
   numberField numberToString (r.reviews.map fun n => (n : ℚ)),
   r.address.getD "",
   r.phone.getD "",
   r.cuisine.getD "",
   r.price_level.getD "",
   r.website.getD "",
   numberField numberToString r.latitude,
   numberField numberToString r.longitude]

/-- A rendering of the numbers of `exportedListings`. -/
def sampleNumberToString (q : ℚ) : String :=
  if q = 4 then "4" else if q = 9 / 2 then "4.5" else if q = 120 then "120"
  else if q = 52368 / 1000 then "52.368" else if q = 48916 / 10000 then "4.8916" else "1"

/-- Two restaurants for the export: a name with a comma and double quotes, an address
with a line feed, and fields that are missing. -/
def exportedListings : List Restaurant :=
  [{ name := some "Bar \"De Twee\", Oost", rating := some (9 / 2), reviews := some 120,
     address := some "Linnaeusstraat 2,\n1092 CK Amsterdam", cuisine := some "Dutch, Bar",
     latitude := some (52368 / 1000), longitude := some (48916 / 10000) },
   { name := some "Pop-up", rating := some 0, website := some "https://example.org/?a=1,2" }]

/-! ## Listings as they come out of `JSON.parse`

The listings are parsed JSON, so the member `address` can hold any JSON value. The
aggregator calls `address.match(...)` on the value of `r.address || ''`, and only a text
has the method `match`. -/

/-- A value of parsed JSON, as far as `r.address || ''` and the call of `.match` look at
it: `null`, a boolean, a number, a text, or an array or object. -/
inductive JsonValue where
  | null
  | bool (b : Bool)
  | number (q : ℚ)
  | text (s : String)
  | structured
  deriving DecidableEq

/-- The truthiness of a JSON value: `null`, `false`, `0` and the empty text are falsy. -/
def JsonValue.truthy : JsonValue → Bool
  | .null => false
  | .bool b => b
  | .number q => decide (q ≠ 0)
  | .text s => decide (s ≠ "")
  | .structured => true

/-- A listing with an address of any JSON type; `none` is a missing member. The rating
is a number and the category a text, or missing. -/
structure JsonListing where
  address : Option JsonValue := none
  rating : Option ℚ := none
  cuisine : Option String := none
  deriving DecidableEq

/-- The value of `r.address || ''`. -/
def JsonListing.addressOrEmpty (r : JsonListing) : JsonValue :=
  match r.address with
  | some v => if v.truthy then v else .text ""
  | none => .text ""

/-- Whether `r.address` is truthy and not a text, so that `r.address || ''` has no
method `match`. -/
def JsonListing.addressNotText (r : JsonListing) : Bool :=
  match r.addressOrEmpty with
  | .text _ => false
  | _ => true

/-- The listing with its address as a text, for the listings where `r.address || ''` is
one; the address is missing otherwise. -/
def JsonListing.typed (r : JsonListing) : Restaurant :=
  { address := match r.addressOrEmpty with
      | .text s => some s
      | _ => none
    rating := r.rating
    cuisine := r.cuisine }

/-- The body of `restaurants.forEach(r => ...)` on a parsed listing: when
`r.address || ''` is a text the steps are those of `visit`; on any other value the call
`address.match(...)` is a `TypeError`, since the value has no method `match`. -/
def visitJson (stats : List (String × DistrictAcc)) (r : JsonListing) :
    Except JsError (List (String × DistrictAcc)) :=
  match r.addressOrEmpty with
  | .text s => visit stats { address := some s, rating := r.rating, cuisine := r.cuisine }
  | _ => .error .typeError

/-- The function `computePC4Stats(restaurants)` on parsed listings. -/
def computePC4StatsJson (restaurants : List JsonListing) :
    Except JsError (List (String × DistrictStats)) :=
  (restaurants.foldlM visitJson []).map fun stats => stats.map fun e => (e.1, finish e.2)

/-- Parsed listings of district 1012: ratings 4 and 5, a listing without rating and
category, and a listing without address. -/
def parsedListings : List JsonListing :=
  [{ address := some (.text "Damrak 93, 1012 LP Amsterdam"), rating := some 4,
     cuisine := some "Dutch" },
   { address := some (.text "Nes 41, 1012 KC Amsterdam"), rating := some 5,
     cuisine := some "Dutch" },
   { address := some (.text "Spui 18, 1012 XA Amsterdam") },
   { rating := some 3, cuisine := some "Thai" }]

/-- The listings `parsedListings` followed by one whose address is the number 1012. -/
def numberAddressListings : List JsonListing :=
  parsedListings ++ [{ address := some (.number 1012), rating := some 4 }]

end Mapper

namespace Mapper

/-! ## Lemmas on objects as association lists -/

theorem getOwn_append {β : Type} (k : String) (s t : List (String × β)) :
    getOwn k (s ++ t) = (getOwn k s).orElse fun _ => getOwn k t := by
  induction s with
  | nil => simp [getOwn]
  | cons e s ih =>
    obtain ⟨k', v⟩ := e
    by_cases h : k' = k <;> simp [getOwn, h, ih]

theorem getOwn_modifyOwn {β : Type} (p k : String) (f : β → β) (s : List (String × β)) :
    getOwn p (modifyOwn k f s) = if p = k then (getOwn k s).map f else getOwn p s := by
  induction s with
  | nil => simp [getOwn, modifyOwn]
  | cons e s ih =>
    obtain ⟨k', v⟩ := e
    by_cases h : k' = k
    · subst h
      by_cases hp : p = k' <;> simp [getOwn, modifyOwn, hp, eq_comm]
    · by_cases hp : p = k
      · subst hp
        simp [getOwn, modifyOwn, h, ih]
      · by_cases hk : k' = p <;> simp [getOwn, modifyOwn, h, hp, hk, ih]

theorem modifyOwn_modifyOwn {β : Type} (k : String) (f g : β → β) (s : List (String × β)) :
    modifyOwn k f (modifyOwn k g s) = modifyOwn k (fun v => f (g v)) s := by
  induction s with
  | nil => simp [modifyOwn]
  | cons e s ih =>
    obtain ⟨k', v⟩ := e
    by_cases h : k' = k <;> simp [modifyOwn, h, ih]

theorem map_fst_modifyOwn {β : Type} (k : String) (f : β → β) (s : List (String × β)) :
    (modifyOwn k f s).map Prod.fst = s.map Prod.fst := by
  induction s with
  | nil => simp [modifyOwn]
  | cons e s ih =>
    obtain ⟨k', v⟩ := e
    by_cases h : k' = k <;> simp [modifyOwn, h, ih]

theorem getOwn_eq_none_iff {β : Type} (k : String) (s : List (String × β)) :
    getOwn k s = none ↔ k ∉ s.map Prod.fst := by
  induction s with
  | nil => simp [getOwn]
  | cons e s ih =>
    obtain ⟨k', v⟩ := e
    by_cases h : k' = k
    · simp [getOwn, h]
    · have h' : ¬ k = k' := fun e => h e.symm
      simp [getOwn, h, h', ih]

theorem mem_iff_getOwn {β : Type} (s : List (String × β)) (hs : (s.map Prod.fst).Nodup)
    (k : String) (v : β) : (k, v) ∈ s ↔ getOwn k s = some v := by
  induction s with
  | nil => simp [getOwn]
  | cons e s ih =>
    obtain ⟨k', w⟩ := e
    simp only [List.map_cons, List.nodup_cons] at hs
    by_cases h : k' = k
    · subst h
      have hn : ∀ v, (k', v) ∉ s := fun v hv => hs.1 (List.mem_map.2 ⟨(k', v), hv, rfl⟩)
      simp [getOwn, hn, eq_comm]
    · have h' : ¬ k = k' := fun e => h e.symm
      simp [getOwn, h, h', ih hs.2]

theorem getOwn_map_snd {β γ : Type} (f : β → γ) (k : String) (s : List (String × β)) :
    getOwn k (s.map fun e => (e.1, f e.2)) = (getOwn k s).map f := by
  induction s with
  | nil => simp [getOwn]
  | cons e s ih =>
    obtain ⟨k', v⟩ := e
    by_cases h : k' = k <;> simp [getOwn, h, ih]

theorem updateDistrict_eq (pc4 : String) (f : DistrictAcc → DistrictAcc)
    (s : List (String × DistrictAcc)) (h : getOwn pc4 s ≠ none) :
    updateDistrict pc4 f s = .ok (modifyOwn pc4 f s) := by
  induction s with
  | nil => simp [getOwn] at h
  | cons e s ih =>
    obtain ⟨k', v⟩ := e
    by_cases hk : k' = pc4
    · simp [updateDistrict, modifyOwn, hk]
    · have h' : getOwn pc4 s ≠ none := by simpa [getOwn, hk] using h
      simp [updateDistrict, modifyOwn, hk, ih h', Except.map]

/-! ## On listings with text addresses the scan raises no error and agrees with the
per-district view -/

theorem getOwn_ensure_ne_none (pc4 : String) (stats : List (String × DistrictAcc)) :
    getOwn pc4 (if (getOwn pc4 stats).isNone then stats ++ [(pc4, emptyDistrict)] else stats)
      ≠ none := by
  cases h : getOwn pc4 stats with
  | none => simp [getOwn_append, h, getOwn]
  | some a => simp [h]

theorem visit_eq (stats : List (String × DistrictAcc)) (r : Restaurant) :
    visit stats r = .ok (visitPure stats r) := by
  simp only [visit, visitPure, districtOf]
  cases hd : extractPC4 (r.address.getD "") with
  | none => rfl
  | some pc4 =>
    have h0 := getOwn_ensure_ne_none pc4 stats
    simp only [emptyDistrict] at h0 ⊢
    generalize (if (getOwn pc4 stats).isNone then
      stats ++ [(pc4, ({ count := 0, total_rating := 0, cuisines := [] } : DistrictAcc))]
      else stats) = s1 at h0 ⊢
    have h1 : ∀ f, getOwn pc4 (modifyOwn pc4 f s1) ≠ none := by
      intro f
      rw [getOwn_modifyOwn]
      cases h : getOwn pc4 s1 with
      | none => exact absurd h h0
      | some a => simp
    have h2 : ∀ f g, getOwn pc4 (modifyOwn pc4 f (modifyOwn pc4 g s1)) ≠ none := by
      intro f g
      rw [modifyOwn_modifyOwn]
      exact h1 _
    cases hr : truthyRating r <;> cases hc : truthyCuisine r <;>
      simp [bind, Except.bind, updateDistrict_eq _ _ _ h0,
        updateDistrict_eq _ _ _ (h1 _), updateDistrict_eq _ _ _ (h2 _ _),
        modifyOwn_modifyOwn, addListing, hr, hc]

theorem foldlM_visit (rs : List Restaurant) (stats : List (String × DistrictAcc)) :
    rs.foldlM visit stats = .ok (rs.foldl visitPure stats) := by
  induction rs generalizing stats with
  | nil => rfl
  | cons r rs ih =>
    simp only [List.foldlM_cons, List.foldl_cons, visit_eq, bind, Except.bind]
    exact ih _

theorem computePC4Stats_eq (rs : List Restaurant) :
    computePC4Stats rs = .ok ((rs.foldl visitPure []).map fun e => (e.1, finish e.2)) := by
  simp [computePC4Stats, foldlM_visit, Except.map]

theorem getOwn_visitPure (p : String) (stats : List (String × DistrictAcc)) (r : Restaurant) :
    getOwn p (visitPure stats r) =
      if districtOf r = some p then
        some (addListing ((getOwn p stats).getD emptyDistrict) r)
      else getOwn p stats := by
  unfold visitPure
  cases hd : districtOf r with
  | none => simp
  | some pc4 =>
    rw [getOwn_modifyOwn]
    by_cases hp : p = pc4
    · subst hp
      cases h : getOwn p stats with
      | none => simp [getOwn_append, h, getOwn]
      | some a => simp [h]
    · have hp' : ¬ pc4 = p := fun e => hp e.symm
      cases h : getOwn pc4 stats with
      | none => simp [hp, hp', getOwn_append, getOwn]
      | some a => simp [hp, hp']

theorem getOwn_foldl_visitPure (p : String) (rs : List Restaurant)
    (stats : List (String × DistrictAcc)) :
    getOwn p (rs.foldl visitPure stats) =
      if group p rs = [] then getOwn p stats
      else some ((group p rs).foldl addListing ((getOwn p stats).getD emptyDistrict)) := by
  induction rs generalizing stats with
  | nil => simp [group]
  | cons r rs ih =>
    rw [List.foldl_cons, ih, getOwn_visitPure]
    by_cases hd : districtOf r = some p
    · by_cases hg : group p rs = []
      · have : group p (r :: rs) = [r] := by
          simp only [group] at hg ⊢
          simp [List.filter_cons, hd, hg]
        simp [hg, this, hd]
      · have : group p (r :: rs) = r :: group p rs := by
          simp [group, List.filter_cons, hd]
        simp [hg, this, hd]
    · have : group p (r :: rs) = group p rs := by
        simp [group, List.filter_cons, hd]
      simp [this, hd]

theorem nodup_keys_visitPure (stats : List (String × DistrictAcc)) (r : Restaurant)
    (h : (stats.map Prod.fst).Nodup) : ((visitPure stats r).map Prod.fst).Nodup := by
  unfold visitPure
  cases hd : districtOf r with
  | none => exact h
  | some pc4 =>
    simp only [map_fst_modifyOwn]
    cases hg : getOwn pc4 stats with
    | none =>
      have hn := (getOwn_eq_none_iff pc4 stats).1 hg
      simp only [Option.isNone_none, if_true, List.map_append, List.map_cons, List.map_nil]
      exact List.Nodup.append h (List.nodup_singleton _) (by simpa using hn)
    | some a => simpa using h

theorem nodup_keys_foldl (rs : List Restaurant) (stats : List (String × DistrictAcc))
    (h : (stats.map Prod.fst).Nodup) : ((rs.foldl visitPure stats).map Prod.fst).Nodup := by
  induction rs generalizing stats with
  | nil => exact h
  | cons r rs ih => exact ih _ (nodup_keys_visitPure stats r h)

/-- The per-district view: the call returns a mapping whose districts are exactly the
non-empty groups, each holding the finished accumulation of its group. -/
theorem computePC4Stats_view (rs : List Restaurant) :
    ∃ m, computePC4Stats rs = .ok m ∧ (m.map Prod.fst).Nodup ∧
      ∀ p d, (p, d) ∈ m ↔
        group p rs ≠ [] ∧ d = finish ((group p rs).foldl addListing emptyDistrict) := by
  refine ⟨_, computePC4Stats_eq rs, ?_, ?_⟩
  · have := nodup_keys_foldl rs [] (by simp)
    simpa [List.map_map, Function.comp_def] using this
  · intro p d
    have hn : ((((rs.foldl visitPure []).map fun e => (e.1, finish e.2))).map Prod.fst).Nodup := by
      have := nodup_keys_foldl rs [] (by simp)
      simpa [List.map_map, Function.comp_def] using this
    rw [mem_iff_getOwn _ hn, getOwn_map_snd, getOwn_foldl_visitPure]
    by_cases hg : group p rs = []
    · simp [hg, getOwn]
    · simp [hg, getOwn, eq_comm]

/-! ## What a group accumulates -/

theorem count_foldl_addListing (g : List Restaurant) (a : DistrictAcc) :
    (g.foldl addListing a).count = a.count + g.length := by
  induction g generalizing a with
  | nil => simp
  | cons r g ih => simp [ih, addListing]; omega

theorem total_foldl_addListing (g : List Restaurant) (a : DistrictAcc) :
    (g.foldl addListing a).total_rating =
      a.total_rating + (g.map fun r => (truthyRating r).getD 0).sum := by
  induction g generalizing a with
  | nil => simp
  | cons r g ih => simp [ih, addListing, add_assoc]

theorem cuisines_foldl_addListing (g : List Restaurant) (a : DistrictAcc) :
    (g.foldl addListing a).cuisines = (categories g).foldl bump a.cuisines := by
  induction g generalizing a with
  | nil => simp [categories]
  | cons r g ih =>
    cases hc : truthyCuisine r <;>
      simp [ih, addListing, categories, List.filterMap_cons, hc]

theorem group_ne_nil_iff (p : String) (rs : List Restaurant) :
    group p rs ≠ [] ↔ ∃ r ∈ rs, extractPC4 (r.address.getD "") = some p := by
  simp [group, districtOf, List.filter_eq_nil_iff]

theorem group_eq_filter (p : String) (rs : List Restaurant) :
    group p rs = rs.filter fun r => extractPC4 (r.address.getD "") = some p := rfl

theorem toFixed2_ne_number (x q : ℚ) : toFixed2 x ≠ .number q := by
  unfold toFixed2
  split <;> simp

theorem toFixed2_zero : toFixed2 0 = .text "0.00" := by decide!

/-! ## The regular expression, declaratively -/

theorem isWordChar_of_isDigit {c : Char} (h : c.isDigit = true) : isWordChar c = true := by
  simp [isWordChar, Char.isAlphanum, h]

theorem isWordChar_of_isUpper {c : Char} (h : c.isUpper = true) : isWordChar c = true := by
  simp [isWordChar, Char.isAlphanum, Char.isAlpha, h]

theorem isWordSide_some (c : Char) : isWordSide (some c) = isWordChar c := rfl

theorem isWordSide_none : isWordSide none = false := rfl

theorem matchLetters_iff (l : List Char) :
    matchLetters l = true ↔
      ∃ u1 u2 post, l = u1 :: u2 :: post ∧ u1.isUpper = true ∧ u2.isUpper = true ∧
        isWordSide post.head? = false := by
  constructor
  · intro h
    match l, h with
    | u1 :: u2 :: tl, h =>
      simp only [matchLetters, Bool.and_eq_true] at h
      refine ⟨u1, u2, tl, rfl, h.1.1, h.1.2, ?_⟩
      have hw := isWordChar_of_isUpper h.1.2
      have h2 := h.2
      simp only [wordBoundary, isWordSide_some, hw] at h2
      cases hs : isWordSide tl.head? <;> simp_all
  · rintro ⟨u1, u2, post, rfl, h1, h2, h3⟩
    have hw := isWordChar_of_isUpper h2
    simp [matchLetters, h1, h2, wordBoundary, isWordSide_some, hw, h3]

theorem matchTail_iff (l : List Char) :
    matchTail l = true ↔
      ∃ ws rest, l = ws ++ rest ∧ (∀ c ∈ ws, isSpaceChar c = true) ∧
        matchLetters rest = true := by
  induction l with
  | nil =>
    simp [matchTail, matchLetters]
  | cons c cs ih =>
    simp only [matchTail, Bool.or_eq_true, Bool.and_eq_true, ih]
    constructor
    · rintro (⟨hc, ws, rest, rfl, hws, hr⟩ | h)
      · refine ⟨c :: ws, rest, rfl, ?_, hr⟩
        intro x hx
        rcases List.mem_cons.1 hx with rfl | hx
        · exact hc
        · exact hws x hx
      · exact ⟨[], c :: cs, rfl, by simp, h⟩
    · rintro ⟨ws, rest, h, hws, hr⟩
      cases ws with
      | nil =>
        simp only [List.nil_append] at h
        exact Or.inr (h ▸ hr)
      | cons w ws =>
        simp only [List.cons_append, List.cons.injEq] at h
        obtain ⟨rfl, rfl⟩ := h
        exact Or.inl ⟨hws _ (List.mem_cons_self _ _), ws, rest, rfl,
          fun x hx => hws x (List.mem_cons_of_mem _ hx), hr⟩

theorem matchAt_iff (prev : Option Char) (l ds : List Char) :
    matchAt prev l = some ds ↔
      isWordSide prev = false ∧ ∃ tl, l = ds ++ tl ∧ ds.length = 4 ∧
        (∀ c ∈ ds, c.isDigit = true) ∧ matchTail tl = true := by
  constructor
  · intro h
    unfold matchAt at h
    split at h
    · rename_i hb
      split at h
      · rename_i d1 d2 d3 d4 tl
        split at h
        · rename_i hd
          simp only [Bool.and_eq_true] at hd
          obtain ⟨⟨⟨⟨h1, h2⟩, h3⟩, h4⟩, ht⟩ := hd
          cases h
          have hw := isWordChar_of_isDigit h1
          refine ⟨?_, tl, rfl, rfl, ?_, ht⟩
          · simp only [wordBoundary, List.head?_cons, isWordSide_some, hw] at hb
            cases hs : isWordSide prev <;> simp_all
          · intro c hc
            simp only [List.mem_cons, List.mem_singleton, List.not_mem_nil, or_false] at hc
            rcases hc with rfl | rfl | rfl | rfl <;> assumption
        · cases h
      · cases h
    · cases h
  · rintro ⟨hp, tl, rfl, hlen, hds, ht⟩
    match ds, hlen, hds with
    | [d1, d2, d3, d4], _, hds =>
      have h1 := hds d1 (by simp)
      have h2 := hds d2 (by simp)
      have h3 := hds d3 (by simp)
      have h4 := hds d4 (by simp)
      have hw := isWordChar_of_isDigit h1
      simp [matchAt, wordBoundary, isWordSide_some, hw, hp, h1, h2, h3, h4, ht]

theorem matchAt_digits {prev : Option Char} {l ds : List Char} (h : matchAt prev l = some ds) :
    ds.length = 4 ∧ ∀ c ∈ ds, c.isDigit = true :=
  let ⟨_, _, _, hl, hd, _⟩ := (matchAt_iff prev l ds).1 h
  ⟨hl, hd⟩

theorem regexSearch_digits {prev : Option Char} {l ds : List Char}
    (h : regexSearch prev l = some ds) : ds.length = 4 ∧ ∀ c ∈ ds, c.isDigit = true := by
  induction l generalizing prev with
  | nil => exact matchAt_digits h
  | cons c cs ih =>
    simp only [regexSearch] at h
    split at h
    · rename_i d hd
      cases h
      exact matchAt_digits hd
    · exact ih h

theorem extractPC4_digits {a p : String} (h : extractPC4 a = some p) :
    p.length = 4 ∧ ∀ c ∈ p.toList, c.isDigit = true := by
  simp only [extractPC4, Option.map_eq_some'] at h
  obtain ⟨ds, hds, rfl⟩ := h
  have := regexSearch_digits hds
  simpa [String.length] using this

theorem sideBefore_nil (prev : Option Char) : sideBefore prev [] = prev := rfl

theorem sideBefore_cons (prev : Option Char) (c : Char) (pre : List Char) :
    sideBefore prev (c :: pre) = sideBefore (some c) pre := by
  cases pre with
  | nil => rfl
  | cons x xs =>
    have h : (c :: x :: xs).getLast? = (x :: xs).getLast? := List.getLast?_cons_cons
    simp only [sideBefore, h]
    cases hx : (x :: xs).getLast? with
    | none => simp at hx
    | some y => rfl

theorem sideBefore_none (pre : List Char) : sideBefore none pre = pre.getLast? := by
  unfold sideBefore
  cases pre.getLast? <;> rfl

theorem regexSearch_none_iff (prev : Option Char) (l : List Char) :
    regexSearch prev l = none ↔
      ∀ pre tl, l = pre ++ tl → matchAt (sideBefore prev pre) tl = none := by
  induction l generalizing prev with
  | nil =>
    simp only [regexSearch]
    constructor
    · intro h pre tl e
      obtain ⟨rfl, rfl⟩ := List.append_eq_nil.1 e.symm
      exact h
    · intro h
      exact h [] [] rfl
  | cons c cs ih =>
    simp only [regexSearch]
    cases hm : matchAt prev (c :: cs) with
    | some d =>
      simp only [false_iff, reduceCtorEq]
      intro h
      have := h [] (c :: cs) rfl
      rw [sideBefore_nil, hm] at this
      cases this
    | none =>
      simp only [ih]
      constructor
      · intro h pre tl e
        cases pre with
        | nil =>
          simp only [List.nil_append] at e
          subst e
          exact hm
        | cons x xs =>
          simp only [List.cons_append, List.cons.injEq] at e
          obtain ⟨rfl, rfl⟩ := e
          rw [sideBefore_cons]
          exact h xs tl rfl
      · intro h pre tl e
        have := h (c :: pre) tl (by simp [e])
        rwa [sideBefore_cons] at this

theorem regexSearch_some_iff (prev : Option Char) (l ds : List Char) :
    regexSearch prev l = some ds ↔
      ∃ pre tl, l = pre ++ tl ∧ matchAt (sideBefore prev pre) tl = some ds ∧
        ∀ pre' tl', l = pre' ++ tl' → pre'.length < pre.length →
          matchAt (sideBefore prev pre') tl' = none := by
  induction l generalizing prev with
  | nil =>
    simp only [regexSearch]
    constructor
    · intro h
      exact ⟨[], [], rfl, h, fun pre' _ _ hlt => absurd hlt (Nat.not_lt_zero _)⟩
    · rintro ⟨pre, tl, e, h, -⟩
      obtain ⟨rfl, rfl⟩ := List.append_eq_nil.1 e.symm
      exact h
  | cons c cs ih =>
    simp only [regexSearch]
    cases hm : matchAt prev (c :: cs) with
    | some d =>
      simp only [Option.some.injEq]
      constructor
      · rintro rfl
        exact ⟨[], c :: cs, rfl, hm, fun pre' _ _ hlt => absurd hlt (Nat.not_lt_zero _)⟩
      · rintro ⟨pre, tl, e, h, hmin⟩
        cases pre with
        | nil =>
          simp only [List.nil_append] at e
          subst e
          rw [sideBefore_nil, hm] at h
          exact Option.some.inj h
        | cons x xs =>
          have := hmin [] (c :: cs) rfl (by simp)
          rw [sideBefore_nil, hm] at this
          cases this
    | none =>
      simp only [ih]
      constructor
      · rintro ⟨pre, tl, rfl, h, hmin⟩
        refine ⟨c :: pre, tl, rfl, by rwa [sideBefore_cons], ?_⟩
        intro pre' tl' e hlt
        cases pre' with
        | nil =>
          simp only [List.nil_append] at e
          subst e
          exact hm
        | cons x xs =>
          simp only [List.cons_append, List.cons.injEq] at e
          obtain ⟨rfl, e⟩ := e
          rw [sideBefore_cons]
          exact hmin xs tl' e (by simpa using hlt)
      · rintro ⟨pre, tl, e, h, hmin⟩
        cases pre with
        | nil =>
          simp only [List.nil_append] at e
          subst e
          rw [sideBefore_nil, hm] at h
          cases h
        | cons x xs =>
          simp only [List.cons_append, List.cons.injEq] at e
          obtain ⟨rfl, rfl⟩ := e
          refine ⟨xs, tl, rfl, by rwa [sideBefore_cons] at h, ?_⟩
          intro pre' tl' e hlt
          have := hmin (c :: pre') tl' (by simp [e]) (by simpa using hlt)
          rwa [sideBefore_cons] at this

theorem postalMatch_iff (a pre ds : List Char) :
    PostalMatch a pre ds ↔ ∃ tl, a = pre ++ tl ∧ matchAt pre.getLast? tl = some ds := by
  constructor
  · rintro ⟨ws, letters, post, rfl, hlen, hds, hws, hl2, hup, hb, ha⟩
    refine ⟨ds ++ ws ++ letters ++ post, by simp [List.append_assoc], ?_⟩
    rw [matchAt_iff]
    refine ⟨hb, ws ++ letters ++ post, by simp [List.append_assoc], hlen, hds, ?_⟩
    rw [matchTail_iff]
    refine ⟨ws, letters ++ post, by simp [List.append_assoc], hws, ?_⟩
    rw [matchLetters_iff]
    match letters, hl2, hup with
    | [u1, u2], _, hup =>
      exact ⟨u1, u2, post, rfl, hup u1 (by simp), hup u2 (by simp), ha⟩
  · rintro ⟨tl, rfl, h⟩
    obtain ⟨hb, tl1, rfl, hlen, hds, ht⟩ := (matchAt_iff _ _ _).1 h
    obtain ⟨ws, rest, rfl, hws, hr⟩ := (matchTail_iff _).1 ht
    obtain ⟨u1, u2, post, rfl, h1, h2, ha⟩ := (matchLetters_iff _).1 hr
    refine ⟨ws, [u1, u2], post, by simp [List.append_assoc], hlen, hds, hws, rfl, ?_, hb, ha⟩
    intro c hc
    simp only [List.mem_cons, List.mem_singleton, List.not_mem_nil, or_false] at hc
    rcases hc with rfl | rfl <;> assumption

/-- The capture of the search is the digit group of the leftmost postal code that stands
between word boundaries. -/
theorem regexSearch_eq_some_iff_leftmost (a ds : List Char) :
    regexSearch none a = some ds ↔
      ∃ pre, PostalMatch a pre ds ∧
        ∀ pre' ds', PostalMatch a pre' ds' → pre.length ≤ pre'.length := by
  rw [regexSearch_some_iff]
  constructor
  · rintro ⟨pre, tl, rfl, h, hmin⟩
    rw [sideBefore_none] at h
    refine ⟨pre, (postalMatch_iff _ _ _).2 ⟨tl, rfl, h⟩, ?_⟩
    intro pre' ds' hm
    obtain ⟨tl', e, h'⟩ := (postalMatch_iff _ _ _).1 hm
    by_contra hlt
    have := hmin pre' tl' e (by omega)
    rw [sideBefore_none, h'] at this
    cases this
  · rintro ⟨pre, hm, hmin⟩
    obtain ⟨tl, e, h⟩ := (postalMatch_iff _ _ _).1 hm
    refine ⟨pre, tl, e, by rwa [sideBefore_none], ?_⟩
    intro pre' tl' e' hlt
    rw [sideBefore_none]
    cases hd : matchAt pre'.getLast? tl' with
    | none => rfl
    | some ds' =>
      have := hmin pre' ds' ((postalMatch_iff _ _ _).2 ⟨tl', e', hd⟩)
      omega

/-- The search fails exactly when the text holds no postal code between word boundaries. -/
theorem regexSearch_eq_none_iff_absent (a : List Char) :
    regexSearch none a = none ↔ ∀ pre ds, ¬ PostalMatch a pre ds := by
  rw [regexSearch_none_iff]
  constructor
  · intro h pre ds hm
    obtain ⟨tl, e, h'⟩ := (postalMatch_iff _ _ _).1 hm
    have := h pre tl e
    rw [sideBefore_none, h'] at this
    cases this
  · intro h pre tl e
    rw [sideBefore_none]
    cases hd : matchAt pre.getLast? tl with
    | none => rfl
    | some ds => exact absurd ((postalMatch_iff _ _ _).2 ⟨tl, e, hd⟩) (h pre ds)

/-! ## The tally of categories -/

theorem map_fst_setOwn {β : Type} (k : String) (v : β) (s : List (String × β)) :
    (setOwn k v s).map Prod.fst = s.map Prod.fst := by
  induction s with
  | nil => simp [setOwn]
  | cons e s ih =>
    obtain ⟨k', w⟩ := e
    by_cases h : k' = k <;> simp [setOwn, h, ih]

theorem keys_bump_subset (t : Tally) (c : String) :
    ∀ k ∈ (bump t c).map Prod.fst, k ∈ t.map Prod.fst ∨ k = c := by
  intro k hk
  unfold bump at hk
  split at hk
  · rw [map_fst_setOwn] at hk
    exact Or.inl hk
  · rw [map_fst_setOwn] at hk
    exact Or.inl hk
  · split at hk
    · exact Or.inl hk
    · split at hk <;>
      · simp only [List.map_append, List.map_cons, List.map_nil, List.mem_append,
          List.mem_singleton] at hk
        exact hk

theorem keys_foldl_bump_subset (cats : List String) (t : Tally) :
    ∀ k ∈ (cats.foldl bump t).map Prod.fst, k ∈ t.map Prod.fst ∨ k ∈ cats := by
  induction cats generalizing t with
  | nil => intro k hk; exact Or.inl hk
  | cons c cats ih =>
    intro k hk
    rcases ih (bump t c) k hk with h | h
    · rcases keys_bump_subset t c k h with h | h
      · exact Or.inl h
      · exact Or.inr (h ▸ List.mem_cons_self _ _)
    · exact Or.inr (List.mem_cons_of_mem _ h)

theorem perm_objectEntries {β : Type} (o : List (String × β)) : (objectEntries o).Perm o := by
  unfold objectEntries
  refine ((List.perm_insertionSort _ _).append_right _).trans ?_
  have := List.filter_append_perm (fun e : String × β => (arrayIndex? e.1).isSome) o
  simpa using this

theorem mem_top_cuisines {s : DistrictAcc} {c : String} (h : c ∈ (finish s).top_cuisines) :
    c ∈ s.cuisines.map Prod.fst := by
  simp only [finish, List.mem_map] at h
  obtain ⟨e, he, rfl⟩ := h
  have h1 := List.mem_of_mem_take he
  have h2 : e ∈ objectEntries s.cuisines := (List.perm_insertionSort _ _).subset h1
  exact List.mem_map.2 ⟨e, (perm_objectEntries _).subset h2, rfl⟩

theorem length_top_cuisines (s : DistrictAcc) : (finish s).top_cuisines.length ≤ 3 := by
  simp only [finish, List.length_map, List.length_take]
  exact Nat.min_le_left _ _

theorem firstSeen_append_singleton (cats : List String) (c : String) :
    firstSeen (cats ++ [c]) =
      if c ∈ firstSeen cats then firstSeen cats else firstSeen cats ++ [c] := by
  simp [firstSeen, List.foldl_append]

theorem mem_firstSeen (cats : List String) (x : String) : x ∈ firstSeen cats ↔ x ∈ cats := by
  induction cats using List.reverseRecOn with
  | nil => simp [firstSeen]
  | append_singleton cats c ih =>
    rw [firstSeen_append_singleton]
    by_cases hc : c ∈ firstSeen cats
    · rw [if_pos hc, List.mem_append, List.mem_singleton, ih]
      constructor
      · exact Or.inl
      · rintro (h | rfl)
        · exact h
        · exact ih.1 hc
    · rw [if_neg hc, List.mem_append, List.mem_append, ih]

theorem nodup_firstSeen (cats : List String) : (firstSeen cats).Nodup := by
  induction cats using List.reverseRecOn with
  | nil => simp [firstSeen]
  | append_singleton cats c ih =>
    rw [firstSeen_append_singleton]
    by_cases hc : c ∈ firstSeen cats
    · rwa [if_pos hc]
    · rw [if_neg hc]
      exact List.Nodup.append ih (List.nodup_singleton _) (by simpa using hc)

theorem getOwn_map_pair {β : Type} (g : String → β) (l : List String) (c : String) :
    getOwn c (l.map fun x => (x, g x)) = if c ∈ l then some (g c) else none := by
  induction l with
  | nil => simp [getOwn]
  | cons x xs ih =>
    by_cases h : x = c
    · simp [getOwn, h]
    · have h' : ¬ c = x := fun e => h e.symm
      simp [getOwn, h, h', ih]

theorem setOwn_map_pair {β : Type} (g : String → β) (l : List String) (hl : l.Nodup)
    (c : String) (v : β) :
    setOwn c v (l.map fun x => (x, g x)) = l.map fun x => (x, if x = c then v else g x) := by
  induction l with
  | nil => simp [setOwn]
  | cons x xs ih =>
    rw [List.nodup_cons] at hl
    by_cases h : x = c
    · subst h
      simp only [List.map_cons, setOwn, if_true, List.cons.injEq, true_and]
      apply List.map_congr_left
      intro y hy
      have : ¬ y = x := fun e => hl.1 (e ▸ hy)
      simp [this]
    · simp [setOwn, h, ih hl.2]

theorem foldl_bump_eq (cats : List String) (h : ∀ c ∈ cats, c ∉ objectPrototypeNames) :
    cats.foldl bump [] = (firstSeen cats).map fun c => (c, TallyVal.count (cats.count c)) := by
  induction cats using List.reverseRecOn with
  | nil => simp [firstSeen]
  | append_singleton cats c ih =>
    have ih := ih fun x hx => h x (List.mem_append_left _ hx)
    have hc := h c (by simp)
    simp only [objectPrototypeNames, List.mem_cons, not_or] at hc
    rw [List.foldl_append, List.foldl_cons, List.foldl_nil, ih, firstSeen_append_singleton]
    unfold bump
    rw [getOwn_map_pair]
    by_cases hm : c ∈ firstSeen cats
    · simp only [if_pos hm]
      rw [setOwn_map_pair _ _ (nodup_firstSeen cats)]
      apply List.map_congr_left
      intro y hy
      by_cases hy' : y = c
      · simp [hy', List.count_append]
      · have : ¬ c = y := fun e => hy' e.symm
        simp [hy', this, List.count_append, List.count_singleton]
    · have hm' : c ∉ cats := fun hc' => hm ((mem_firstSeen cats c).2 hc')
      simp only [if_neg hm, if_neg hc.1, if_neg hc.2, List.map_append, List.map_cons,
        List.map_nil]
      congr 1
      · apply List.map_congr_left
        intro y hy
        have : ¬ c = y := fun e => hm (e ▸ hy)
        simp [List.count_append, List.count_singleton, this]
      · simp [List.count_append, List.count_eq_zero_of_not_mem hm']

theorem objectEntries_eq_self {β : Type} (o : List (String × β))
    (h : ∀ e ∈ o, arrayIndex? e.1 = none) : objectEntries o = o := by
  have h1 : (o.filter fun e => (arrayIndex? e.1).isSome) = [] := by
    rw [List.filter_eq_nil_iff]
    intro e he
    simp [h e he]
  have h2 : (o.filter fun e => !(arrayIndex? e.1).isSome) = o := by
    rw [List.filter_eq_self]
    intro e he
    simp [h e he]
  rw [objectEntries, h1, h2]
  rfl

/-- With ordinary category names (no array index, no name inherited from
`Object.prototype`) the tally ranks the categories the way the specification words it. -/
theorem top_of_foldl_bump (cats : List String)
    (h : ∀ c ∈ cats, arrayIndex? c = none ∧ c ∉ objectPrototypeNames) :
    ((sortCuisines (objectEntries (cats.foldl bump []))).take 3).map (fun c => c.1) =
      topCategoriesSpec cats := by
  rw [foldl_bump_eq cats fun c hc => (h c hc).2]
  rw [objectEntries_eq_self]
  · unfold sortCuisines topCategoriesSpec
    rw [← List.map_insertionSort (fun a b => cats.count b ≤ cats.count a)]
    · rw [← List.map_take, List.map_map]
      simp [Function.comp_def]
    · intro a _ b _
      simp [compareCuisines]
  · intro e he
    obtain ⟨c, hc, rfl⟩ := List.mem_map.1 he
    exact (h c ((mem_firstSeen cats c).1 hc)).1

end Mapper

namespace Mapper

/-! ## The finished district in closed form -/

/-- The result in closed form: the districts are the non-empty groups, the count is the
size of the group, the average is the sum of the truthy ratings over that count, and
the top categories come from the tally of the truthy categories. -/
theorem computePC4Stats_closed_form (rs : List Restaurant) :
    ∃ m, computePC4Stats rs = .ok m ∧ (m.map Prod.fst).Nodup ∧
      ∀ p d, (p, d) ∈ m ↔
        group p rs ≠ [] ∧
        d = { count := (group p rs).length
              avg_rating := toFixed2
                (((group p rs).map fun r => (truthyRating r).getD 0).sum / (group p rs).length)
              top_cuisines :=
                ((sortCuisines (objectEntries ((categories (group p rs)).foldl bump []))).take
                  3).map fun c => c.1 } := by
  obtain ⟨m, hm, hn, hv⟩ := computePC4Stats_view rs
  refine ⟨m, hm, hn, ?_⟩
  intro p d
  rw [hv]
  constructor
  · rintro ⟨hg, rfl⟩
    have hpos : 0 < (group p rs).length := List.length_pos.2 hg
    refine ⟨hg, ?_⟩
    simp [finish, count_foldl_addListing, total_foldl_addListing, cuisines_foldl_addListing,
      emptyDistrict, hpos]
  · rintro ⟨hg, rfl⟩
    have hpos : 0 < (group p rs).length := List.length_pos.2 hg
    refine ⟨hg, ?_⟩
    simp [finish, count_foldl_addListing, total_foldl_addListing, cuisines_foldl_addListing,
      emptyDistrict, hpos]

/-! ## The ranking of the specification is a stable descending sort -/

theorem firstSeen_prefix (l1 l2 : List String) :
    List.IsPrefix (firstSeen l1) (firstSeen (l1 ++ l2)) := by
  induction l2 using List.reverseRecOn with
  | nil => simp
  | append_singleton l2 c ih =>
    rw [← List.append_assoc, firstSeen_append_singleton]
    split
    · exact ih
    · exact ih.trans (List.prefix_append _ _)

/-- The list that `topCategoriesSpec` cuts to three entries holds every category once, is
sorted by descending frequency, and keeps two categories in first-encountered order
whenever the earlier one is at least as frequent. -/
theorem spec_ranking_sorted_stable (cats : List String) :
    let ranking := (firstSeen cats).insertionSort fun a b => cats.count b ≤ cats.count a
    ranking.Nodup ∧ (∀ c, c ∈ ranking ↔ c ∈ cats) ∧
    ranking.Pairwise (fun a b => cats.count b ≤ cats.count a) ∧
    ∀ a b, List.Sublist [a, b] (firstSeen cats) → cats.count b ≤ cats.count a →
      List.Sublist [a, b] ranking := by
  intro ranking
  haveI : IsTotal String (fun a b => cats.count b ≤ cats.count a) := ⟨fun a b => le_total _ _⟩
  haveI : IsTrans String (fun a b => cats.count b ≤ cats.count a) :=
    ⟨fun a b c hab hbc => le_trans hbc hab⟩
  have hperm : ranking.Perm (firstSeen cats) := List.perm_insertionSort _ _
  refine ⟨hperm.nodup_iff.2 (nodup_firstSeen cats), ?_, ?_, ?_⟩
  · intro c
    rw [hperm.mem_iff, mem_firstSeen]
  · exact List.sorted_insertionSort _ _
  · intro a b hab hle
    exact List.pair_sublist_insertionSort hle hab

/-- In a district in which no listing has a rating the average rating is the text
`"0.00"` produced by `toFixed(2)`, for every input. -/
theorem unrated_district_average_text (rs : List Restaurant) :
    ∃ m, computePC4Stats rs = .ok m ∧
      ∀ p d, (p, d) ∈ m →
        (∀ r ∈ rs, extractPC4 (r.address.getD "") = some p → r.rating = none) →
        d.avg_rating = .text "0.00" := by
  obtain ⟨m, hm, -, hv⟩ := computePC4Stats_view rs
  refine ⟨m, hm, ?_⟩
  intro p d hd hr
  obtain ⟨hg, rfl⟩ := (hv p d).1 hd
  have hpos : 0 < (group p rs).length := List.length_pos.2 hg
  have hsum : ((group p rs).map fun r => (truthyRating r).getD 0).sum = 0 := by
    apply List.sum_eq_zero
    intro q hq
    obtain ⟨r, hrg, rfl⟩ := List.mem_map.1 hq
    have hmem := List.mem_filter.1 hrg
    have : r.rating = none := hr r hmem.1 (by simpa [districtOf] using hmem.2)
    simp [truthyRating, this]
  simp only [finish, count_foldl_addListing, total_foldl_addListing, emptyDistrict, hsum,
    Nat.zero_add, gt_iff_lt, hpos, if_true, add_zero, zero_div]
  exact toFixed2_zero

/-! ## Single listings -/

theorem computePC4Stats_singleton (r : Restaurant) :
    computePC4Stats [r] = .ok
      (match extractPC4 (r.address.getD "") with
      | none => []
      | some p => [(p, finish (addListing emptyDistrict r))]) := by
  rw [computePC4Stats_eq]
  simp only [List.foldl_cons, List.foldl_nil, visitPure, districtOf]
  cases extractPC4 (r.address.getD "") with
  | none => rfl
  | some p => simp [getOwn, modifyOwn]

theorem extractPC4_eq_some_iff (a p : String) :
    extractPC4 a = some p ↔
      ∃ pre ds, p = String.mk ds ∧ PostalMatch a.toList pre ds ∧
        ∀ pre' ds', PostalMatch a.toList pre' ds' → pre.length ≤ pre'.length := by
  simp only [extractPC4, Option.map_eq_some']
  constructor
  · rintro ⟨ds, h, rfl⟩
    obtain ⟨pre, hm, hmin⟩ := (regexSearch_eq_some_iff_leftmost _ _).1 h
    exact ⟨pre, ds, rfl, hm, hmin⟩
  · rintro ⟨pre, ds, rfl, hm, hmin⟩
    exact ⟨ds, (regexSearch_eq_some_iff_leftmost _ _).2 ⟨pre, hm, hmin⟩, rfl⟩

theorem extractPC4_eq_none_iff (a : String) :
    extractPC4 a = none ↔ ∀ pre ds, ¬ PostalMatch a.toList pre ds := by
  simp only [extractPC4, Option.map_eq_none']
  exact regexSearch_eq_none_iff_absent _

/-! ## The claims -/

/-- Claim C1 (evaluation at the failing input): for a district with listings rated 4.0 and
5.0 plus one unrated listing, `computePC4Stats` reports count 3 and the average rating
`"3.00"`, the sum 9 divided by all 3 listings; the mean over the 2 rated listings would
read `"4.50"`. -/
theorem computePC4Stats_average_counts_unrated :
    computePC4Stats ratedListings =
      .ok [("1012", { count := 3, avg_rating := .text "3.00", top_cuisines := [] })] ∧
    toFixed2 ((4 + 5) / 2) = .text "4.50" := by
  decide!

/-- Claim C2: the call returns a mapping with pairwise different keys, and the count
stored under a key `p` is the number of input listings whose address yields `p`. -/
theorem computePC4Stats_count_eq_group_size (rs : List Restaurant) :
    ∃ m, computePC4Stats rs = .ok m ∧ (m.map Prod.fst).Nodup ∧
      ∀ p d, (p, d) ∈ m →
        d.count = (rs.filter fun r => extractPC4 (r.address.getD "") = some p).length := by
  obtain ⟨m, hm, hn, hv⟩ := computePC4Stats_view rs
  refine ⟨m, hm, hn, ?_⟩
  intro p d hd
  obtain ⟨-, rfl⟩ := (hv p d).1 hd
  simp [finish, count_foldl_addListing, emptyDistrict, group_eq_filter]

/-- Claim C2, at a sample input: districts 1012 and 1017 hold 2 listings and 1 listing. -/
theorem computePC4Stats_count_eq_group_size_witness :
    ∃ d1 d2, computePC4Stats mixedListings = .ok [("1012", d1), ("1017", d2)] ∧
      d1.count = 2 ∧ d2.count = 1 := by
  obtain ⟨m, hm, -, h⟩ := computePC4Stats_count_eq_group_size mixedListings
  have e : computePC4Stats mixedListings = .ok
      [("1012", { count := 2, avg_rating := .text "4.50", top_cuisines := ["Dutch"] }),
       ("1017", { count := 1, avg_rating := .text "0.00", top_cuisines := ["Thai"] })] := by
    decide!
  rw [e] at hm
  cases hm
  have h1 := h "1012" _ (List.mem_cons_self _ _)
  have h2 := h "1017" _ (List.mem_cons_of_mem _ (List.mem_cons_self _ _))
  exact ⟨_, _, e, h1.trans (by decide), h2.trans (by decide)⟩

/-- Claim C3 (counterexample): the addresses `Straat 12345 AB` and `1012 ABC` both contain
four digits, white space and two upper-case letters (`2345 AB` and `1012 AB`), yet the
listing is skipped: the digits follow another digit, or the letters are followed by
another letter. -/
theorem postal_substring_without_boundary_skipped :
    PostalSubstring "Straat 12345 AB".toList "Straat 1".toList "2345".toList ∧
    computePC4Stats [{ address := some "Straat 12345 AB" }] = .ok [] ∧
    PostalSubstring "1012 ABC".toList [] "1012".toList ∧
    computePC4Stats [{ address := some "1012 ABC" }] = .ok [] := by
  refine ⟨⟨" ".toList, "AB".toList, [], ?_⟩, ?_, ⟨" ".toList, "AB".toList, "C".toList, ?_⟩, ?_⟩
    <;> decide

/-- Claim C3 (amended): a listing is counted in district `p` exactly when `p` is the digit
group of the leftmost postal code of its address that stands between word boundaries
(four digits not preceded by a letter, digit or underscore, white space, two upper-case
letters not followed by one); it is skipped exactly when the address holds no such
postal code. -/
theorem listing_district_is_leftmost_bounded_postal_code (r : Restaurant) :
    (∀ p, (∃ d, computePC4Stats [r] = .ok [(p, d)] ∧ d.count = 1) ↔
      ∃ pre ds, p = String.mk ds ∧ PostalMatch (r.address.getD "").toList pre ds ∧
        ∀ pre' ds', PostalMatch (r.address.getD "").toList pre' ds' →
          pre.length ≤ pre'.length) ∧
    (computePC4Stats [r] = .ok [] ↔
      ∀ pre ds, ¬ PostalMatch (r.address.getD "").toList pre ds) := by
  refine ⟨fun p => ?_, ?_⟩
  · rw [← extractPC4_eq_some_iff, computePC4Stats_singleton]
    cases h : extractPC4 (r.address.getD "") with
    | none => simp
    | some q =>
      constructor
      · rintro ⟨d, hd, -⟩
        simp only [Except.ok.injEq, List.cons.injEq, Prod.mk.injEq, and_true] at hd
        rw [hd.1]
      · intro hq
        cases hq
        exact ⟨_, rfl, by simp [finish, addListing, emptyDistrict]⟩
  · rw [← extractPC4_eq_none_iff, computePC4Stats_singleton]
    cases h : extractPC4 (r.address.getD "") <;> simp

/-- Claim C3 (amended), at sample inputs: `Spui 18, 1012 XA Amsterdam` is counted in
district 1012, and `Straat 12345 AB` holds no postal code between word boundaries. -/
theorem listing_district_is_leftmost_bounded_postal_code_witness :
    (∃ pre ds, "1012" = String.mk ds ∧
      PostalMatch "Spui 18, 1012 XA Amsterdam".toList pre ds ∧
      ∀ pre' ds', PostalMatch "Spui 18, 1012 XA Amsterdam".toList pre' ds' →
        pre.length ≤ pre'.length) ∧
    ∀ pre ds, ¬ PostalMatch "Straat 12345 AB".toList pre ds :=
  ⟨((listing_district_is_leftmost_bounded_postal_code plainListing).1 "1012").1
      ⟨{ count := 1, avg_rating := .text "4.00", top_cuisines := [] }, by decide!, rfl⟩,
    (listing_district_is_leftmost_bounded_postal_code
      { address := some "Straat 12345 AB" }).2.1 (by decide)⟩

/-- Claim C4 (counterexample): two listings of one district with the categories `10` and
`2`, in that order and once each, give top_cuisines `["2", "10"]`, while the ranking by
frequency with ties in first-encountered order is `["10", "2"]`. -/
theorem integer_like_categories_reordered :
    computePC4Stats numberedListings =
      .ok [("1012", { count := 2, avg_rating := .text "0.00", top_cuisines := ["2", "10"] })] ∧
    topCategoriesSpec (categories (group "1012" numberedListings)) = ["10", "2"] := by
  decide!

/-- Claim C4 (amended): in a district whose non-empty categories are neither array indices
(canonical decimal integers below `2^32 - 1`) nor names inherited from `Object.prototype`,
top_cuisines is the list of the distinct categories ordered by descending frequency, ties
kept in first-encountered order, cut to the first 3. -/
theorem top_cuisines_eq_spec_ranking (rs : List Restaurant) :
    ∃ m, computePC4Stats rs = .ok m ∧
      ∀ p d, (p, d) ∈ m →
        (∀ c ∈ categories (group p rs), arrayIndex? c = none ∧ c ∉ objectPrototypeNames) →
        d.top_cuisines = topCategoriesSpec (categories (group p rs)) := by
  obtain ⟨m, hm, -, hv⟩ := computePC4Stats_view rs
  refine ⟨m, hm, ?_⟩
  intro p d hd hc
  obtain ⟨-, rfl⟩ := (hv p d).1 hd
  simp only [finish, cuisines_foldl_addListing, emptyDistrict]
  exact top_of_foldl_bump _ hc

/-- Claim C4 (amended), at the sample of the specification: the categories A, B, A, B in
that order give top_cuisines `["A", "B"]`. -/
theorem top_cuisines_eq_spec_ranking_witness :
    ∃ d, computePC4Stats tiedListings = .ok [("1012", d)] ∧ d.top_cuisines = ["A", "B"] := by
  obtain ⟨m, hm, h⟩ := top_cuisines_eq_spec_ranking tiedListings
  have e : computePC4Stats tiedListings =
      .ok [("1012", { count := 4, avg_rating := .text "0.00", top_cuisines := ["A", "B"] })] := by
    decide!
  rw [e] at hm
  cases hm
  exact ⟨_, e, (h "1012" _ (List.mem_singleton.2 rfl) (by decide!)).trans (by decide!)⟩

/-- Claim C5 (evaluation at the failing input): a district whose only listing is unrated
gets the text `"0.00"` as average rating, not the number `0`: the guard tests the count
of all listings, which is 1 here, so the `toFixed(2)` branch runs. -/
theorem unrated_district_average_is_not_number_zero :
    computePC4Stats unratedListings =
      .ok [("1012", { count := 1, avg_rating := .text "0.00", top_cuisines := [] })] ∧
    AvgRating.text "0.00" ≠ AvgRating.number 0 := by
  decide!

/-- Claim C6: a listing with no address, or with an address that has no postal-code match,
may be inserted at any position of the input without changing the result. -/
theorem computePC4Stats_ignores_unmatched (l1 l2 : List Restaurant) (x : Restaurant)
    (h : x.address = none ∨ ∃ a, x.address = some a ∧ extractPC4 a = none) :
    ∃ m, computePC4Stats (l1 ++ l2) = .ok m ∧ computePC4Stats (l1 ++ x :: l2) = .ok m := by
  have hx : districtOf x = none := by
    rcases h with h | ⟨a, ha, hn⟩
    · simp only [districtOf, h, Option.getD_none]
      decide
    · simp only [districtOf, ha, Option.getD_some]
      exact hn
  refine ⟨_, computePC4Stats_eq _, ?_⟩
  rw [computePC4Stats_eq]
  simp [List.foldl_append, visitPure, hx]

/-- Claim C6, at a sample input: a listing addressed `Amsterdam Centraal` and a listing
without any field, inserted in the middle. -/
theorem computePC4Stats_ignores_unmatched_witness :
    (strayListing.address = none ∨
      ∃ a, strayListing.address = some a ∧ extractPC4 a = none) ∧
    (∃ m, computePC4Stats (ratedListings ++ mixedListings) = .ok m ∧
      computePC4Stats (ratedListings ++ strayListing :: mixedListings) = .ok m) ∧
    ∃ m, computePC4Stats (ratedListings ++ mixedListings) = .ok m ∧
      computePC4Stats (ratedListings ++ {} :: mixedListings) = .ok m :=
  ⟨Or.inr ⟨_, rfl, by decide⟩,
    computePC4Stats_ignores_unmatched _ _ strayListing (Or.inr ⟨_, rfl, by decide⟩),
    computePC4Stats_ignores_unmatched _ _ {} (Or.inl rfl)⟩

/-- Claim C7: every district of the result has at most 3 entries in top_cuisines. -/
theorem top_cuisines_length_le_three (rs : List Restaurant) :
    ∃ m, computePC4Stats rs = .ok m ∧ ∀ p d, (p, d) ∈ m → d.top_cuisines.length ≤ 3 := by
  obtain ⟨m, hm, -, hv⟩ := computePC4Stats_view rs
  refine ⟨m, hm, ?_⟩
  intro p d hd
  obtain ⟨-, rfl⟩ := (hv p d).1 hd
  exact length_top_cuisines _

/-- Claim C7, at a sample input: a district with five categories keeps the first three. -/
theorem top_cuisines_length_le_three_witness :
    ∃ d, computePC4Stats variedListings = .ok [("1017", d)] ∧
      d.top_cuisines = ["Thai", "Dutch", "Italian"] ∧ d.top_cuisines.length ≤ 3 := by
  obtain ⟨m, hm, h⟩ := top_cuisines_length_le_three variedListings
  have e : computePC4Stats variedListings = .ok [("1017",
      { count := 5, avg_rating := .text "0.00",
        top_cuisines := ["Thai", "Dutch", "Italian"] })] := by
    decide!
  rw [e] at hm
  cases hm
  exact ⟨_, e, rfl, h "1017" _ (List.mem_singleton.2 rfl)⟩

theorem visitJson_eq (stats : List (String × DistrictAcc)) (r : JsonListing) :
    visitJson stats r =
      if r.addressNotText then .error .typeError else .ok (visitPure stats r.typed) := by
  unfold visitJson JsonListing.addressNotText JsonListing.typed
  cases r.addressOrEmpty <;> simp [visit_eq]

theorem foldlM_visitJson (rs : List JsonListing) (stats : List (String × DistrictAcc)) :
    rs.foldlM visitJson stats =
      if rs.any JsonListing.addressNotText then .error .typeError
      else .ok ((rs.map JsonListing.typed).foldl visitPure stats) := by
  induction rs generalizing stats with
  | nil => rfl
  | cons r rs ih =>
    rw [List.foldlM_cons, visitJson_eq]
    by_cases h : r.addressNotText = true
    · simp [h, bind, Except.bind]
    · simp only [h, bind, Except.bind, List.any_cons, Bool.false_or, List.map_cons,
        List.foldl_cons]
      exact ih _

theorem computePC4StatsJson_eq (rs : List JsonListing) :
    computePC4StatsJson rs =
      if rs.any JsonListing.addressNotText then .error .typeError
      else computePC4Stats (rs.map JsonListing.typed) := by
  rw [computePC4Stats_eq, computePC4StatsJson, foldlM_visitJson]
  split_ifs <;> rfl

/-- Claim C8 (counterexample): a listing whose address is the number 1012 makes the call
end in a `TypeError`; and of three listings of district 1012 the one without a rating
lowers the average rating from 4.50 to 3.00. -/
theorem non_text_address_raises_type_error :
    computePC4StatsJson numberAddressListings = .error .typeError ∧
    computePC4StatsJson (parsedListings.take 2) = .ok
      [("1012", { count := 2, avg_rating := .text "4.50", top_cuisines := ["Dutch"] })] ∧
    computePC4StatsJson (parsedListings.take 3) = .ok
      [("1012", { count := 3, avg_rating := .text "3.00", top_cuisines := ["Dutch"] })] := by
  refine ⟨by decide!, by decide!, by decide!⟩

/-- Claim C8 (amended): `computePC4Stats` ends in a `TypeError` exactly when some listing
has a truthy address that is not a text. On every other list, whatever fields are missing
or empty and whatever the texts hold, it returns a mapping, the one the typed model
gives: its districts are the postal digits found in the addresses; a listing with a
missing, empty or unmatched address is in no district; the count of a district is the
number of its listings; the average is the sum of the ratings that are present and not 0,
divided by that count, so a listing without rating adds nothing to the sum but is
counted in the divisor; and the top categories come from the tally of the categories that
are present and not empty. -/
theorem computePC4Stats_fails_only_on_non_text_address (rs : List JsonListing) :
    (computePC4StatsJson rs = .error .typeError ↔ ∃ r ∈ rs, r.addressNotText = true) ∧
    ((∀ r ∈ rs, r.addressNotText = false) →
      ∃ m, computePC4StatsJson rs = .ok m ∧
        computePC4Stats (rs.map JsonListing.typed) = .ok m ∧
        (m.map Prod.fst).Nodup ∧
        ∀ p d, (p, d) ∈ m ↔
          group p (rs.map JsonListing.typed) ≠ [] ∧
          d = { count := (group p (rs.map JsonListing.typed)).length
                avg_rating := toFixed2
                  (((group p (rs.map JsonListing.typed)).map fun r =>
                      (truthyRating r).getD 0).sum /
                    (group p (rs.map JsonListing.typed)).length)
                top_cuisines :=
                  ((sortCuisines (objectEntries
                    ((categories (group p (rs.map JsonListing.typed))).foldl bump []))).take
                    3).map fun c => c.1 }) := by
  have hany : rs.any JsonListing.addressNotText = true ↔ ∃ r ∈ rs, r.addressNotText = true := by
    simp [List.any_eq_true]
  refine ⟨?_, ?_⟩
  · rw [computePC4StatsJson_eq, ← hany]
    by_cases h : rs.any JsonListing.addressNotText = true
    · simp [h]
    · simp [h, computePC4Stats_eq]
  · intro hall
    have h : ¬ rs.any JsonListing.addressNotText = true := by
      rw [hany]
      rintro ⟨r, hr, hn⟩
      rw [hall r hr] at hn
      exact Bool.noConfusion hn
    obtain ⟨m, hm, hn, hv⟩ := computePC4Stats_closed_form (rs.map JsonListing.typed)
    refine ⟨m, ?_, hm, hn, hv⟩
    rw [computePC4StatsJson_eq, if_neg h, hm]

/-- Claim C8 (amended), at sample inputs: the list with the number 1012 as an address
ends in a `TypeError`; without that listing the call returns district 1012 with count 3
and average 3.00, the listing without address being in no district. -/
theorem computePC4Stats_fails_only_on_non_text_address_witness :
    (∃ r ∈ numberAddressListings, r.addressNotText = true) ∧
    computePC4StatsJson numberAddressListings = .error .typeError ∧
    (∀ r ∈ parsedListings, r.addressNotText = false) ∧
    computePC4StatsJson parsedListings = .ok
      [("1012", { count := 3, avg_rating := .text "3.00", top_cuisines := ["Dutch"] })] ∧
    ∃ m, computePC4StatsJson parsedListings = .ok m ∧
      computePC4Stats (parsedListings.map JsonListing.typed) = .ok m ∧
      (m.map Prod.fst).Nodup := by
  have h1 : ∃ r ∈ numberAddressListings, r.addressNotText = true := by decide
  have h2 : ∀ r ∈ parsedListings, r.addressNotText = false := by decide
  obtain ⟨m, hm, ht, hn, -⟩ :=
    (computePC4Stats_fails_only_on_non_text_address parsedListings).2 h2
  exact ⟨h1, (computePC4Stats_fails_only_on_non_text_address numberAddressListings).1.2 h1,
    h2, by decide!, m, hm, ht, hn⟩

/-- Claim C9: every key of the result is a text of exactly four decimal digits and is the
extracted postal digits of at least one input listing; hence every district has a count
of at least 1 and its average rating comes from the `toFixed(2)` branch, never from the
number of the other branch. -/
theorem keys_are_four_digit_groups (rs : List Restaurant) :
    ∃ m, computePC4Stats rs = .ok m ∧
      ∀ p d, (p, d) ∈ m →
        p.length = 4 ∧ (∀ c ∈ p.toList, c.isDigit = true) ∧
        (∃ r ∈ rs, extractPC4 (r.address.getD "") = some p) ∧
        1 ≤ d.count ∧ ∀ q, d.avg_rating ≠ .number q := by
  obtain ⟨m, hm, -, hv⟩ := computePC4Stats_view rs
  refine ⟨m, hm, ?_⟩
  intro p d hd
  obtain ⟨hg, rfl⟩ := (hv p d).1 hd
  have hex := (group_ne_nil_iff p rs).1 hg
  obtain ⟨r, -, hr⟩ := hex
  have hpos : 0 < (group p rs).length := List.length_pos.2 hg
  refine ⟨(extractPC4_digits hr).1, (extractPC4_digits hr).2, (group_ne_nil_iff p rs).1 hg,
    ?_, ?_⟩
  · simp only [finish, count_foldl_addListing, emptyDistrict]
    omega
  · intro q
    simp only [finish, count_foldl_addListing, emptyDistrict, Nat.zero_add, gt_iff_lt, hpos,
      if_true]
    exact toFixed2_ne_number _ _

/-- Claim C9, at a sample input with the districts 1012 and 1017. -/
theorem keys_are_four_digit_groups_witness :
    ∃ d1 d2, computePC4Stats mixedListings = .ok [("1012", d1), ("1017", d2)] ∧
      1 ≤ d1.count ∧ 1 ≤ d2.count ∧
      (∃ r ∈ mixedListings, extractPC4 (r.address.getD "") = some "1017") := by
  obtain ⟨m, hm, h⟩ := keys_are_four_digit_groups mixedListings
  have e : computePC4Stats mixedListings = .ok
      [("1012", { count := 2, avg_rating := .text "4.50", top_cuisines := ["Dutch"] }),
       ("1017", { count := 1, avg_rating := .text "0.00", top_cuisines := ["Thai"] })] := by
    decide!
  rw [e] at hm
  cases hm
  have h1 := h "1012" _ (List.mem_cons_self _ _)
  have h2 := h "1017" _ (List.mem_cons_of_mem _ (List.mem_cons_self _ _))
  exact ⟨_, _, e, h1.2.2.2.1, h2.2.2.2.1, h2.2.2.1⟩

theorem group_append (p : String) (l1 l2 : List Restaurant) :
    group p (l1 ++ l2) = group p l1 ++ group p l2 := by
  simp [group]

theorem group_insert (p : String) (l1 l2 : List Restaurant) (x : Restaurant)
    (hx : districtOf x = some p) :
    group p (l1 ++ x :: l2) = group p l1 ++ x :: group p l2 := by
  simp [group, List.filter_cons, hx]

theorem categories_insert (g1 g2 : List Restaurant) (x : Restaurant)
    (hx : truthyCuisine x = none) :
    categories (g1 ++ x :: g2) = categories (g1 ++ g2) := by
  simp [categories, List.filterMap_append, List.filterMap_cons, hx]

theorem top_cuisines_finish (a : DistrictAcc) :
    (finish a).top_cuisines =
      ((sortCuisines (objectEntries a.cuisines)).take 3).map fun c => c.1 := rfl

/-- Claim C10: every name in a district's top_cuisines is the category of a listing of that
district; and inserting a listing without a category into district `p` raises the count
of `p` by one (from 0 when the district is new) and leaves its top_cuisines unchanged
(empty when the district is new). -/
theorem absent_category_not_tallied :
    (∀ rs : List Restaurant, ∃ m, computePC4Stats rs = .ok m ∧
      ∀ p d, (p, d) ∈ m → ∀ c ∈ d.top_cuisines,
        ∃ r ∈ rs, extractPC4 (r.address.getD "") = some p ∧ r.cuisine = some c) ∧
    (∀ (l1 l2 : List Restaurant) (x : Restaurant) (p : String),
      extractPC4 (x.address.getD "") = some p →
      (x.cuisine = none ∨ x.cuisine = some "") →
      ∃ m m', computePC4Stats (l1 ++ l2) = .ok m ∧
        computePC4Stats (l1 ++ x :: l2) = .ok m' ∧
        (∀ d, (p, d) ∈ m →
          ∃ d', (p, d') ∈ m' ∧ d'.count = d.count + 1 ∧ d'.top_cuisines = d.top_cuisines) ∧
        ((∀ d, (p, d) ∉ m) →
          ∃ d', (p, d') ∈ m' ∧ d'.count = 1 ∧ d'.top_cuisines = [])) := by
  constructor
  · intro rs
    obtain ⟨m, hm, -, hv⟩ := computePC4Stats_view rs
    refine ⟨m, hm, ?_⟩
    intro p d hd c hc
    obtain ⟨-, rfl⟩ := (hv p d).1 hd
    have hk := mem_top_cuisines hc
    rw [cuisines_foldl_addListing] at hk
    rcases keys_foldl_bump_subset _ _ c hk with h | h
    · simp [emptyDistrict] at h
    · simp only [categories, List.mem_filterMap] at h
      obtain ⟨r, hr, hrc⟩ := h
      have hmem := List.mem_filter.1 hr
      refine ⟨r, hmem.1, by simpa [districtOf] using hmem.2, ?_⟩
      simp only [truthyCuisine, Option.filter_eq_some] at hrc
      exact hrc.1
  · intro l1 l2 x p hx hc
    have hx' : districtOf x = some p := hx
    have ht : truthyCuisine x = none := by
      rcases hc with h | h <;> simp [truthyCuisine, h, Option.filter]
    obtain ⟨m, hm, -, hv⟩ := computePC4Stats_view (l1 ++ l2)
    obtain ⟨m', hm', -, hv'⟩ := computePC4Stats_view (l1 ++ x :: l2)
    have hne : group p (l1 ++ x :: l2) ≠ [] := by
      rw [group_insert p l1 l2 x hx']
      simp
    have hmem := (hv' p _).2 ⟨hne, rfl⟩
    have hcount : (finish ((group p (l1 ++ x :: l2)).foldl addListing emptyDistrict)).count =
        (finish ((group p (l1 ++ l2)).foldl addListing emptyDistrict)).count + 1 := by
      simp only [finish, count_foldl_addListing, group_insert p l1 l2 x hx', group_append,
        List.length_append, List.length_cons]
      omega
    have htop : (finish ((group p (l1 ++ x :: l2)).foldl addListing emptyDistrict)).top_cuisines =
        (finish ((group p (l1 ++ l2)).foldl addListing emptyDistrict)).top_cuisines := by
      simp only [top_cuisines_finish, cuisines_foldl_addListing, group_insert p l1 l2 x hx',
        group_append, categories_insert _ _ x ht]
    refine ⟨m, m', hm, hm', ?_, ?_⟩
    · intro d hd
      obtain ⟨-, rfl⟩ := (hv p d).1 hd
      exact ⟨_, hmem, hcount, htop⟩
    · intro hnone
      have hg : group p (l1 ++ l2) = [] := by
        by_contra hg
        exact hnone _ ((hv p _).2 ⟨hg, rfl⟩)
      refine ⟨_, hmem, ?_, ?_⟩
      · rw [hcount, hg]
        rfl
      · rw [htop, hg]
        rfl

/-- Claim C10, at a sample input: a listing without a category is inserted into district
1012, which holds two listings of category Dutch. -/
theorem absent_category_not_tallied_witness :
    ∃ d d',
      computePC4Stats ([] ++ mixedListings) = .ok
        [("1012", d),
         ("1017", { count := 1, avg_rating := .text "0.00", top_cuisines := ["Thai"] })] ∧
      computePC4Stats ([] ++ plainListing :: mixedListings) = .ok
        [("1012", d'),
         ("1017", { count := 1, avg_rating := .text "0.00", top_cuisines := ["Thai"] })] ∧
      d.count = 2 ∧ d'.count = d.count + 1 ∧ d'.top_cuisines = d.top_cuisines ∧
      ∀ c ∈ d'.top_cuisines, ∃ r ∈ [] ++ plainListing :: mixedListings,
        extractPC4 (r.address.getD "") = some "1012" ∧ r.cuisine = some c := by
  obtain ⟨m, m', hm, hm', h, -⟩ :=
    absent_category_not_tallied.2 [] mixedListings plainListing "1012" (by decide) (Or.inl rfl)
  obtain ⟨m2, hm2, h2⟩ := absent_category_not_tallied.1 ([] ++ plainListing :: mixedListings)
  have e : computePC4Stats ([] ++ mixedListings) = .ok
      [("1012", { count := 2, avg_rating := .text "4.50", top_cuisines := ["Dutch"] }),
       ("1017", { count := 1, avg_rating := .text "0.00", top_cuisines := ["Thai"] })] := by
    decide!
  have e' : computePC4Stats ([] ++ plainListing :: mixedListings) = .ok
      [("1012", { count := 3, avg_rating := .text "4.33", top_cuisines := ["Dutch"] }),
       ("1017", { count := 1, avg_rating := .text "0.00", top_cuisines := ["Thai"] })] := by
    decide!
  rw [e] at hm
  rw [e'] at hm' hm2
  cases hm
  cases hm'
  cases hm2
  obtain ⟨d', hd', hc, ht⟩ := h _ (List.mem_cons_self _ _)
  have hd'' : d' = { count := 3, avg_rating := .text "4.33", top_cuisines := ["Dutch"] } := by
    simp only [List.mem_cons, Prod.mk.injEq, List.mem_singleton, List.not_mem_nil] at hd'
    rcases hd' with ⟨-, h⟩ | ⟨h, -⟩ | h
    · exact h
    · exact absurd h (by decide)
    · exact absurd h id
  subst hd''
  exact ⟨_, _, e, e', rfl, hc, ht, h2 "1012" _ (List.mem_cons_self _ _)⟩

end Mapper

namespace Mapper

/-! ## The call leaves its surroundings alone -/

theorem forEachFrom_eq (st : Store) (k n : ℕ) (h : k + n = st.restaurants.length) :
    forEachFrom st k n =
      .ok { st with stats := (st.restaurants.drop k).foldl visitPure st.stats } := by
  induction n generalizing st k with
  | zero =>
    have hk : st.restaurants.length ≤ k := by omega
    simp [forEachFrom, List.drop_eq_nil_of_le hk]
  | succ n ih =>
    have hk : k < st.restaurants.length := by omega
    have hd : st.restaurants.drop k = st.restaurants[k] :: st.restaurants.drop (k + 1) :=
      List.drop_eq_getElem_cons hk
    have hv : visitAt st k = .ok { st with stats := visitPure st.stats st.restaurants[k] } := by
      simp [visitAt, List.getElem?_eq_getElem hk, visit_eq, Except.map]
    simp only [forEachFrom, hv]
    rw [ih _ (k + 1) (by simpa using by omega), hd]
    rfl

theorem callComputePC4Stats_eq (g : Globals) (rs : List Restaurant) :
    callComputePC4Stats g rs =
      .ok (g, rs, (rs.foldl visitPure []).map fun e => (e.1, finish e.2)) := by
  simp [callComputePC4Stats, forEachFrom_eq]

theorem callSequence_eq (g : Globals) (calls : List (List Restaurant)) :
    callSequence g calls =
      .ok (g, calls.map fun rs => (rs.foldl visitPure []).map fun e => (e.1, finish e.2)) := by
  induction calls with
  | nil => rfl
  | cons rs calls ih => simp [callSequence, callComputePC4Stats_eq, ih]

/-- Claim C11: a call of `computePC4Stats` returns, and afterwards the array it was given
is the same list of listings as before: same length, same order, every listing with the
same fields and values. The mapping it returns is the one of the function itself. -/
theorem computePC4Stats_leaves_input_unchanged (g : Globals) (rs : List Restaurant) :
    ∃ g' rs' m, callComputePC4Stats g rs = .ok (g', rs', m) ∧
      rs' = rs ∧ rs'.length = rs.length ∧ (∀ i : ℕ, rs'[i]? = rs[i]?) ∧
      computePC4Stats rs = .ok m := by
  exact ⟨g, rs, _, callComputePC4Stats_eq g rs, rfl, rfl, fun _ => rfl, computePC4Stats_eq rs⟩

/-- Claim C12: the mapping a call returns depends on the argument only. Whatever the
module-level variables hold and whatever calls are made in between, two calls on the same
list return equal mappings, equal to `computePC4Stats` of that list, and the module-level
variables are left as they were. -/
theorem computePC4Stats_deterministic (g : Globals) (rs : List Restaurant)
    (between : List (List Restaurant)) :
    ∃ m ms, callSequence g (rs :: between ++ [rs]) = .ok (g, m :: ms ++ [m]) ∧
      ms.length = between.length ∧ computePC4Stats rs = .ok m ∧
      ∀ g', ∃ rs', callComputePC4Stats g' rs = .ok (g', rs', m) := by
  refine ⟨_, between.map fun rs => (rs.foldl visitPure []).map fun e => (e.1, finish e.2),
    ?_, by simp, computePC4Stats_eq rs, fun g' => ⟨rs, callComputePC4Stats_eq g' rs⟩⟩
  rw [callSequence_eq]
  simp

/-- Claim C13: on the empty list `computePC4Stats` returns the empty mapping. -/
theorem computePC4Stats_nil : computePC4Stats [] = .ok [] := rfl

/-! ## Map colours -/

/-- Claim C15: `getColor` is a fixed bucket threshold: each of the seven colours is returned
exactly on its interval of counts, and for a count that is a natural number the lightest
colour is returned exactly for the count 0. -/
theorem getColor_buckets (d : ℚ) :
    (getColor d = "#FFEDA0" ↔ d ≤ 0) ∧
    (getColor d = "#FEB24C" ↔ 0 < d ∧ d ≤ 2) ∧
    (getColor d = "#FD8D3C" ↔ 2 < d ∧ d ≤ 5) ∧
    (getColor d = "#FC4E2A" ↔ 5 < d ∧ d ≤ 10) ∧
    (getColor d = "#E31A1C" ↔ 10 < d ∧ d ≤ 20) ∧
    (getColor d = "#BD0026" ↔ 20 < d ∧ d ≤ 50) ∧
    (getColor d = "#800026" ↔ 50 < d) ∧
    ∀ n : ℕ, getColor n = "#FFEDA0" ↔ n = 0 := by
  have key : ∀ x : ℚ, getColor x = "#FFEDA0" ↔ x ≤ 0 := by
    intro x
    unfold getColor
    split_ifs <;> constructor <;> intro h' <;>
      first
      | rfl
      | exact absurd h' (by decide)
      | linarith
  refine ⟨key d, ?_, ?_, ?_, ?_, ?_, ?_, ?_⟩
  · unfold getColor
    split_ifs <;> constructor <;> intro h' <;>
      first
      | rfl
      | exact absurd h' (by decide)
      | exact ⟨by linarith, by linarith⟩
      | (exfalso; linarith [h'.1, h'.2])
  · unfold getColor
    split_ifs <;> constructor <;> intro h' <;>
      first
      | rfl
      | exact absurd h' (by decide)
      | exact ⟨by linarith, by linarith⟩
      | (exfalso; linarith [h'.1, h'.2])
  · unfold getColor
    split_ifs <;> constructor <;> intro h' <;>
      first
      | rfl
      | exact absurd h' (by decide)
      | exact ⟨by linarith, by linarith⟩
      | (exfalso; linarith [h'.1, h'.2])
  · unfold getColor
    split_ifs <;> constructor <;> intro h' <;>
      first
      | rfl
      | exact absurd h' (by decide)
      | exact ⟨by linarith, by linarith⟩
      | (exfalso; linarith [h'.1, h'.2])
  · unfold getColor
    split_ifs <;> constructor <;> intro h' <;>
      first
      | rfl
      | exact absurd h' (by decide)
      | exact ⟨by linarith, by linarith⟩
      | (exfalso; linarith [h'.1, h'.2])
  · unfold getColor
    split_ifs <;> constructor <;> intro h' <;>
      first
      | rfl
      | exact absurd h' (by decide)
      | linarith
  · intro n
    rw [key]
    simp

theorem greenRank_getFarmsColor (d : ℚ) :
    greenRank (getFarmsColor d) =
      if d > 200 then 7 else if d > 100 then 6 else if d > 50 then 5 else if d > 20 then 4
      else if d > 10 then 3 else if d > 5 then 2 else if d > 0 then 1 else 0 := by
  unfold getFarmsColor
  split_ifs <;> decide

theorem greenRank_eq_thresholds_passed (d : ℚ) :
    greenRank (getFarmsColor d) =
      (if d > 0 then 1 else 0) + (if d > 5 then 1 else 0) + (if d > 10 then 1 else 0) +
      (if d > 20 then 1 else 0) + (if d > 50 then 1 else 0) + (if d > 100 then 1 else 0) +
      (if d > 200 then 1 else 0) := by
  rw [greenRank_getFarmsColor]
  split_ifs <;> first | rfl | (exfalso; linarith)

theorem threshold_passed_mono (t a b : ℚ) (h : a ≤ b) :
    (if a > t then 1 else 0 : ℕ) ≤ if b > t then 1 else 0 := by
  split_ifs <;> first | omega | (exfalso; linarith)

/-- Claim C20: `getFarmsColor` is monotone: a larger count never gets a lighter green. -/
theorem getFarmsColor_monotone (a b : ℚ) (h : a ≤ b) :
    greenRank (getFarmsColor a) ≤ greenRank (getFarmsColor b) := by
  rw [greenRank_eq_thresholds_passed, greenRank_eq_thresholds_passed]
  have h0 := threshold_passed_mono 0 a b h
  have h1 := threshold_passed_mono 5 a b h
  have h2 := threshold_passed_mono 10 a b h
  have h3 := threshold_passed_mono 20 a b h
  have h4 := threshold_passed_mono 50 a b h
  have h5 := threshold_passed_mono 100 a b h
  have h6 := threshold_passed_mono 200 a b h
  omega

/-- Claim C20, at sample counts: 7 farms are drawn lighter than 150 farms. -/
theorem getFarmsColor_monotone_witness :
    (7 : ℚ) ≤ 150 ∧ getFarmsColor 7 = "#a1d99b" ∧ getFarmsColor 150 = "#006d2c" ∧
      greenRank (getFarmsColor 7) ≤ greenRank (getFarmsColor 150) :=
  ⟨by norm_num, by decide!, by decide!, getFarmsColor_monotone 7 150 (by norm_num)⟩

/-! ## The neighbourhood table -/

/-- Claim C19 (evaluation at the failing inputs): the entries `'1021': 'Indische Buurt'` and
`'1061': 'Overtoomse Veld'` are written in the table of both files, but the same keys are
written again further down, so `getNeighborhoodName` returns the later values. -/
theorem getNeighborhoodName_shadowed_entries :
    ("1021", "Indische Buurt") ∈ pc4ToNeighborhoodWritten ∧
    getNeighborhoodName "1021" = .text "Noord - Overhoeks" ∧
    ("1061", "Overtoomse Veld") ∈ pc4ToNeighborhoodWritten ∧
    getNeighborhoodName "1061" = .text "Nieuw-West - Overtoomse Veld" ∧
    ("1021", "Indische Buurt") ∈ deployPc4ToNeighborhoodWritten ∧
    deployGetNeighborhoodName "1021" = .text "Noord - Overhoeks" ∧
    ("1061", "Overtoomse Veld") ∈ deployPc4ToNeighborhoodWritten ∧
    deployGetNeighborhoodName "1061" = .text "Nieuw-West - Overtoomse Veld" := by
  decide!

/-- For every key written in the table the function returns the value of the last entry
written for that key, in both files; the two tables give the same names. -/
theorem getNeighborhoodName_last_written :
    (∀ e ∈ pc4ToNeighborhoodWritten,
      (lastWritten pc4ToNeighborhoodWritten e.1).map Member.text =
        some (getNeighborhoodName e.1)) ∧
    (∀ e ∈ deployPc4ToNeighborhoodWritten,
      (lastWritten deployPc4ToNeighborhoodWritten e.1).map Member.text =
        some (deployGetNeighborhoodName e.1)) ∧
    (∀ e ∈ pc4ToNeighborhoodWritten, deployGetNeighborhoodName e.1 = getNeighborhoodName e.1) ∧
    (∀ e ∈ deployPc4ToNeighborhoodWritten,
      deployGetNeighborhoodName e.1 = getNeighborhoodName e.1) := by
  decide!

theorem mem_keys_objectLiteral_step (o : List (String × String)) (e : String × String)
    (k : String) :
    k ∈ (if (getOwn e.1 o).isSome then setOwn e.1 e.2 o else o ++ [e]).map Prod.fst ↔
      k ∈ o.map Prod.fst ∨ k = e.1 := by
  cases h : getOwn e.1 o with
  | none => simp
  | some v =>
    have hk : e.1 ∈ o.map Prod.fst := by
      by_contra hn
      rw [(getOwn_eq_none_iff e.1 o).2 hn] at h
      cases h
    simp only [Option.isSome_some, if_true, map_fst_setOwn]
    constructor
    · exact Or.inl
    · rintro (h' | rfl)
      · exact h'
      · exact hk

theorem mem_keys_objectLiteral (written : List (String × String)) (k : String) :
    k ∈ (objectLiteral written).map Prod.fst ↔ k ∈ written.map Prod.fst := by
  unfold objectLiteral
  induction written using List.reverseRecOn with
  | nil => simp
  | append_singleton l e ih =>
    rw [List.foldl_append, List.foldl_cons, List.foldl_nil, mem_keys_objectLiteral_step, ih]
    simp

/-- A postal code that is not written in the table and is not a name inherited from
`Object.prototype` gets the default text. -/
theorem getNeighborhoodName_default (pc4 : String)
    (hk : pc4 ∉ pc4ToNeighborhoodWritten.map Prod.fst) (hp : pc4 ∉ objectPrototypeNames) :
    getNeighborhoodName pc4 = .text ("Amsterdam " ++ pc4) := by
  have h : getOwn pc4 pc4ToNeighborhood = none := by
    rw [getOwn_eq_none_iff, pc4ToNeighborhood, mem_keys_objectLiteral]
    exact hk
  simp [getNeighborhoodName, neighborhoodNameIn, h, hp]

/-! ## Rounding to two decimals -/

theorem natDigitChar_isDigit (d : ℕ) (h : d < 10) : (Nat.digitChar d).isDigit = true := by
  interval_cases d <;> decide

theorem natDigitChar_value (d : ℕ) (h : d < 10) :
    (Nat.digitChar d).toNat - '0'.toNat = d := by
  interval_cases d <;> decide

theorem digitChar_isDigit (d : ℕ) : (digitChar d).isDigit = true := by
  have h : d % 10 < 10 := Nat.mod_lt _ (by norm_num)
  unfold digitChar
  generalize d % 10 = e at h
  interval_cases e <;> decide

theorem digitChar_value (d : ℕ) : (digitChar d).toNat - '0'.toNat = d % 10 := by
  have h : d % 10 < 10 := Nat.mod_lt _ (by norm_num)
  unfold digitChar
  generalize d % 10 = e at h
  interval_cases e <;> decide

theorem digitChar_ne_point (d : ℕ) : digitChar d ≠ '.' := by
  intro h
  have := digitChar_isDigit d
  rw [h] at this
  exact absurd this (by decide)

theorem foldl_toDigitsCore (fuel n : ℕ) (ds : List Char) (h : n < fuel) :
    (Nat.toDigitsCore 10 fuel n ds).foldl (fun v c => 10 * v + (c.toNat - '0'.toNat)) 0 =
      ds.foldl (fun v c => 10 * v + (c.toNat - '0'.toNat)) n := by
  induction fuel generalizing n ds with
  | zero => omega
  | succ fuel ih =>
    have hd := natDigitChar_value (n % 10) (Nat.mod_lt _ (by norm_num))
    simp only [Nat.toDigitsCore]
    split
    · rename_i h0
      have hn : n % 10 = n := by omega
      rw [hn] at hd
      simp only [List.foldl_cons, Nat.mul_zero, Nat.zero_add, hn, hd]
    · rename_i h0
      rw [ih _ _ (by omega)]
      simp only [List.foldl_cons, hd]
      congr 1
      omega

theorem digitsValue_toDigits (n : ℕ) : digitsValue (Nat.toDigits 10 n) = n := by
  unfold digitsValue Nat.toDigits
  rw [foldl_toDigitsCore _ _ _ (Nat.lt_succ_self n)]
  rfl

theorem isDigit_toDigitsCore (fuel n : ℕ) (ds : List Char)
    (hds : ∀ c ∈ ds, c.isDigit = true) :
    ∀ c ∈ Nat.toDigitsCore 10 fuel n ds, c.isDigit = true := by
  induction fuel generalizing n ds with
  | zero => simpa [Nat.toDigitsCore] using hds
  | succ fuel ih =>
    have hd := natDigitChar_isDigit (n % 10) (Nat.mod_lt _ (by norm_num))
    have hcons : ∀ c ∈ Nat.digitChar (n % 10) :: ds, c.isDigit = true := by
      intro c hc
      rcases List.mem_cons.1 hc with rfl | hc
      · exact hd
      · exact hds c hc
    simp only [Nat.toDigitsCore]
    split
    · exact hcons
    · exact ih _ _ hcons

theorem toDigitsCore_ne_nil (fuel n : ℕ) (ds : List Char) (h : 0 < fuel) :
    Nat.toDigitsCore 10 fuel n ds ≠ [] := by
  induction fuel generalizing n ds with
  | zero => omega
  | succ fuel ih =>
    simp only [Nat.toDigitsCore]
    split
    · simp
    · cases fuel with
      | zero => simp [Nat.toDigitsCore]
      | succ f => exact ih _ _ (Nat.succ_pos f)

theorem isDigit_toDigits (n : ℕ) : ∀ c ∈ Nat.toDigits 10 n, c.isDigit = true :=
  isDigit_toDigitsCore _ _ _ (by simp)

theorem toDigits_ne_nil (n : ℕ) : Nat.toDigits 10 n ≠ [] :=
  toDigitsCore_ne_nil _ _ _ (Nat.succ_pos n)


theorem takeWhile_ne_point (whole rest : List Char) (h : ∀ c ∈ whole, c.isDigit = true) :
    (whole ++ '.' :: rest).takeWhile (fun c => c != '.') = whole ∧
    (whole ++ '.' :: rest).dropWhile (fun c => c != '.') = '.' :: rest := by
  induction whole with
  | nil => simp
  | cons c cs ih =>
    have hc : c ≠ '.' := by
      intro e
      have := h c (List.mem_cons_self _ _)
      rw [e] at this
      exact absurd this (by decide)
    have ih := ih fun x hx => h x (List.mem_cons_of_mem _ hx)
    simp [List.takeWhile_cons, List.dropWhile_cons, hc, ih.1, ih.2]

theorem unsignedValue_fixed (whole : List Char) (c1 c2 : Char)
    (h : ∀ c ∈ whole, c.isDigit = true) :
    unsignedValue (whole ++ '.' :: [c1, c2]) =
      (digitsValue whole : ℚ) + (digitsValue [c1, c2] : ℚ) / 100 := by
  unfold unsignedValue
  obtain ⟨h1, h2⟩ := takeWhile_ne_point whole [c1, c2] h
  simp only [h1, h2, List.drop_succ_cons, List.drop_zero, List.length_cons, List.length_nil]
  norm_num

theorem decimalValue_unsigned (whole rest : List Char) (hne : whole ≠ [])
    (h : ∀ c ∈ whole, c.isDigit = true) :
    decimalValue (whole ++ rest) = unsignedValue (whole ++ rest) := by
  cases whole with
  | nil => exact absurd rfl hne
  | cons c cs =>
    have hc : c ≠ '-' := by
      intro e
      have := h c (List.mem_cons_self _ _)
      rw [e] at this
      exact absurd this (by decide)
    simp only [List.cons_append]
    unfold decimalValue
    split
    · rename_i heq
      simp only [List.cons.injEq] at heq
      exact absurd heq.1 hc
    · rfl

/-- The text of `toFixed2` in parts: sign, whole digits, point and two digits, together with
the natural number of hundredths it denotes. -/
theorem toFixed2_text (x : ℚ) (hx : |x| < 10 ^ 21) :
    ∃ n : ℕ, (n : ℚ) = ⌊|x| * 100 + 1 / 2⌋ ∧
      toFixed2 x = .text (String.mk ((if x < 0 then ['-'] else []) ++ Nat.toDigits 10 (n / 100) ++
        '.' :: [digitChar (n / 10), digitChar n])) := by
  have hfl : 0 ≤ ⌊|x| * 100 + 1 / 2⌋ := Int.floor_nonneg.2 (by positivity)
  refine ⟨⌊|x| * 100 + 1 / 2⌋.toNat, ?_, ?_⟩
  · have := Int.toNat_of_nonneg hfl
    exact_mod_cast this
  · unfold toFixed2
    rw [if_neg (not_le.2 hx)]
    simp only [AvgRating.text.injEq]
    apply String.ext
    by_cases hneg : x < 0 <;>
      simp [hneg, String.data_append, toString, Nat.repr, List.asString]

theorem digitsValue_two (n : ℕ) :
    digitsValue [digitChar (n / 10), digitChar n] = n % 100 := by
  simp only [digitsValue, List.foldl_cons, List.foldl_nil, digitChar_value]
  omega

theorem abs_round_sub_le (y : ℚ) (n : ℕ) (hn : (n : ℚ) = ⌊y * 100 + 1 / 2⌋) :
    |(n : ℚ) / 100 - y| ≤ 5 / 1000 := by
  have h1 : ((⌊y * 100 + 1 / 2⌋ : ℤ) : ℚ) ≤ y * 100 + 1 / 2 := Int.floor_le _
  have h2 : y * 100 + 1 / 2 < ((⌊y * 100 + 1 / 2⌋ : ℤ) : ℚ) + 1 := Int.lt_floor_add_one _
  rw [← hn] at h1 h2
  rw [abs_le]
  constructor <;> linarith

/-- The text returned by `toFixed(2)` for a magnitude below `10^21` has a whole part of
digits, a point and exactly two digits, and the number it denotes is within `0.005` of the
argument. -/
theorem toFixed2_rounds (x : ℚ) (hx : |x| < 10 ^ 21) :
    ∃ sign whole c1 c2, toFixed2 x = .text (String.mk (sign ++ whole ++ '.' :: [c1, c2])) ∧
      (sign = [] ∨ sign = ['-']) ∧ whole ≠ [] ∧ (∀ c ∈ whole, c.isDigit = true) ∧
      c1.isDigit = true ∧ c2.isDigit = true ∧
      |decimalValue (sign ++ whole ++ '.' :: [c1, c2]) - x| ≤ 5 / 1000 := by
  obtain ⟨n, hn, ht⟩ := toFixed2_text x hx
  have hw := isDigit_toDigits (n / 100)
  have hval : unsignedValue (Nat.toDigits 10 (n / 100) ++ '.' :: [digitChar (n / 10), digitChar n]) =
      (n : ℚ) / 100 := by
    rw [unsignedValue_fixed _ _ _ hw, digitsValue_toDigits, digitsValue_two]
    have : (n : ℚ) = ((n / 100 : ℕ) : ℚ) * 100 + ((n % 100 : ℕ) : ℚ) := by
      exact_mod_cast (Nat.div_add_mod' n 100).symm
    rw [this]
    ring
  have hround := abs_round_sub_le |x| n hn
  refine ⟨if x < 0 then ['-'] else [], Nat.toDigits 10 (n / 100), digitChar (n / 10), digitChar n,
    ht, ?_, toDigits_ne_nil _, hw, digitChar_isDigit _, digitChar_isDigit _, ?_⟩
  · by_cases hneg : x < 0 <;> simp [hneg]
  · by_cases hneg : x < 0
    · simp only [hneg, if_true, List.cons_append, List.nil_append, decimalValue]
      rw [hval]
      rw [abs_of_neg hneg] at hround
      rw [abs_le] at hround ⊢
      constructor <;> linarith [hround.1, hround.2]
    · simp only [hneg, if_false, List.nil_append]
      rw [decimalValue_unsigned _ _ (toDigits_ne_nil _) hw, hval]
      rw [abs_of_nonneg (not_lt.1 hneg)] at hround
      exact hround

theorem abs_sum_lt (B : ℚ) (l : List ℚ) (h : ∀ a ∈ l, |a| < B) (hl : l ≠ []) :
    |l.sum| < l.length * B := by
  induction l with
  | nil => exact absurd rfl hl
  | cons a l ih =>
    have ha := h a (List.mem_cons_self _ _)
    by_cases hn : l = []
    · subst hn
      simpa using ha
    · have ih := ih (fun x hx => h x (List.mem_cons_of_mem _ hx)) hn
      have := abs_add a l.sum
      simp only [List.sum_cons, List.length_cons, Nat.cast_add, Nat.cast_one]
      linarith

theorem abs_quotient_lt (g : List Restaurant) (hg : g ≠ [])
    (hr : ∀ r ∈ g, ∀ q, r.rating = some q → |q| < 10 ^ 21) :
    |(g.map fun r => (truthyRating r).getD 0).sum / (g.length : ℚ)| < 10 ^ 21 := by
  have hpos : (0 : ℚ) < g.length := by
    exact_mod_cast List.length_pos.2 hg
  have hterm : ∀ a ∈ g.map fun r => (truthyRating r).getD 0, |a| < (10 : ℚ) ^ 21 := by
    intro a ha
    obtain ⟨r, hrg, rfl⟩ := List.mem_map.1 ha
    cases hq : r.rating with
    | none => simp [truthyRating, hq]
    | some q =>
      have hb := hr r hrg q hq
      by_cases h0 : q = 0
      · simp [truthyRating, hq, h0, Option.filter]
      · simpa [truthyRating, hq, h0, Option.filter] using hb
  have hsum := abs_sum_lt _ _ hterm (by simpa using hg)
  rw [List.length_map] at hsum
  rw [abs_div, abs_of_pos hpos, div_lt_iff₀ hpos]
  linarith

/-- Claim C14: when every rating is below `10^21` in magnitude (the data model has ratings
from 0 to 5), the average rating reported for a district is a text with a whole part, a
point and exactly two digits, and the number it denotes differs from the quotient the
function computes, the sum of the truthy ratings over the count, by at most `0.005`. -/
theorem avg_rating_rounded_to_two_decimals (rs : List Restaurant)
    (hr : ∀ r ∈ rs, ∀ q, r.rating = some q → |q| < 10 ^ 21) :
    ∃ m, computePC4Stats rs = .ok m ∧
      ∀ p d, (p, d) ∈ m →
        ∃ sign whole c1 c2,
          d.avg_rating = .text (String.mk (sign ++ whole ++ '.' :: [c1, c2])) ∧
          (sign = [] ∨ sign = ['-']) ∧ whole ≠ [] ∧ (∀ c ∈ whole, c.isDigit = true) ∧
          c1.isDigit = true ∧ c2.isDigit = true ∧
          |decimalValue (sign ++ whole ++ '.' :: [c1, c2]) -
            ((group p rs).map fun r => (truthyRating r).getD 0).sum / ((group p rs).length : ℚ)|
            ≤ 5 / 1000 := by
  obtain ⟨m, hm, -, hv⟩ := computePC4Stats_closed_form rs
  refine ⟨m, hm, ?_⟩
  intro p d hd
  obtain ⟨hg, rfl⟩ := (hv p d).1 hd
  have hb := abs_quotient_lt (group p rs) hg
    fun r hrg q hq => hr r (List.mem_filter.1 hrg).1 q hq
  exact toFixed2_rounds _ hb

/-- Claim C14, at a sample input: ratings 4 and 5 and one unrated listing are reported as
the text `3.00`, a text of the stated form that denotes a number within `0.005` of 9/3. -/
theorem avg_rating_rounded_to_two_decimals_witness :
    (∀ r ∈ ratedListings, ∀ q, r.rating = some q → |q| < 10 ^ 21) ∧
    ∃ sign whole c1 c2,
      AvgRating.text "3.00" = .text (String.mk (sign ++ whole ++ '.' :: [c1, c2])) ∧
      c1.isDigit = true ∧ c2.isDigit = true ∧
      |decimalValue (sign ++ whole ++ '.' :: [c1, c2]) - (4 + 5 + 0) / 3| ≤ 5 / 1000 := by
  have hyp : ∀ r ∈ ratedListings, ∀ q, r.rating = some q → |q| < 10 ^ 21 := by
    intro r hr q hq
    simp only [ratedListings, List.mem_cons, List.mem_singleton, List.not_mem_nil, or_false] at hr
    rcases hr with rfl | rfl | rfl <;> simp at hq <;> subst hq <;> norm_num [abs_lt]
  refine ⟨hyp, ?_⟩
  obtain ⟨m, hm, h⟩ := avg_rating_rounded_to_two_decimals ratedListings hyp
  have e : computePC4Stats ratedListings =
      .ok [("1012", { count := 3, avg_rating := .text "3.00", top_cuisines := [] })] := by
    decide!
  rw [e] at hm
  cases hm
  obtain ⟨sign, whole, c1, c2, h1, -, -, -, h2, h3, h4⟩ := h "1012" _ (List.mem_singleton.2 rfl)
  have hq : ((group "1012" ratedListings).map fun r => (truthyRating r).getD 0).sum /
      ((group "1012" ratedListings).length : ℚ) = (4 + 5 + 0) / 3 := by
    decide!
  rw [hq] at h4
  exact ⟨sign, whole, c1, c2, h1, h2, h3, h4⟩

/-! ## Filtering and sorting in the deployed page -/

/-- The restaurants `applyFilters` keeps, as one test. -/
theorem applyFilters_filtered (rt : Runtime) (c : Controls) (g : Globals) :
    (applyFilters rt c g).filteredRestaurants =
      sortFiltered rt c.sortBy (g.allRestaurants.filter (keeps rt c)) := by
  simp only [applyFilters]
  congr 1
  unfold keeps
  by_cases hs : rt.toLowerCase (trim c.searchInput) = "" <;>
    by_cases hc : rt.toLowerCase c.cuisineFilter = "" <;>
    cases hm : rt.parseFloat c.minRating with
    | none => simp [hs, hc, List.filter_filter, Bool.and_comm]
    | some m =>
      by_cases h0 : m = 0 <;> simp [hs, hc, h0, List.filter_filter, Bool.and_comm, Bool.and_assoc]

theorem perm_sortFiltered (rt : Runtime) (sort : String) (l : List Restaurant) :
    (sortFiltered rt sort l).Perm l := by
  unfold sortFiltered sortWith
  split_ifs
  · exact List.perm_insertionSort _ _
  · exact List.perm_insertionSort _ _
  · exact List.perm_insertionSort _ _
  · exact List.Perm.refl _

theorem keeps_eq_passesActiveFilters (rt : Runtime) (c : Controls)
    (hm : ∀ m, rt.parseFloat c.minRating = some m → 0 ≤ m) (r : Restaurant) :
    keeps rt c r = passesActiveFilters rt c r := by
  have hrating : (match rt.parseFloat c.minRating with
        | some m => decide (m = 0) || meetsRating m r
        | none => true) =
      (match rt.parseFloat c.minRating with
        | some m => !decide (0 < m) ||
          (match r.rating with
            | some q => decide (m ≤ q)
            | none => false)
        | none => true) := by
    cases hp : rt.parseFloat c.minRating with
    | none => rfl
    | some m =>
      have h0 := hm m hp
      rcases eq_or_lt_of_le h0 with h | h
      · simp [← h]
      · have hne : m ≠ 0 := ne_of_gt h
        cases hq : r.rating with
        | none => simp [meetsRating, hq, hne, h]
        | some q =>
          by_cases hle : m ≤ q
          · have : q ≠ 0 := ne_of_gt (lt_of_lt_of_le h hle)
            simp [meetsRating, hq, hne, h, hle, this]
          · simp [meetsRating, hq, hne, h, hle]
  have hcuisine : matchesCuisine rt (rt.toLowerCase c.cuisineFilter) r =
      (match truthyCuisine r with
        | some cu => includes (rt.toLowerCase cu) (rt.toLowerCase c.cuisineFilter)
        | none => false) := by
    cases hc : r.cuisine with
    | none => simp [matchesCuisine, truthyCuisine, hc]
    | some cu =>
      by_cases he : cu = "" <;> simp [matchesCuisine, truthyCuisine, hc, he, Option.filter]
  simp only [keeps, passesActiveFilters, hrating, hcuisine, matchesSearch, Bool.or_assoc]

/-- Claim C16: with a minimum rating that is unset or not negative, the filtered list of
the deployed `applyFilters` holds exactly the restaurants of `allRestaurants` that pass
every active filter, each as often as in `allRestaurants`; with no filter active it is a
permutation of `allRestaurants`. -/
theorem applyFilters_keeps_exactly_passing (rt : Runtime) (c : Controls) (g : Globals)
    (hm : ∀ m, rt.parseFloat c.minRating = some m → 0 ≤ m) :
    (applyFilters rt c g).filteredRestaurants.Perm
      (g.allRestaurants.filter (passesActiveFilters rt c)) ∧
    (∀ r, r ∈ (applyFilters rt c g).filteredRestaurants ↔
      r ∈ g.allRestaurants ∧ passesActiveFilters rt c r = true) ∧
    (rt.toLowerCase (trim c.searchInput) = "" → rt.toLowerCase c.cuisineFilter = "" →
      (rt.parseFloat c.minRating = none ∨ rt.parseFloat c.minRating = some 0) →
      (applyFilters rt c g).filteredRestaurants.Perm g.allRestaurants) := by
  have hperm : (applyFilters rt c g).filteredRestaurants.Perm
      (g.allRestaurants.filter (passesActiveFilters rt c)) := by
    rw [applyFilters_filtered]
    refine (perm_sortFiltered _ _ _).trans ?_
    rw [List.filter_congr fun r _ => keeps_eq_passesActiveFilters rt c hm r]
  refine ⟨hperm, ?_, ?_⟩
  · intro r
    rw [hperm.mem_iff, List.mem_filter]
  · intro hs hc hr
    refine hperm.trans ?_
    have : ∀ r ∈ g.allRestaurants, passesActiveFilters rt c r = true := by
      intro r _
      rcases hr with hr | hr <;> simp [passesActiveFilters, hs, hc, hr]
    rw [List.filter_eq_self.2 this]

/-- Claim C16, at a sample input: the search text `dutch` with the minimum rating 4 keeps
the two Dutch restaurants. -/
theorem applyFilters_keeps_exactly_passing_witness :
    (∀ m, sampleRuntime.parseFloat "4" = some m → 0 ≤ m) ∧
    ((applyFilters sampleRuntime
        { searchInput := " Dutch ", minRating := "4", sortBy := "reviews" }
        sampleGlobals).filteredRestaurants.map fun r => r.name) =
      [some "Moeders", some "Cafe Hoppe"] ∧
    (applyFilters sampleRuntime { searchInput := " Dutch ", minRating := "4", sortBy := "reviews" }
        sampleGlobals).filteredRestaurants.Perm
      (sampleGlobals.allRestaurants.filter
        (passesActiveFilters sampleRuntime
          { searchInput := " Dutch ", minRating := "4", sortBy := "reviews" })) := by
  have hyp : ∀ m, sampleRuntime.parseFloat "4" = some m → 0 ≤ m := by
    intro m h
    have e : sampleRuntime.parseFloat "4" = some 4 := by decide
    rw [e] at h
    cases h
    norm_num
  exact ⟨hyp, by decide!,
    (applyFilters_keeps_exactly_passing sampleRuntime
      { searchInput := " Dutch ", minRating := "4", sortBy := "reviews" } sampleGlobals hyp).1⟩

theorem insertionSort_by_key {K : Type} [LinearOrder K] (key : Restaurant → K)
    (r : Restaurant → Restaurant → Prop) [DecidableRel r]
    (hr : ∀ a b, r a b ↔ key b ≤ key a) (l : List Restaurant) :
    (l.insertionSort r).Pairwise (fun a b => key b ≤ key a) ∧
    ∀ a b, key a = key b → List.Sublist [a, b] l → List.Sublist [a, b] (l.insertionSort r) := by
  haveI : IsTotal Restaurant r := ⟨fun a b => by
    rw [hr, hr]
    exact le_total _ _⟩
  haveI : IsTrans Restaurant r := ⟨fun a b c hab hbc => by
    rw [hr] at hab hbc ⊢
    exact le_trans hbc hab⟩
  constructor
  · exact List.Pairwise.imp (fun h => (hr _ _).1 h) (List.sorted_insertionSort r l)
  · intro a b hab hsub
    exact List.pair_sublist_insertionSort ((hr a b).2 (le_of_eq hab.symm)) hsub

theorem sublist_pair_filter (p : Restaurant → Bool) (l : List Restaurant) (a b : Restaurant)
    (ha : p a = true) (hb : p b = true) (h : List.Sublist [a, b] l) :
    List.Sublist [a, b] (l.filter p) := by
  have := h.filter p
  simpa [List.filter_cons, ha, hb] using this

/-- Claim C17: with sort `rating` the result of the deployed `applyFilters` is ordered by
descending rating (a missing rating counts as 0), with sort `reviews` by descending
review count (missing counts as 0), and two restaurants of the result with equal keys
stand in the order they have in `allRestaurants`. -/
theorem applyFilters_sorted_stable (rt : Runtime) (c : Controls) (g : Globals) :
    (c.sortBy = "rating" →
      (applyFilters rt c g).filteredRestaurants.Pairwise
        (fun a b => b.rating.getD 0 ≤ a.rating.getD 0) ∧
      ∀ a b, a.rating.getD 0 = b.rating.getD 0 → List.Sublist [a, b] g.allRestaurants →
        a ∈ (applyFilters rt c g).filteredRestaurants →
        b ∈ (applyFilters rt c g).filteredRestaurants →
        List.Sublist [a, b] (applyFilters rt c g).filteredRestaurants) ∧
    (c.sortBy = "reviews" →
      (applyFilters rt c g).filteredRestaurants.Pairwise
        (fun a b => b.reviews.getD 0 ≤ a.reviews.getD 0) ∧
      ∀ a b, a.reviews.getD 0 = b.reviews.getD 0 → List.Sublist [a, b] g.allRestaurants →
        a ∈ (applyFilters rt c g).filteredRestaurants →
        b ∈ (applyFilters rt c g).filteredRestaurants →
        List.Sublist [a, b] (applyFilters rt c g).filteredRestaurants) := by
  have hmem : ∀ x, x ∈ (applyFilters rt c g).filteredRestaurants → keeps rt c x = true := by
    intro x hx
    rw [applyFilters_filtered] at hx
    exact (List.mem_filter.1 ((perm_sortFiltered _ _ _).mem_iff.1 hx)).2
  constructor
  · intro hs
    have hk := insertionSort_by_key (fun x => x.rating.getD 0)
      (fun a b => decide (b.rating.getD 0 - a.rating.getD 0 ≤ 0) = true)
      (fun a b => by simp only [decide_eq_true_eq, sub_nonpos])
    constructor
    · rw [applyFilters_filtered, hs]
      simp only [sortFiltered, sortWith, if_true]
      exact (hk _).1
    · intro a b hab hsub ha hb
      have hsub' := sublist_pair_filter _ _ a b (hmem a ha) (hmem b hb) hsub
      rw [applyFilters_filtered, hs]
      simp only [sortFiltered, sortWith, if_true]
      exact (hk _).2 a b hab hsub'
  · intro hs
    have hne : ¬ ("reviews" = "rating") := by decide
    have hk := insertionSort_by_key (fun x => x.reviews.getD 0)
      (fun a b => decide ((b.reviews.getD 0 : ℤ) - (a.reviews.getD 0 : ℤ) ≤ 0) = true)
      (fun a b => by
        simp only [decide_eq_true_eq, sub_nonpos]
        exact Int.ofNat_le)
    constructor
    · rw [applyFilters_filtered, hs]
      simp only [sortFiltered, sortWith, hne, if_false, if_true]
      exact (hk _).1
    · intro a b hab hsub ha hb
      have hsub' := sublist_pair_filter _ _ a b (hmem a ha) (hmem b hb) hsub
      rw [applyFilters_filtered, hs]
      simp only [sortFiltered, sortWith, hne, if_false, if_true]
      exact (hk _).2 a b hab hsub'

/-- Claim C17, at a sample input: sorted by rating, the two restaurants rated 4 follow the
one rated 4.5 and keep the order they have in `allRestaurants`; the unrated one is last. -/
theorem applyFilters_sorted_stable_witness :
    ((applyFilters sampleRuntime { sortBy := "rating" } sampleGlobals).filteredRestaurants.map
        fun r => r.name) =
      [some "Bird", some "Cafe Hoppe", some "Moeders", some "Pop-up"] ∧
    (applyFilters sampleRuntime { sortBy := "rating" } sampleGlobals).filteredRestaurants.Pairwise
      (fun a b => b.rating.getD 0 ≤ a.rating.getD 0) ∧
    ((applyFilters sampleRuntime { sortBy := "reviews" } sampleGlobals).filteredRestaurants.map
        fun r => r.name) =
      [some "Bird", some "Moeders", some "Cafe Hoppe", some "Pop-up"] ∧
    (applyFilters sampleRuntime { sortBy := "reviews" } sampleGlobals).filteredRestaurants.Pairwise
      (fun a b => b.reviews.getD 0 ≤ a.reviews.getD 0) :=
  ⟨by decide!,
    ((applyFilters_sorted_stable sampleRuntime { sortBy := "rating" } sampleGlobals).1 rfl).1,
    by decide!,
    ((applyFilters_sorted_stable sampleRuntime { sortBy := "reviews" } sampleGlobals).2 rfl).1⟩

/-! ## Map enrichment in `loadMapData` -/

theorem getOwn_setOwn {β : Type} (k k' : String) (v : β) (o : List (String × β))
    (h : getOwn k' o ≠ none) :
    getOwn k (setOwn k' v o) = if k = k' then some v else getOwn k o := by
  induction o with
  | nil => simp [getOwn] at h
  | cons e o ih =>
    obtain ⟨k0, w⟩ := e
    by_cases h0 : k0 = k'
    · subst h0
      by_cases hk : k = k0
      · simp [setOwn, getOwn, hk]
      · have hk' : ¬ k0 = k := fun e => hk e.symm
        simp [setOwn, getOwn, hk, hk']
    · have h' : getOwn k' o ≠ none := by simpa [getOwn, h0] using h
      by_cases hk : k0 = k
      · have : ¬ k = k' := fun e => h0 (hk.trans e)
        simp [setOwn, getOwn, h0, hk, this]
      · simp [setOwn, getOwn, h0, hk, ih h']

theorem getOwn_assign_step {β : Type} (k : String) (o : List (String × β)) (e : String × β) :
    getOwn k (if (getOwn e.1 o).isSome then setOwn e.1 e.2 o else o ++ [e]) =
      if k = e.1 then some e.2 else getOwn k o := by
  cases h : getOwn e.1 o with
  | none =>
    by_cases hk : k = e.1
    · subst hk
      simp [getOwn_append, h, getOwn]
    · have hk' : ¬ e.1 = k := fun x => hk x.symm
      cases hg : getOwn k o <;> simp [getOwn_append, hg, getOwn, hk, hk']
  | some v =>
    simp only [Option.isSome_some, if_true]
    exact getOwn_setOwn k e.1 e.2 o (by simp [h])

theorem getOwn_assignAll {β : Type} (k : String) (target source : List (String × β)) :
    getOwn k (assignAll target source) =
      (getOwn k source.reverse).orElse fun _ => getOwn k target := by
  unfold assignAll
  induction source generalizing target with
  | nil => simp [getOwn]
  | cons e s ih =>
    obtain ⟨k0, v0⟩ := e
    rw [List.foldl_cons, ih, getOwn_assign_step, List.reverse_cons, getOwn_append]
    by_cases hk : k0 = k
    · subst hk
      cases getOwn k0 s.reverse <;> simp [getOwn]
    · have hk' : ¬ k = k0 := fun x => hk x.symm
      cases getOwn k s.reverse <;> simp [getOwn, hk, hk']

theorem getOwn_perm {β : Type} (k : String) (l l' : List (String × β)) (h : l.Perm l')
    (hn : (l.map Prod.fst).Nodup) : getOwn k l = getOwn k l' := by
  have hn' : (l'.map Prod.fst).Nodup := (h.map Prod.fst).nodup_iff.1 hn
  apply Option.ext
  intro v
  simp only [Option.mem_def]
  rw [← mem_iff_getOwn l hn, ← mem_iff_getOwn l' hn', h.mem_iff]

theorem getOwn_spread_properties (k : String) (props : List (String × String))
    (hn : (props.map Prod.fst).Nodup) :
    getOwn k (assignAll [] ((objectEntries props).map fun e => (e.1, PropValue.original e.2))) =
      (getOwn k props).map PropValue.original := by
  rw [getOwn_assignAll]
  have hperm : (((objectEntries props).map fun e => (e.1, PropValue.original e.2)).reverse).Perm
      (props.map fun e => (e.1, PropValue.original e.2)) :=
    (List.reverse_perm _).trans ((perm_objectEntries props).map _)
  have hnod : ((props.map fun e => (e.1, PropValue.original e.2)).map Prod.fst).Nodup := by
    simpa [List.map_map, Function.comp_def] using hn
  rw [getOwn_perm k _ _ hperm.symm hnod |>.symm, getOwn_map_snd]
  cases getOwn k props <;> simp [getOwn]

theorem enrichFeature_lookup (m : List (String × DistrictStats)) (f : Feature)
    (hn : (f.properties.map Prod.fst).Nodup) (hp : pc4Key f ∉ objectPrototypeNames) :
    (enrichFeature m f).members = f.members ∧
    (∀ k, k ≠ "count" → k ≠ "avg_rating" → k ≠ "top_cuisines" →
      getOwn k (enrichFeature m f).properties = (getOwn k f.properties).map PropValue.original) ∧
    (∀ d, getOwn (pc4Key f) m = some d →
      getOwn "count" (enrichFeature m f).properties = some (.count d.count) ∧
      getOwn "avg_rating" (enrichFeature m f).properties = some (.rating d.avg_rating) ∧
      getOwn "top_cuisines" (enrichFeature m f).properties = some (.names d.top_cuisines)) ∧
    (getOwn (pc4Key f) m = none →
      getOwn "count" (enrichFeature m f).properties = some (.count 0) ∧
      getOwn "avg_rating" (enrichFeature m f).properties = some (.rating (.number 0)) ∧
      getOwn "top_cuisines" (enrichFeature m f).properties = some (.names [])) := by
  refine ⟨rfl, ?_, ?_, ?_⟩
  · intro k h1 h2 h3
    have h1' : ¬ "count" = k := fun e => h1 e.symm
    have h2' : ¬ "avg_rating" = k := fun e => h2 e.symm
    have h3' : ¬ "top_cuisines" = k := fun e => h3 e.symm
    simp only [enrichFeature]
    rw [getOwn_assignAll, getOwn_spread_properties k _ hn]
    cases getOwn (pc4Key f) m with
    | some d => simp [statsEntries, getOwn, h1', h2', h3']
    | none => simp [hp, statsEntries, getOwn, h1', h2', h3']
  · intro d hd
    simp only [enrichFeature, hd, getOwn_assignAll]
    refine ⟨?_, ?_, ?_⟩ <;> simp [statsEntries, getOwn]
  · intro hd
    simp only [enrichFeature, hd, getOwn_assignAll, hp, if_false]
    refine ⟨?_, ?_, ?_⟩ <;> simp [statsEntries, getOwn]

/-- Claim C18: for features whose `properties` are objects (pairwise different keys) and
whose pc4 is not a name inherited from `Object.prototype` (no postal code is), the enriched
collection has one feature per input feature, in the same order; an enriched feature
keeps the other members and every original property except count, avg_rating and
top_cuisines; its count is the number of restaurants whose address yields its pc4, with
avg_rating and top_cuisines of the `computePC4Stats` entry for that pc4, or count 0,
avg_rating 0 and no top_cuisines when no restaurant falls in that pc4. -/
theorem enrichedFeatures_frame (features : List Feature) (rs : List Restaurant)
    (hobj : ∀ f ∈ features, (f.properties.map Prod.fst).Nodup)
    (hpc4 : ∀ f ∈ features, pc4Key f ∉ objectPrototypeNames) :
    ∃ m out, computePC4Stats rs = .ok m ∧ enrichedFeatures features rs = .ok out ∧
      out.length = features.length ∧
      List.Forall₂ (fun f e =>
        e.members = f.members ∧
        (∀ k, k ≠ "count" → k ≠ "avg_rating" → k ≠ "top_cuisines" →
          getOwn k e.properties = (getOwn k f.properties).map PropValue.original) ∧
        getOwn "count" e.properties = some (.count
          (rs.filter fun r => extractPC4 (r.address.getD "") = some (pc4Key f)).length) ∧
        (∀ d, (pc4Key f, d) ∈ m →
          getOwn "count" e.properties = some (.count d.count) ∧
          getOwn "avg_rating" e.properties = some (.rating d.avg_rating) ∧
          getOwn "top_cuisines" e.properties = some (.names d.top_cuisines)) ∧
        ((∀ r ∈ rs, extractPC4 (r.address.getD "") ≠ some (pc4Key f)) →
          getOwn "count" e.properties = some (.count 0) ∧
          getOwn "avg_rating" e.properties = some (.rating (.number 0)) ∧
          getOwn "top_cuisines" e.properties = some (.names []))) features out := by
  obtain ⟨m, hm, hnd, hv⟩ := computePC4Stats_view rs
  refine ⟨m, features.map (enrichFeature m), hm, by simp [enrichedFeatures, hm, Except.map],
    by simp, ?_⟩
  rw [List.forall₂_map_right_iff, List.forall₂_same]
  intro f hf
  obtain ⟨h1, h2, h3, h4⟩ := enrichFeature_lookup m f (hobj f hf) (hpc4 f hf)
  have hnone : group (pc4Key f) rs = [] → getOwn (pc4Key f) m = none := by
    intro hg
    cases hd : getOwn (pc4Key f) m with
    | none => rfl
    | some d => exact absurd hg ((hv _ d).1 ((mem_iff_getOwn m hnd _ d).2 hd)).1
  refine ⟨h1, h2, ?_, ?_, ?_⟩
  · by_cases hg : group (pc4Key f) rs = []
    · rw [(h4 (hnone hg)).1, ← group_eq_filter, hg]
      rfl
    · have hmem := (hv (pc4Key f) _).2 ⟨hg, rfl⟩
      rw [(h3 _ ((mem_iff_getOwn m hnd _ _).1 hmem)).1]
      simp [finish, count_foldl_addListing, emptyDistrict, group_eq_filter]
  · intro d hd
    exact h3 d ((mem_iff_getOwn m hnd _ d).1 hd)
  · intro hno
    apply h4
    apply hnone
    by_contra hg
    obtain ⟨r, hr, he⟩ := (group_ne_nil_iff _ rs).1 hg
    exact hno r hr he

/-- Claim C18, at a sample input: the feature of district 1012 gets count 2 and keeps its
name, its own `count` text is replaced, and the feature of district 1099 gets count 0,
avg_rating 0 and no top_cuisines. -/
theorem enrichedFeatures_frame_witness :
    (∀ f ∈ sampleFeatures, (f.properties.map Prod.fst).Nodup) ∧
    (∀ f ∈ sampleFeatures, pc4Key f ∉ objectPrototypeNames) ∧
    enrichedFeatures sampleFeatures mixedListings = .ok
      [{ members := [("type", "Feature")],
         properties := [("pc4", .original "1012"), ("name", .original "Centrum"),
           ("count", .count 2), ("avg_rating", .rating (.text "4.50")),
           ("top_cuisines", .names ["Dutch"])] },
       { members := [("type", "Feature")],
         properties := [("pc4", .original "1099"), ("name", .original "IJburg"),
           ("count", .count 0), ("avg_rating", .rating (.number 0)),
           ("top_cuisines", .names [])] }] ∧
    ∃ m out, computePC4Stats mixedListings = .ok m ∧
      enrichedFeatures sampleFeatures mixedListings = .ok out ∧
      out.length = sampleFeatures.length := by
  have h1 : ∀ f ∈ sampleFeatures, (f.properties.map Prod.fst).Nodup := by decide
  have h2 : ∀ f ∈ sampleFeatures, pc4Key f ∉ objectPrototypeNames := by decide
  obtain ⟨m, out, hm, ho, hl, -⟩ := enrichedFeatures_frame sampleFeatures mixedListings h1 h2
  exact ⟨h1, h2, by decide!, m, out, hm, ho, hl⟩

/-! ## The legend of the farms map -/

theorem farmsLegend_ranges :
    farmsLegend.map (fun e => (e.swatch, e.lower, e.upper)) =
      [("#c7e9c0", 0, some 5), ("#a1d99b", 5, some 10), ("#74c476", 10, some 20),
       ("#41ab5d", 20, some 50), ("#238b45", 50, some 100), ("#006d2c", 100, some 200),
       ("#00441b", 200, none)] := by
  decide!

theorem getFarmsColor_on_range (s : String) (lo : ℕ) (up : Option ℕ)
    (h : (s, lo, up) ∈ [("#c7e9c0", 0, some 5), ("#a1d99b", 5, some 10), ("#74c476", 10, some 20),
       ("#41ab5d", 20, some 50), ("#238b45", 50, some 100), ("#006d2c", 100, some 200),
       ("#00441b", 200, none)]) (c : ℚ) (h1 : (lo : ℚ) < c)
    (h2 : ∀ t : ℕ, up = some t → c ≤ t) : getFarmsColor c = s := by
  simp only [List.mem_cons, Prod.mk.injEq, List.mem_singleton, List.not_mem_nil, or_false] at h
  rcases h with ⟨rfl, rfl, rfl⟩ | ⟨rfl, rfl, rfl⟩ | ⟨rfl, rfl, rfl⟩ | ⟨rfl, rfl, rfl⟩ |
    ⟨rfl, rfl, rfl⟩ | ⟨rfl, rfl, rfl⟩ | ⟨rfl, rfl, rfl⟩
  all_goals
    first
    | (have h3 := h2 _ rfl
       push_cast at h1 h3
       unfold getFarmsColor
       split_ifs <;> first | rfl | (exfalso; linarith))
    | (push_cast at h1
       unfold getFarmsColor
       split_ifs <;> rfl)

/-- Claim C21: the legend is built from the grades 0, 5, 10, 20, 50, 100, 200; every count
above the lower bound of an entry and up to its upper bound (any count above 200 for the
last, open-ended entry) is drawn by `getFarmsColor` in the colour of the swatch of that
entry, and the seven swatches are pairwise different. -/
theorem farmsLegend_agrees_with_map :
    farmsLegend.map (fun e => e.lower) = [0, 5, 10, 20, 50, 100, 200] ∧
    farmsLegend.map (fun e => e.upper) =
      [some 5, some 10, some 20, some 50, some 100, some 200, none] ∧
    (∀ e ∈ farmsLegend, e.swatch = getFarmsColor ((e.lower : ℚ) + 1) ∧
      ∀ c : ℚ, (e.lower : ℚ) < c → (∀ t : ℕ, e.upper = some t → c ≤ t) →
        getFarmsColor c = e.swatch) ∧
    (farmsLegend.map fun e => e.swatch).Nodup := by
  refine ⟨by decide!, by decide!, ?_, by decide!⟩
  intro e he
  have hsw : ∀ e ∈ farmsLegend, e.swatch = getFarmsColor ((e.lower : ℚ) + 1) := by decide!
  refine ⟨hsw e he, ?_⟩
  intro c h1 h2
  have hm : (e.swatch, e.lower, e.upper) ∈
      farmsLegend.map (fun e => (e.swatch, e.lower, e.upper)) :=
    List.mem_map.2 ⟨e, he, rfl⟩
  rw [farmsLegend_ranges] at hm
  exact getFarmsColor_on_range _ _ _ hm c h1 h2

/-- Claim C21, at sample counts: 5 farms and 3.5 farms are drawn in the swatch colour of the
first entry, 201 farms in that of the last entry. -/
theorem farmsLegend_agrees_with_map_witness :
    getFarmsColor 5 = "#c7e9c0" ∧ getFarmsColor (7 / 2) = "#c7e9c0" ∧
    getFarmsColor 201 = "#00441b" ∧
    (farmsLegend.map fun e => e.html) =
      ["<i style=\"background:#c7e9c0\"></i> 0&ndash;5",
       "<i style=\"background:#a1d99b\"></i> 5&ndash;10",
       "<i style=\"background:#74c476\"></i> 10&ndash;20",
       "<i style=\"background:#41ab5d\"></i> 20&ndash;50",
       "<i style=\"background:#238b45\"></i> 50&ndash;100",
       "<i style=\"background:#006d2c\"></i> 100&ndash;200",
       "<i style=\"background:#00441b\"></i> 200+"] := by
  have h := farmsLegend_agrees_with_map.2.2.1
  have e0 : (⟨"#c7e9c0", 0, some 5, "<i style=\"background:#c7e9c0\"></i> 0&ndash;5"⟩ :
      LegendEntry) ∈ farmsLegend := by decide!
  have e6 : (⟨"#00441b", 200, none, "<i style=\"background:#00441b\"></i> 200+"⟩ :
      LegendEntry) ∈ farmsLegend := by decide!
  refine ⟨(h _ e0).2 5 (by norm_num) ?_, (h _ e0).2 (7 / 2) (by norm_num) ?_,
    (h _ e6).2 201 (by norm_num) ?_, by decide!⟩
  · intro t ht
    cases ht
    norm_num
  · intro t ht
    cases ht
    norm_num
  · intro t ht
    cases ht

/-! ## The two copies of the aggregator agree -/

theorem getOwn_map_entries {β γ : Type} (f : β → γ) (k : String) (s : List (String × β)) :
    getOwn k (s.map fun e => (e.1, f e.2)) = (getOwn k s).map f :=
  getOwn_map_snd f k s

theorem updateObject_map (pc4 : String) (F : DistrictObject → Except JsError DistrictObject)
    (f : DistrictAcc → DistrictAcc) (hF : ∀ a, F a.toObject = .ok (f a).toObject)
    (s : List (String × DistrictAcc)) (h : getOwn pc4 s ≠ none) :
    updateObject pc4 F (s.map fun e => (e.1, e.2.toObject)) =
      .ok ((modifyOwn pc4 f s).map fun e => (e.1, e.2.toObject)) := by
  induction s with
  | nil => simp [getOwn] at h
  | cons e s ih =>
    obtain ⟨k, a⟩ := e
    by_cases hk : k = pc4
    · simp [updateObject, modifyOwn, hk, hF, Except.map]
    · have h' : getOwn pc4 s ≠ none := by simpa [getOwn, hk] using h
      simp [updateObject, modifyOwn, hk, ih h', Except.map]

theorem deployVisit_map (stats : List (String × DistrictAcc)) (r : Restaurant) :
    deployVisit (stats.map fun e => (e.1, e.2.toObject)) r =
      .ok ((visitPure stats r).map fun e => (e.1, e.2.toObject)) := by
  simp only [deployVisit, visitPure, districtOf]
  cases hd : extractPC4 (r.address.getD "") with
  | none => rfl
  | some pc4 =>
    have h0 := getOwn_ensure_ne_none pc4 stats
    have hens : (if (getOwn pc4 (stats.map fun e => (e.1, e.2.toObject))).isNone then
          (stats.map fun e => (e.1, e.2.toObject)) ++
            [(pc4, ({ count := 0, total_rating := some 0, cuisines := some [] } : DistrictObject))]
        else stats.map fun e => (e.1, e.2.toObject)) =
        (if (getOwn pc4 stats).isNone then stats ++ [(pc4, emptyDistrict)] else stats).map
          fun e => (e.1, e.2.toObject) := by
      rw [getOwn_map_entries]
      cases getOwn pc4 stats <;> simp [emptyDistrict, DistrictAcc.toObject]
    simp only [hens]
    generalize (if (getOwn pc4 stats).isNone then stats ++ [(pc4, emptyDistrict)] else stats) = s1
      at h0 ⊢
    have h1 : ∀ f, getOwn pc4 (modifyOwn pc4 f s1) ≠ none := by
      intro f
      rw [getOwn_modifyOwn]
      cases h : getOwn pc4 s1 with
      | none => exact absurd h h0
      | some a => simp
    have h2 : ∀ f g, getOwn pc4 (modifyOwn pc4 f (modifyOwn pc4 g s1)) ≠ none := by
      intro f g
      rw [modifyOwn_modifyOwn]
      exact h1 _
    have e1 := updateObject_map pc4 (fun s => .ok { s with count := s.count + 1 })
      (fun a => { a with count := a.count + 1 }) (fun a => rfl) s1 h0
    have e2 : ∀ (q : ℚ) (s : List (String × DistrictAcc)), getOwn pc4 s ≠ none →
        updateObject pc4
          (fun s => .ok { s with total_rating := s.total_rating.map fun t => t + q })
          (s.map fun e => (e.1, e.2.toObject)) =
        .ok ((modifyOwn pc4 (fun a => { a with total_rating := a.total_rating + q }) s).map
          fun e => (e.1, e.2.toObject)) := fun q s hs =>
      updateObject_map pc4 _ (fun a => { a with total_rating := a.total_rating + q })
        (fun a => rfl) s hs
    have e3 : ∀ (c : String) (s : List (String × DistrictAcc)), getOwn pc4 s ≠ none →
        updateObject pc4
          (fun s => match s.cuisines with
            | some t => .ok { s with cuisines := some (bump t c) }
            | none => .error .typeError)
          (s.map fun e => (e.1, e.2.toObject)) =
        .ok ((modifyOwn pc4 (fun a => { a with cuisines := bump a.cuisines c }) s).map
          fun e => (e.1, e.2.toObject)) := fun c s hs =>
      updateObject_map pc4 _ (fun a => { a with cuisines := bump a.cuisines c })
        (fun a => rfl) s hs
    cases hr : truthyRating r with
    | none =>
      cases hc : truthyCuisine r with
      | none =>
        simp only [bind, Except.bind, e1]
        congr 2
        apply congrArg (fun f => modifyOwn pc4 f s1)
        funext a
        simp [addListing, hr, hc]
      | some c =>
        simp only [bind, Except.bind, e1, e3 c _ (h1 _), modifyOwn_modifyOwn]
        congr 2
        apply congrArg (fun f => modifyOwn pc4 f s1)
        funext a
        simp [addListing, hr, hc]
    | some q =>
      cases hc : truthyCuisine r with
      | none =>
        simp only [bind, Except.bind, e1, e2 q _ (h1 _), modifyOwn_modifyOwn]
        congr 2
        apply congrArg (fun f => modifyOwn pc4 f s1)
        funext a
        simp [addListing, hr, hc]
      | some c =>
        simp only [bind, Except.bind, e1, e2 q _ (h1 _)]
        rw [e3 c _ (h2 _ _), modifyOwn_modifyOwn, modifyOwn_modifyOwn]
        congr 2
        apply congrArg (fun f => modifyOwn pc4 f s1)
        funext a
        simp [addListing, hr, hc]

theorem foldlM_deployVisit (rs : List Restaurant) (stats : List (String × DistrictAcc)) :
    rs.foldlM deployVisit (stats.map fun e => (e.1, e.2.toObject)) =
      .ok ((rs.foldl visitPure stats).map fun e => (e.1, e.2.toObject)) := by
  induction rs generalizing stats with
  | nil => rfl
  | cons r rs ih =>
    simp only [List.foldlM_cons, List.foldl_cons, deployVisit_map, bind, Except.bind]
    exact ih _

theorem deployFinish_toObject (a : DistrictAcc) :
    deployFinish a.toObject = .ok (finish a).toObject := by
  simp only [deployFinish, DistrictAcc.toObject, finish, DistrictStats.toObject]

/-- The state of the second loop when the keys in `done` have been rewritten. -/
theorem updateObject_deployFinish (k : String) (done : List String)
    (s : List (String × DistrictAcc)) (hn : (s.map Prod.fst).Nodup)
    (hk : k ∈ s.map Prod.fst) (hd : k ∉ done) :
    updateObject k deployFinish
        (s.map fun e => (e.1, if e.1 ∈ done then (finish e.2).toObject else e.2.toObject)) =
      .ok (s.map fun e =>
        (e.1, if e.1 ∈ k :: done then (finish e.2).toObject else e.2.toObject)) := by
  induction s with
  | nil => simp at hk
  | cons e s ih =>
    obtain ⟨k', a⟩ := e
    simp only [List.map_cons, List.nodup_cons] at hn
    by_cases h : k' = k
    · subst h
      have hrest : ∀ e ∈ s, (e.1 ∈ k' :: done ↔ e.1 ∈ done) := by
        intro e he
        have : e.1 ≠ k' := fun h' => hn.1 (h' ▸ List.mem_map_of_mem Prod.fst he)
        simp [this]
      have hmap : (s.map fun e : String × DistrictAcc =>
            (e.1, if e.1 ∈ k' :: done then (finish e.2).toObject else e.2.toObject)) =
          s.map fun e => (e.1, if e.1 ∈ done then (finish e.2).toObject else e.2.toObject) := by
        apply List.map_congr_left
        intro e he
        simp only [hrest e he]
      rw [List.map_cons, List.map_cons, hmap]
      simp only [updateObject, if_true, hd, if_false, deployFinish_toObject,
        Except.map, List.mem_cons, true_or]
    · have hk' : k ∈ s.map Prod.fst := by
        rcases List.mem_cons.1 hk with h' | h'
        · exact absurd h'.symm h
        · exact h'
      simp only [List.map_cons, updateObject, h, if_false, ih hn.2 hk', Except.map,
        List.mem_cons, false_or]

theorem foldlM_deployFinish (ks done : List String) (s : List (String × DistrictAcc))
    (hn : (s.map Prod.fst).Nodup) (hks : ks.Nodup) (hsub : ∀ k ∈ ks, k ∈ s.map Prod.fst)
    (hdis : ∀ k ∈ ks, k ∉ done) :
    ks.foldlM (fun stats pc4 => updateObject pc4 deployFinish stats)
        (s.map fun e => (e.1, if e.1 ∈ done then (finish e.2).toObject else e.2.toObject)) =
      .ok (s.map fun e =>
        (e.1, if e.1 ∈ ks ∨ e.1 ∈ done then (finish e.2).toObject else e.2.toObject)) := by
  induction ks generalizing done with
  | nil => simp [pure, Except.pure]
  | cons k ks ih =>
    simp only [List.nodup_cons] at hks
    have hstep := updateObject_deployFinish k done s hn (hsub k (List.mem_cons_self _ _))
      (hdis k (List.mem_cons_self _ _))
    simp only [List.foldlM_cons, hstep, bind, Except.bind]
    rw [ih (k :: done) hks.2 (fun x hx => hsub x (List.mem_cons_of_mem _ hx))]
    · congr 1
      apply List.map_congr_left
      intro e _
      simp only [List.mem_cons]
      congr 2
      apply propext
      constructor
      · rintro (h | h | h)
        · exact Or.inl (Or.inr h)
        · exact Or.inl (Or.inl h)
        · exact Or.inr h
      · rintro ((h | h) | h)
        · exact Or.inr (Or.inl h)
        · exact Or.inl h
        · exact Or.inr (Or.inr h)
    · intro x hx
      simp only [List.mem_cons, not_or]
      exact ⟨fun h => hks.1 (h ▸ hx), hdis x (List.mem_cons_of_mem _ hx)⟩

theorem deployComputePC4Stats_eq (rs : List Restaurant) :
    deployComputePC4Stats rs =
      .ok ((rs.foldl visitPure []).map fun e => (e.1, (finish e.2).toObject)) := by
  have hscan := foldlM_deployVisit rs []
  simp only [List.map_nil] at hscan
  have hn := nodup_keys_foldl rs [] (by simp)
  generalize rs.foldl visitPure [] = s at hscan hn
  simp only [deployComputePC4Stats, hscan, bind, Except.bind]
  have hperm := perm_objectEntries (s.map fun e : String × DistrictAcc => (e.1, e.2.toObject))
  have hkeys : ((objectEntries (s.map fun e : String × DistrictAcc =>
      (e.1, e.2.toObject))).map fun e => e.1).Perm (s.map Prod.fst) := by
    have := hperm.map Prod.fst
    simpa [List.map_map, Function.comp_def] using this
  have h := foldlM_deployFinish _ [] s hn (hkeys.nodup_iff.2 hn)
    (fun k hk => hkeys.subset hk) (fun k _ => by simp)
  simp only [List.not_mem_nil, if_false, or_false] at h
  rw [h]
  congr 1
  apply List.map_congr_left
  intro e he
  have : e.1 ∈ (objectEntries (s.map fun e : String × DistrictAcc =>
      (e.1, e.2.toObject))).map fun e => e.1 :=
    hkeys.symm.subset (List.mem_map_of_mem Prod.fst he)
  simp only [this, if_true]

/-- C22: for every list of listings the copy of `computePC4Stats` in src/deploy/app.js
and the copy in src/static/app.js both return, and they return equal mappings: the same
district keys in the same order, and under each key the same `count`, `avg_rating` and
`top_cuisines`, the deployed object holding no other member. -/
theorem deploy_and_static_computePC4Stats_agree (restaurants : List Restaurant) :
    ∃ m, computePC4Stats restaurants = .ok m ∧
      deployComputePC4Stats restaurants = .ok (m.map fun e => (e.1, e.2.toObject)) := by
  refine ⟨_, computePC4Stats_eq restaurants, ?_⟩
  rw [deployComputePC4Stats_eq, List.map_map]
  rfl

/-! ## Zero ratings and input order -/

theorem visitPure_sameUpToZeroRating (stats : List (String × DistrictAcc)) (r r' : Restaurant)
    (h : SameUpToZeroRating r r') : visitPure stats r' = visitPure stats r := by
  rcases h with rfl | ⟨h0, rfl⟩ | ⟨h0, rfl⟩
  · rfl
  · simp [visitPure, districtOf, addListing, truthyRating, truthyCuisine, h0, Option.filter]
  · simp [visitPure, districtOf, addListing, truthyRating, truthyCuisine, h0, Option.filter]

theorem foldl_visitPure_sameUpToZeroRating (rs rs' : List Restaurant)
    (h : List.Forall₂ SameUpToZeroRating rs rs') (stats : List (String × DistrictAcc)) :
    rs'.foldl visitPure stats = rs.foldl visitPure stats := by
  induction h generalizing stats with
  | nil => rfl
  | cons hr _ ih =>
    simp only [List.foldl_cons, visitPure_sameUpToZeroRating _ _ _ hr]
    exact ih _

/-- Claim C23: when listings are replaced by listings that differ only in having no rating
instead of the rating 0, or the rating 0 instead of no rating, `computePC4Stats` returns
the same mapping. -/
theorem zero_rating_same_as_missing (rs rs' : List Restaurant)
    (h : List.Forall₂ SameUpToZeroRating rs rs') :
    ∃ m, computePC4Stats rs = .ok m ∧ computePC4Stats rs' = .ok m := by
  refine ⟨_, computePC4Stats_eq rs, ?_⟩
  rw [computePC4Stats_eq, foldl_visitPure_sameUpToZeroRating rs rs' h]

/-- Claim C23, at a sample input: one rating 0 is removed and one is added. -/
theorem zero_rating_same_as_missing_witness :
    List.Forall₂ SameUpToZeroRating zeroRatedListings zeroSwappedListings ∧
    computePC4Stats zeroRatedListings = .ok
      [("1012", { count := 2, avg_rating := .text "2.00", top_cuisines := ["Dutch"] }),
       ("1017", { count := 1, avg_rating := .text "0.00", top_cuisines := ["Thai"] })] ∧
    ∃ m, computePC4Stats zeroRatedListings = .ok m ∧ computePC4Stats zeroSwappedListings = .ok m := by
  have h : List.Forall₂ SameUpToZeroRating zeroRatedListings zeroSwappedListings :=
    List.Forall₂.cons (Or.inl rfl)
      (List.Forall₂.cons (Or.inr (Or.inl ⟨rfl, rfl⟩))
        (List.Forall₂.cons (Or.inr (Or.inr ⟨rfl, rfl⟩)) List.Forall₂.nil))
  exact ⟨h, by decide!, zero_rating_same_as_missing _ _ h⟩

/-- Claim C24 (counterexample): four listings of one district with four categories, once
each, and the same listings with the last one moved to the front. The key, the count and
the average rating agree, but the top categories are A, B, C in one case and D, A, B in
the other: they differ in which tied categories are listed, not only in their order. -/
theorem top_cuisines_members_depend_on_order :
    fourCategories.Perm fourCategoriesRotated ∧
    computePC4Stats fourCategories = .ok
      [("1012", { count := 4, avg_rating := .text "3.00", top_cuisines := ["A", "B", "C"] })] ∧
    computePC4Stats fourCategoriesRotated = .ok
      [("1012", { count := 4, avg_rating := .text "3.00", top_cuisines := ["D", "A", "B"] })] ∧
    ¬ (["A", "B", "C"] : List String).Perm ["D", "A", "B"] := by
  refine ⟨by decide, by decide!, by decide!, by decide⟩

/-- Claim C24 (amended): for a permutation of the input `computePC4Stats` returns a mapping
with the same keys, and under each key the same count and the same average rating;
nothing is said about the top categories. -/
theorem count_and_average_independent_of_order (rs rs' : List Restaurant) (h : rs.Perm rs') :
    ∃ m m', computePC4Stats rs = .ok m ∧ computePC4Stats rs' = .ok m' ∧
      (m.map Prod.fst).Nodup ∧ (m'.map Prod.fst).Nodup ∧
      (∀ p, p ∈ m.map Prod.fst ↔ p ∈ m'.map Prod.fst) ∧
      ∀ p d, (p, d) ∈ m →
        ∃ d', (p, d') ∈ m' ∧ d'.count = d.count ∧ d'.avg_rating = d.avg_rating := by
  obtain ⟨m, hm, hn, hv⟩ := computePC4Stats_closed_form rs
  obtain ⟨m', hm', hn', hv'⟩ := computePC4Stats_closed_form rs'
  have hg : ∀ p, (group p rs).Perm (group p rs') := fun p => h.filter _
  have hnil : ∀ p, group p rs ≠ [] ↔ group p rs' ≠ [] := by
    intro p
    rw [← List.length_pos, ← List.length_pos, (hg p).length_eq]
  have hkey : ∀ (l : List (String × DistrictStats)) (p : String),
      p ∈ l.map Prod.fst ↔ ∃ d, (p, d) ∈ l := by
    intro l p
    simp
  refine ⟨m, m', hm, hm', hn, hn', ?_, ?_⟩
  · intro p
    rw [hkey, hkey]
    constructor
    · rintro ⟨d, hd⟩
      exact ⟨_, (hv' p _).2 ⟨(hnil p).1 ((hv p d).1 hd).1, rfl⟩⟩
    · rintro ⟨d, hd⟩
      exact ⟨_, (hv p _).2 ⟨(hnil p).2 ((hv' p d).1 hd).1, rfl⟩⟩
  · intro p d hd
    obtain ⟨hne, rfl⟩ := (hv p d).1 hd
    refine ⟨_, (hv' p _).2 ⟨(hnil p).1 hne, rfl⟩, ?_, ?_⟩
    · exact (hg p).length_eq.symm
    · simp only
      rw [((hg p).map _).sum_eq, (hg p).length_eq]

/-- Claim C24 (amended), at a sample input: the listings of the districts 1012 and 1017 in
reverse order give the same counts and average ratings under the same keys. -/
theorem count_and_average_independent_of_order_witness :
    mixedListings.Perm mixedListings.reverse ∧
    computePC4Stats mixedListings.reverse = .ok
      [("1012", { count := 2, avg_rating := .text "4.50", top_cuisines := ["Dutch"] }),
       ("1017", { count := 1, avg_rating := .text "0.00", top_cuisines := ["Thai"] })] ∧
    ∃ m m', computePC4Stats mixedListings = .ok m ∧
      computePC4Stats mixedListings.reverse = .ok m' ∧
      (∀ p, p ∈ m.map Prod.fst ↔ p ∈ m'.map Prod.fst) ∧
      ∀ p d, (p, d) ∈ m →
        ∃ d', (p, d') ∈ m' ∧ d'.count = d.count ∧ d'.avg_rating = d.avg_rating := by
  have h : mixedListings.Perm mixedListings.reverse := (List.reverse_perm _).symm
  obtain ⟨m, m', hm, hm', -, -, hk, hd⟩ :=
    count_and_average_independent_of_order mixedListings mixedListings.reverse h
  exact ⟨h, by decide!, m, m', hm, hm', hk, hd⟩

/-! ## Filtering works on copies -/

theorem readArray_newArray_old (h : Heap) (xs : List Restaurant) (a : ℕ) (ha : a < h.length) :
    readArray (newArray h xs).1 a = readArray h a := by
  simp [readArray, newArray, List.getD_eq_getElem?_getD, List.getElem?_append_left ha]

theorem readArray_newArray_new (h : Heap) (xs : List Restaurant) :
    readArray (newArray h xs).1 (newArray h xs).2 = xs := by
  simp [readArray, newArray, List.getD_eq_getElem?_getD]

theorem readArray_writeArray_ne (h : Heap) (xs : List Restaurant) (a b : ℕ) (hab : b ≠ a) :
    readArray (writeArray h b xs) a = readArray h a := by
  simp [readArray, writeArray, List.getD_eq_getElem?_getD, List.getElem?_set_ne hab]

theorem readArray_writeArray_eq (h : Heap) (xs : List Restaurant) (a : ℕ) (ha : a < h.length) :
    readArray (writeArray h a xs) a = xs := by
  simp [readArray, writeArray, List.getD_eq_getElem?_getD, ha]

theorem extendsHeap_newArray (h : Heap) (s : Heap × ℕ) (xs ys : List Restaurant)
    (hs : ExtendsHeap h s xs) : ExtendsHeap h (newArray s.1 ys) ys := by
  obtain ⟨h1, h2, h3, _⟩ := hs
  refine ⟨?_, ?_, ?_, readArray_newArray_new _ _⟩
  · simp only [newArray]
    omega
  · simp [newArray]
  · intro a ha
    rw [readArray_newArray_old _ _ _ (by omega)]
    exact h3 a ha

theorem extendsHeap_copy (h : Heap) (xs : List Restaurant) : ExtendsHeap h (newArray h xs) xs :=
  ⟨le_refl _, by simp [newArray], fun a ha => readArray_newArray_old h xs a ha,
    readArray_newArray_new h xs⟩

/-- What `applyFilters` does to the heap: arrays that existed before keep their
elements, and `filteredRestaurants` names a new array with the display list. -/
theorem applyFilters_heap (rt : Runtime) (p : Page) :
    (Page.applyFilters rt p).allRestaurants = p.allRestaurants ∧
    (Page.applyFilters rt p).controls = p.controls ∧
    p.heap.length ≤ (Page.applyFilters rt p).filteredRestaurants ∧
    (∀ a, a < p.heap.length →
      readArray (Page.applyFilters rt p).heap a = readArray p.heap a) ∧
    readArray (Page.applyFilters rt p).heap (Page.applyFilters rt p).filteredRestaurants =
      (applyFilters rt p.controls
        { allRestaurants := readArray p.heap p.allRestaurants }).filteredRestaurants := by
  have h0 := extendsHeap_copy p.heap (readArray p.heap p.allRestaurants)
  generalize hs0 : newArray p.heap (readArray p.heap p.allRestaurants) = s0 at h0
  generalize hx0 : readArray p.heap p.allRestaurants = x0 at h0
  have h1 : ∃ s1, s1 = (if rt.toLowerCase (trim p.controls.searchInput) ≠ "" then
        newArray s0.1 ((readArray s0.1 s0.2).filter
          (matchesSearch rt (rt.toLowerCase (trim p.controls.searchInput))))
      else s0) ∧
      ExtendsHeap p.heap s1 (if rt.toLowerCase (trim p.controls.searchInput) ≠ "" then
        x0.filter (matchesSearch rt (rt.toLowerCase (trim p.controls.searchInput))) else x0) := by
    refine ⟨_, rfl, ?_⟩
    split_ifs with hc
    · rw [h0.2.2.2]
      exact extendsHeap_newArray _ _ _ _ h0
    · exact h0
  obtain ⟨s1, hs1, h1⟩ := h1
  generalize hx1 : (if rt.toLowerCase (trim p.controls.searchInput) ≠ "" then
        x0.filter (matchesSearch rt (rt.toLowerCase (trim p.controls.searchInput))) else x0) = x1
    at h1
  have h2 : ∃ s2, s2 = (match rt.parseFloat p.controls.minRating with
        | some m =>
          if m ≠ 0 then newArray s1.1 ((readArray s1.1 s1.2).filter (meetsRating m)) else s1
        | none => s1) ∧
      ExtendsHeap p.heap s2 (match rt.parseFloat p.controls.minRating with
        | some m => if m ≠ 0 then x1.filter (meetsRating m) else x1
        | none => x1) := by
    refine ⟨_, rfl, ?_⟩
    cases rt.parseFloat p.controls.minRating with
    | none => exact h1
    | some m =>
      simp only
      split_ifs with hc
      · rw [h1.2.2.2]
        exact extendsHeap_newArray _ _ _ _ h1
      · exact h1
  obtain ⟨s2, hs2, h2⟩ := h2
  generalize hx2 : (match rt.parseFloat p.controls.minRating with
        | some m => if m ≠ 0 then x1.filter (meetsRating m) else x1
        | none => x1) = x2 at h2
  have h3 : ∃ s3, s3 = (if rt.toLowerCase p.controls.cuisineFilter ≠ "" then
        newArray s2.1 ((readArray s2.1 s2.2).filter
          (matchesCuisine rt (rt.toLowerCase p.controls.cuisineFilter)))
      else s2) ∧
      ExtendsHeap p.heap s3 (if rt.toLowerCase p.controls.cuisineFilter ≠ "" then
        x2.filter (matchesCuisine rt (rt.toLowerCase p.controls.cuisineFilter)) else x2) := by
    refine ⟨_, rfl, ?_⟩
    split_ifs with hc
    · rw [h2.2.2.2]
      exact extendsHeap_newArray _ _ _ _ h2
    · exact h2
  obtain ⟨s3, hs3, h3⟩ := h3
  have hp : Page.applyFilters rt p =
      { p with
        heap := writeArray s3.1 s3.2 (sortFiltered rt p.controls.sortBy (readArray s3.1 s3.2))
        filteredRestaurants := s3.2 } := by
    subst hs3 hs2 hs1 hs0
    rfl
  rw [hp]
  obtain ⟨g1, g2, g3, g4⟩ := h3
  refine ⟨rfl, rfl, g1, ?_, ?_⟩
  · intro a ha
    simp only
    rw [readArray_writeArray_ne _ _ _ _ (by omega)]
    exact g3 a ha
  · simp only
    rw [readArray_writeArray_eq _ _ _ g2, g4]
    subst hx2 hx1 hx0
    rfl

/-- C25: in the deployed app, on a page whose `allRestaurants` names an existing array,
for every search text, cuisine, minimum rating and sort key in the controls,
`applyFilters` leaves `allRestaurants` naming the same array with the same elements in
the same order, while `filteredRestaurants` gets the filtered and sorted list; a
following `resetFilters` makes `filteredRestaurants` name the array of `allRestaurants`,
whose elements are still those loaded, in load order, and resets the controls. -/
theorem applyFilters_resetFilters_keep_allRestaurants (rt : Runtime) (p : Page)
    (h : p.allRestaurants < p.heap.length) :
    (Page.applyFilters rt p).allRestaurants = p.allRestaurants ∧
    readArray (Page.applyFilters rt p).heap (Page.applyFilters rt p).allRestaurants =
      readArray p.heap p.allRestaurants ∧
    readArray (Page.applyFilters rt p).heap (Page.applyFilters rt p).filteredRestaurants =
      (applyFilters rt p.controls
        { allRestaurants := readArray p.heap p.allRestaurants }).filteredRestaurants ∧
    (Page.resetFilters (Page.applyFilters rt p)).allRestaurants = p.allRestaurants ∧
    (Page.resetFilters (Page.applyFilters rt p)).filteredRestaurants = p.allRestaurants ∧
    readArray (Page.resetFilters (Page.applyFilters rt p)).heap
        (Page.resetFilters (Page.applyFilters rt p)).filteredRestaurants =
      readArray p.heap p.allRestaurants ∧
    readArray (Page.resetFilters (Page.applyFilters rt p)).heap
        (Page.resetFilters (Page.applyFilters rt p)).allRestaurants =
      readArray p.heap p.allRestaurants ∧
    (Page.resetFilters (Page.applyFilters rt p)).controls = {} := by
  obtain ⟨h1, _, _, h4, h5⟩ := applyFilters_heap rt p
  refine ⟨h1, ?_, h5, h1, h1, ?_, ?_, rfl⟩
  · rw [h1]
    exact h4 _ h
  · simp only [Page.resetFilters, h1]
    exact h4 _ h
  · simp only [Page.resetFilters, h1]
    exact h4 _ h

/-- The theorem at `samplePage`, where both variables name the one loaded array: the
search for "1012" sorted by name shows two restaurants in a new array, and the loaded
array still has its four restaurants in load order. -/
theorem applyFilters_resetFilters_keep_allRestaurants_witness :
    samplePage.allRestaurants < samplePage.heap.length ∧
    samplePage.filteredRestaurants = samplePage.allRestaurants ∧
    (readArray (Page.applyFilters sampleRuntime samplePage).heap
        (Page.applyFilters sampleRuntime samplePage).filteredRestaurants).map (fun r => r.name) =
      [some "Bird", some "Cafe Hoppe"] ∧
    readArray (Page.applyFilters sampleRuntime samplePage).heap
        (Page.applyFilters sampleRuntime samplePage).allRestaurants =
      sampleGlobals.allRestaurants ∧
    readArray (Page.resetFilters (Page.applyFilters sampleRuntime samplePage)).heap
        (Page.resetFilters (Page.applyFilters sampleRuntime samplePage)).filteredRestaurants =
      sampleGlobals.allRestaurants :=
  ⟨by decide, rfl, by decide!,
    (applyFilters_resetFilters_keep_allRestaurants sampleRuntime samplePage (by decide)).2.1,
    (applyFilters_resetFilters_keep_allRestaurants sampleRuntime samplePage
      (by decide)).2.2.2.2.2.1⟩

/-! ## The exported CSV text reads back -/

theorem readCsvFrom_plain_run (f : List Char) (hf : ∀ c ∈ f, c ≠ ',' ∧ c ≠ '"' ∧ c ≠ '\n')
    (field : List Char) (record : List String) (records : List (List String))
    (rest : List Char) :
    readCsvFrom .plain field record records (f ++ rest) =
      readCsvFrom .plain (field ++ f) record records rest := by
  induction f generalizing field with
  | nil => simp
  | cons c f ih =>
    have hc := hf c (List.mem_cons_self _ _)
    rw [List.cons_append, readCsvFrom]
    simp only [hc.1, hc.2.1, hc.2.2, if_false, false_and]
    rw [ih (fun x hx => hf x (List.mem_cons_of_mem _ hx))]
    simp

theorem readCsvFrom_quoted_run (s : List Char) (field : List Char) (record : List String)
    (records : List (List String)) (rest : List Char) :
    readCsvFrom .quoted field record records (escapeQuotes s ++ '"' :: rest) =
      readCsvFrom .afterQuote (field ++ s) record records rest := by
  induction s generalizing field with
  | nil => simp [escapeQuotes, readCsvFrom]
  | cons c s ih =>
    by_cases h : c = '"'
    · subst h
      rw [escapeQuotes, if_pos rfl, List.cons_append, List.cons_append, readCsvFrom,
        if_pos rfl, readCsvFrom, if_pos rfl, ih]
      simp
    · rw [escapeQuotes, if_neg h, List.cons_append, readCsvFrom, if_neg h, ih]
      simp

theorem toList_quoted (s : List Char) :
    ("\"" ++ String.mk s ++ "\"").toList = '"' :: (s ++ ['"']) := by
  simp [String.toList, String.data_append]

theorem readCsvFrom_open_quote (s : List Char) (record : List String)
    (records : List (List String)) (rest : List Char) :
    readCsvFrom .plain [] record records (('"' :: (escapeQuotes s ++ ['"'])) ++ rest) =
      readCsvFrom .afterQuote s record records rest := by
  have e : ('"' :: (escapeQuotes s ++ ['"'])) ++ rest = '"' :: (escapeQuotes s ++ '"' :: rest) := by
    simp
  rw [e, readCsvFrom, if_neg (by decide), if_neg (by decide), if_pos ⟨rfl, rfl⟩,
    readCsvFrom_quoted_run, List.nil_append]

/-- A written field followed by more text is read up to its end. -/
theorem readCsvFrom_field (text value : String) (h : WritesField text value)
    (record : List String) (records : List (List String)) (rest : List Char) :
    readCsvFrom .plain [] record records (text.toList ++ ',' :: rest) =
        readCsvFrom .plain [] (record ++ [value]) records rest ∧
    readCsvFrom .plain [] record records (text.toList ++ '\n' :: rest) =
        readCsvFrom .plain [] [] (records ++ [record ++ [value]]) rest ∧
    (record ≠ [] → readCsvFrom .plain [] record records text.toList =
        records ++ [record ++ [value]]) := by
  have hv : String.mk value.toList = value := rfl
  rcases h with h | ⟨h, hf⟩
  · subst h
    rw [toList_quoted]
    refine ⟨?_, ?_, ?_⟩
    · rw [readCsvFrom_open_quote, readCsvFrom, if_neg (by decide), if_pos rfl, hv]
    · rw [readCsvFrom_open_quote, readCsvFrom, if_neg (by decide), if_neg (by decide),
        if_pos rfl, hv]
    · intro _
      have := readCsvFrom_open_quote value.toList record records []
      rw [List.append_nil] at this
      rw [this, readCsvFrom, hv]
  · subst h
    refine ⟨?_, ?_, ?_⟩
    · rw [readCsvFrom_plain_run _ hf, readCsvFrom, if_pos rfl, List.nil_append, hv]
    · rw [readCsvFrom_plain_run _ hf, readCsvFrom, if_neg (by decide), if_pos rfl,
        List.nil_append, hv]
    · intro hr
      have := readCsvFrom_plain_run text.toList hf [] record records []
      rw [List.append_nil, List.nil_append] at this
      rw [this, readCsvFrom, if_neg (fun h => hr h.2), hv]

theorem toList_joinWith_cons_cons (sep s t : String) (rest : List String) :
    (joinWith sep (s :: t :: rest)).toList =
      s.toList ++ (sep.toList ++ (joinWith sep (t :: rest)).toList) := by
  simp [joinWith, String.toList, String.data_append]

/-- A line of written fields is read as one record of their values. -/
theorem readCsvFrom_line (cells : List (String × String)) (hne : cells ≠ [])
    (hw : ∀ c ∈ cells, WritesField c.1 c.2)
    (record : List String) (records : List (List String)) (rest : List Char) :
    readCsvFrom .plain [] record records
        ((joinWith "," (cells.map Prod.fst)).toList ++ '\n' :: rest) =
      readCsvFrom .plain [] [] (records ++ [record ++ cells.map Prod.snd]) rest ∧
    (record ≠ [] ∨ 2 ≤ cells.length →
      readCsvFrom .plain [] record records (joinWith "," (cells.map Prod.fst)).toList =
        records ++ [record ++ cells.map Prod.snd]) := by
  induction cells generalizing record with
  | nil => exact absurd rfl hne
  | cons c cells ih =>
    have hc := readCsvFrom_field c.1 c.2 (hw c (List.mem_cons_self _ _)) record records
    cases cells with
    | nil =>
      refine ⟨?_, ?_⟩
      · simpa [joinWith] using (hc rest).2.1
      · intro h
        have hr : record ≠ [] := by
          rcases h with h | h
          · exact h
          · simp at h
        simpa [joinWith] using (hc rest).2.2 hr
    | cons d cells =>
      have ih' := ih (by simp) (fun x hx => hw x (List.mem_cons_of_mem _ hx))
        (record ++ [c.2])
      have hsep : (",".toList : List Char) = [','] := rfl
      simp only [List.map_cons, toList_joinWith_cons_cons, hsep, List.singleton_append,
        List.append_assoc, List.cons_append, List.nil_append] at ih' ⊢
      refine ⟨?_, ?_⟩
      · rw [(hc _).1, ih'.1]
      · intro _
        rw [(hc _).1, ih'.2 (Or.inl (by simp))]

/-- A text of lines, each with at least two written fields, is read as their records. -/
theorem readCsvFrom_lines (lines : List (List (String × String))) (hne : lines ≠ [])
    (hlen : ∀ l ∈ lines, 2 ≤ l.length) (hw : ∀ l ∈ lines, ∀ c ∈ l, WritesField c.1 c.2)
    (records : List (List String)) :
    readCsvFrom .plain [] [] records
        (joinWith "\n" (lines.map fun l => joinWith "," (l.map Prod.fst))).toList =
      records ++ lines.map fun l => l.map Prod.snd := by
  induction lines generalizing records with
  | nil => exact absurd rfl hne
  | cons l lines ih =>
    have hl2 := hlen l (List.mem_cons_self _ _)
    have hl := readCsvFrom_line l (by intro h; simp [h] at hl2)
      (hw l (List.mem_cons_self _ _)) [] records
    cases lines with
    | nil =>
      have := (hl []).2 (Or.inr hl2)
      simpa [joinWith] using this
    | cons m lines =>
      have ih' := ih (by simp) (fun x hx => hlen x (List.mem_cons_of_mem _ hx))
        (fun x hx => hw x (List.mem_cons_of_mem _ hx)) (records ++ [l.map Prod.snd])
      have hsep : ("\n".toList : List Char) = ['\n'] := rfl
      simp only [List.map_cons, toList_joinWith_cons_cons, hsep, List.singleton_append,
        List.nil_append] at ih' ⊢
      rw [(hl _).1, List.nil_append, ih']
      simp

theorem writesField_quotedField (value : Option String) :
    WritesField (quotedField value) (value.getD "") :=
  Or.inl rfl

theorem writesField_numberField (numberToString : ℚ → String)
    (hnum : ∀ q, ∀ c ∈ (numberToString q).toList, c ≠ ',' ∧ c ≠ '"' ∧ c ≠ '\n')
    (value : Option ℚ) :
    WritesField (numberField numberToString value) (numberField numberToString value) := by
  refine Or.inr ⟨rfl, ?_⟩
  unfold numberField
  cases value with
  | none => simp
  | some q =>
    by_cases h : q = 0
    · simp [h]
    · simpa [h] using hnum q

theorem writesField_csvHeaders : ∀ c ∈ csvHeaders.zip csvHeaders, WritesField c.1 c.2 := by
  intro c hc
  refine Or.inr ?_
  revert c
  decide

theorem writesField_csvFields (numberToString : ℚ → String)
    (hnum : ∀ q, ∀ c ∈ (numberToString q).toList, c ≠ ',' ∧ c ≠ '"' ∧ c ≠ '\n')
    (r : Restaurant) :
    ∀ c ∈ (csvFields numberToString r).zip (csvValues numberToString r),
      WritesField c.1 c.2 := by
  intro c hc
  simp only [csvFields, csvValues, List.zip_cons_cons, List.zip_nil_right, List.mem_cons,
    List.mem_singleton, List.not_mem_nil, or_false] at hc
  rcases hc with h | h | h | h | h | h | h | h | h | h <;> subst h
  · exact writesField_quotedField _
  · exact writesField_numberField _ hnum _
  · exact writesField_numberField _ hnum _
  · exact writesField_quotedField _
  · exact writesField_quotedField _
  · exact writesField_quotedField _
  · exact writesField_quotedField _
  · exact writesField_quotedField _
  · exact writesField_numberField _ hnum _
  · exact writesField_numberField _ hnum _

/-- The exported text, read back, is the header record followed by one record of ten
values per restaurant. -/
theorem readCsv_exportToCSV (numberToString : ℚ → String)
    (hnum : ∀ q, ∀ c ∈ (numberToString q).toList, c ≠ ',' ∧ c ≠ '"' ∧ c ≠ '\n')
    (rs : List Restaurant) (hne : rs ≠ []) :
    ∃ text, exportToCSV numberToString rs = some text ∧
      readCsv text = csvHeaders :: rs.map (csvValues numberToString) := by
  have hlen : rs.length ≠ 0 := fun h => hne (List.length_eq_zero.1 h)
  refine ⟨joinWith "\n" (joinWith "," csvHeaders ::
    rs.map fun r => joinWith "," (csvFields numberToString r)),
    by simp only [exportToCSV, hlen, if_false], ?_⟩
  have h := readCsvFrom_lines
    (csvHeaders.zip csvHeaders ::
      rs.map fun r => (csvFields numberToString r).zip (csvValues numberToString r))
    (by simp)
    (by
      intro l hl
      rcases List.mem_cons.1 hl with hl | hl
      · subst hl
        decide
      · obtain ⟨r, _, rfl⟩ := List.mem_map.1 hl
        simp [csvFields, csvValues])
    (by
      intro l hl
      rcases List.mem_cons.1 hl with hl | hl
      · subst hl
        exact writesField_csvHeaders
      · obtain ⟨r, _, rfl⟩ := List.mem_map.1 hl
        exact writesField_csvFields numberToString hnum r)
    []
  have e1 : ((csvHeaders.zip csvHeaders ::
        rs.map fun r => (csvFields numberToString r).zip (csvValues numberToString r)).map
        fun l => joinWith "," (l.map Prod.fst)) =
      joinWith "," csvHeaders :: rs.map fun r => joinWith "," (csvFields numberToString r) := by
    rw [List.map_cons, List.map_map]
    rfl
  have e2 : ((csvHeaders.zip csvHeaders ::
        rs.map fun r => (csvFields numberToString r).zip (csvValues numberToString r)).map
        fun l => l.map Prod.snd) =
      csvHeaders :: rs.map (csvValues numberToString) := by
    rw [List.map_cons, List.map_map]
    rfl
  rw [e1, e2, List.nil_append] at h
  exact h

/-- C26: for every non-empty list of restaurants, with any rendering of numbers that
uses no comma, double quote or line feed, `exportToCSV` builds a text which, read back
by the usual CSV rules, has exactly 1 + n records of exactly 10 fields each, as many as
the header row, which is the first record; and in record i + 1 the name, address, phone,
cuisine, price level and website fields are exactly the strings of the i-th restaurant,
an absent field reading back as the empty string, whatever characters they contain. -/
theorem exportToCSV_round_trip (numberToString : ℚ → String)
    (hnum : ∀ q, ∀ c ∈ (numberToString q).toList, c ≠ ',' ∧ c ≠ '"' ∧ c ≠ '\n')
    (rs : List Restaurant) (hne : rs ≠ []) :
    ∃ text, exportToCSV numberToString rs = some text ∧
      (readCsv text).length = 1 + rs.length ∧
      (∀ record ∈ readCsv text, record.length = 10) ∧
      csvHeaders.length = 10 ∧
      (readCsv text)[0]? = some csvHeaders ∧
      ∀ (i : ℕ) (r : Restaurant), rs[i]? = some r →
        ∃ record, (readCsv text)[i + 1]? = some record ∧
          record[0]? = some (r.name.getD "") ∧
          record[3]? = some (r.address.getD "") ∧
          record[4]? = some (r.phone.getD "") ∧
          record[5]? = some (r.cuisine.getD "") ∧
          record[6]? = some (r.price_level.getD "") ∧
          record[7]? = some (r.website.getD "") := by
  obtain ⟨text, h1, h2⟩ := readCsv_exportToCSV numberToString hnum rs hne
  refine ⟨text, h1, ?_, ?_, rfl, ?_, ?_⟩
  · rw [h2, List.length_cons, List.length_map, Nat.add_comm]
  · intro record hrec
    rw [h2] at hrec
    rcases List.mem_cons.1 hrec with h | h
    · subst h
      rfl
    · obtain ⟨r, _, rfl⟩ := List.mem_map.1 h
      rfl
  · rw [h2, List.getElem?_cons_zero]
  · intro i r hi
    refine ⟨csvValues numberToString r, ?_, ?_⟩
    rotate_left
    · simp [csvValues]
    rw [h2, List.getElem?_cons_succ, List.getElem?_map, hi]
    rfl

/-- The theorem at `exportedListings`, whose first name holds a comma and double quotes
and whose first address holds a line feed: the text that is built, and what is read
back from it. -/
theorem exportToCSV_round_trip_witness :
    (∀ q, ∀ c ∈ (sampleNumberToString q).toList, c ≠ ',' ∧ c ≠ '"' ∧ c ≠ '\n') ∧
    exportedListings ≠ [] ∧
    exportToCSV sampleNumberToString exportedListings =
      some ("Name,Rating,Reviews,Address,Phone,Cuisine,Price Level,Website,Latitude,Longitude\n" ++
        "\"Bar \"\"De Twee\"\", Oost\",4.5,120,\"Linnaeusstraat 2,\n1092 CK Amsterdam\",\"\"," ++
        "\"Dutch, Bar\",\"\",\"\",52.368,4.8916\n" ++
        "\"Pop-up\",,,\"\",\"\",\"\",\"\",\"https://example.org/?a=1,2\",,") ∧
    (exportToCSV sampleNumberToString exportedListings).map readCsv =
      some [csvHeaders,
        ["Bar \"De Twee\", Oost", "4.5", "120", "Linnaeusstraat 2,\n1092 CK Amsterdam", "",
          "Dutch, Bar", "", "", "52.368", "4.8916"],
        ["Pop-up", "", "", "", "", "", "", "https://example.org/?a=1,2", "", ""]] ∧
    ∃ text, exportToCSV sampleNumberToString exportedListings = some text ∧
      (readCsv text).length = 1 + exportedListings.length ∧
      (∀ record ∈ readCsv text, record.length = 10) ∧
      csvHeaders.length = 10 ∧
      (readCsv text)[0]? = some csvHeaders ∧
      ∀ (i : ℕ) (r : Restaurant), exportedListings[i]? = some r →
        ∃ record, (readCsv text)[i + 1]? = some record ∧
          record[0]? = some (r.name.getD "") ∧
          record[3]? = some (r.address.getD "") ∧
          record[4]? = some (r.phone.getD "") ∧
          record[5]? = some (r.cuisine.getD "") ∧
          record[6]? = some (r.price_level.getD "") ∧
          record[7]? = some (r.website.getD "") :=
  ⟨by intro q; unfold sampleNumberToString; split_ifs <;> decide,
    by decide, by decide!, by decide!,
    exportToCSV_round_trip sampleNumberToString
      (by intro q; unfold sampleNumberToString; split_ifs <;> decide)
      exportedListings (by decide)⟩

end Mapper
